import Mathlib

/-!
# FromIPSummaryDump: record source, directives, record parser, pass 1, post-pass and emission

A shallow embedding of `elements/analysis/fromipsumdump.cc`.

* Click `String`s are lists of bytes (`Str`); a byte is a natural number.
* C pointers into the record buffer are addresses (natural numbers); the null
  pointer is the address `0`.
* The packet descriptor `IPSummaryDump::PacketOdesc`, the field registry and the
  `confparse` helpers are declared outside this file's source; they are taken
  as parameters, collected in `Env`.
* `FromFile` (the record source behind `_ff`) is modelled from the specification.
* A `Timestamp` is a whole number of its subsecond units.  Clock readings, random
  draws, the outcome of `clone` and `uniqueify`, the timer adjustment and the
  division of a `Timestamp` are parameters of the emission code, collected in
  `RunEnv`; the calls it makes on timer, task, notifier and output are logged.
-/

namespace FromIPSummaryDump

/-! ## Strings and characters -/

/-- One byte of a Click `String`. -/
abbrev Byte := Nat

/-- A Click `String`: a sequence of bytes. -/
abbrev Str := List Byte

/-- The bytes of a string literal of the source. -/
def str (s : String) : Str := s.toList.map Char.toNat

/-- The C library's `isspace` on an `unsigned char`, "C" locale: space and the
control characters `\t \n \v \f \r`. -/
def isspace (c : Byte) : Bool := c == 32 || (9 ≤ c && c ≤ 13)

/-! ## Field readers -/

/-- The wire-width classes named by the `switch` of `read_packet`; `B_OTHER`
stands for every class that the switch leaves to its `default:` label. -/
inductive WireType where
  | B_0
  | B_1
  | B_2
  | B_4
  | B_4NET
  | B_6PTR
  | B_8
  | B_16
  | B_SPECIAL
  | B_OTHER (code : Nat)
  deriving DecidableEq, Repr

/-- A record buffer: the address of its first byte and its bytes. -/
structure Line where
  base : Nat
  bytes : Str
  deriving DecidableEq, Repr

/-- The value of `line.end()`. -/
def Line.end_ (l : Line) : Nat := l.base + l.bytes.length

/-- An `IPSummaryDump::FieldReader` over packet descriptors of type `D`.
`read_packet` tests `inb` and `inject` against null, so both are optional;
`ina` is called without a test.  `inb d line s` is the call
`inb(d, s, line.end(), f)`; it returns a pointer (null is `0`). -/
structure FieldReader (D : Type) where
  name : String
  type : WireType
  order : Int
  ina : D → Str → Bool × D
  inb : Option (D → Line → Nat → Nat × D)
  inject : Option (D → D)

/-- An `IPFlowID`: addresses and ports, ports in network byte order. -/
structure IPFlowID where
  saddr : Nat
  sport : Nat
  daddr : Nat
  dport : Nat
  deriving DecidableEq, Repr

/-- The 16-bit byte swap `htons` of a little-endian host. -/
def htons (x : Nat) : Nat := (x % 256) * 256 + (x / 256) % 256

/-- What `read_packet` and the directive handlers use but this source file does
not define: the field registry (`FieldReader::find`, `null_reader`), the
`confparse` helpers, the address of the record buffer, and the operations of
`PacketOdesc` (`make_desc` is `Packet::make` followed by the constructor, `none`
when the allocation fails; `has_p d` is `d.p != 0`; `fixup` is the post-pass of
`read_packet` on a packet that kept at least one field). -/
structure Env (D : Type) where
  find : Str → Option (FieldReader D)
  null_reader : FieldReader D
  cp_spacevec : Str → List Str
  cp_unquote : Str → Str
  cp_ip_address : Str → Option Nat
  cp_integer : Str → Option Nat
  buf : Nat
  make_desc : Bool → Nat → Option IPFlowID → Option D
  has_p : D → Bool
  clear_values : D → D
  fixup : Bool → D → D

/-! ## The record source -/

/-- Modelled from the spec: `FromFile`, the record source of section 4.A, which
is not part of this source file.  It holds the unread bytes, the line (record)
counter, whether the source is open, the landmark template, and the messages
handed to the error handler. -/
structure FromFile where
  input : Str
  lineno : Nat
  initialized : Bool
  landmark : String
  messages : List String
  deriving DecidableEq, Repr

namespace FromFile

/-- Modelled from the spec: `FromFile::error` emits the message through the
error handler and returns a negative value; it never raises. -/
def error (ff : FromFile) (msg : String) : FromFile × Int :=
  ({ ff with messages := ff.messages ++ [msg] }, -1)

/-- Modelled from the spec: `FromFile::warning` emits the message through the
error handler. -/
def warning (ff : FromFile) (msg : String) : FromFile :=
  { ff with messages := ff.messages ++ [msg] }

/-- Modelled from the spec: `FromFile::cleanup` closes the source, which is
then uninitialized. -/
def cleanup (ff : FromFile) : FromFile :=
  { ff with initialized := false }

/-- Modelled from the spec: `FromFile::get_unaligned(n, ..)` copies the next
`n` bytes; the result is null when they are not there. -/
def get_unaligned (ff : FromFile) (n : Nat) : FromFile × Option Str :=
  if n ≤ ff.input.length then
    ({ ff with input := ff.input.drop n }, some (ff.input.take n))
  else
    ({ ff with input := [] }, none)

/-- Modelled from the spec: `FromFile::get_string(n, ..)` returns the next `n`
bytes; the result is the empty `String` when they are not there. -/
def get_string (ff : FromFile) (n : Nat) : FromFile × Str :=
  if n ≤ ff.input.length then
    ({ ff with input := ff.input.drop n }, ff.input.take n)
  else
    ({ ff with input := [] }, [])

/-- Modelled from the spec: `FromFile::read_line` returns the next text line,
its newline included (the directive tests of `read_packet` look for the
whitespace after `!binary`), and counts it; the result is `0` at end of file. -/
def read_line (ff : FromFile) : FromFile × Str × Int :=
  match ff.input with
  | [] => (ff, [], 0)
  | c :: cs =>
    let body := (c :: cs).takeWhile (fun b => b != 10)
    let rest := (c :: cs).dropWhile (fun b => b != 10)
    match rest with
    | [] => ({ ff with input := [], lineno := ff.lineno + 1 }, body, 1)
    | nl :: rest2 =>
      ({ ff with input := rest2, lineno := ff.lineno + 1 }, body ++ [nl], 1)

end FromFile

/-! ## Engine state -/

/-- The members of `FromIPSummaryDump` that the directive handlers and
`read_packet` read or write. -/
structure State (D : Type) where
  _ff : FromFile
  _fields : List (FieldReader D)
  _field_order : List Nat
  _default_proto : Nat
  _zero : Bool
  _checksum : Bool
  _binary : Bool
  _format_complaint : Bool
  _have_flowid : Bool
  _given_flowid : IPFlowID
  _flowid : IPFlowID
  _have_aggregate : Bool
  _aggregate : Nat

/-! ## Sorting the field order -/

/-- The `order` member of `_fields[a]`. -/
def field_order_key {D : Type} (fields : List (FieldReader D)) (a : Nat) : Int :=
  match fields[a]? with
  | some f => f.order
  | none => 0

/-- The comparison `FromIPSummaryDump::sort_fields_compare`, with `user_data->_fields` as
`fields`. -/
def sort_fields_compare {D : Type} (fields : List (FieldReader D)) (a b : Nat) : Int :=
  if field_order_key fields a < field_order_key fields b then -1
  else if field_order_key fields a > field_order_key fields b then 1
  else if a < b then -1 else if a = b then 0 else 1

/-- Inserting one element in front of the first element it does not exceed. -/
def qsort_insert (compar : Nat → Nat → Int) (x : Nat) : List Nat → List Nat
  | [] => [x]
  | y :: ys => if compar x y ≤ 0 then x :: y :: ys else y :: qsort_insert compar x ys

/-- Modelled from the spec: `click_qsort` (Click's library sort, not part of
this source file) as the insertion sort of the design notes, ordering by the
comparison function it is given. -/
def click_qsort (compar : Nat → Nat → Int) : List Nat → List Nat
  | [] => []
  | x :: xs => qsort_insert compar x (click_qsort compar xs)

/-! ## `!data` -/

/-- The reader that `bang_data` stores for one word, and the warning it
emits. -/
def bang_data_reader {D : Type} (env : Env D) (ff : FromFile) (word : Str) :
    FieldReader D × FromFile :=
  match env.find word with
  | none => (env.null_reader, ff.warning "unknown content type '%s'")
  | some f =>
    match f.inject with
    | none => (env.null_reader, ff.warning "content type '%s' ignored on input")
    | some _ => (f, ff)

/-- The `for` loop of `bang_data` from index `i` on. -/
def bang_data_loop {D : Type} (env : Env D) :
    List Str → Nat → List (FieldReader D) → List Nat → FromFile →
      List (FieldReader D) × List Nat × FromFile
  | [], _, fields, order, ff => (fields, order, ff)
  | w :: ws, i, fields, order, ff =>
    let word := env.cp_unquote w
    if i = 0 ∧ (word = str "!data" ∨ word = str "!contents") then
      bang_data_loop env ws (i + 1) fields order ff
    else
      let r := bang_data_reader env ff word
      let fields1 := fields ++ [r.1]
      bang_data_loop env ws (i + 1) fields1 (order ++ [fields1.length - 1]) r.2

/-- The method `FromIPSummaryDump::bang_data`. -/
def bang_data {D : Type} (env : Env D) (s : State D) (line : Str) : State D :=
  let words := env.cp_spacevec line
  let r := bang_data_loop env words 0 [] [] s._ff
  let fields := r.1
  let order := r.2.1
  let ff := if fields.length = 0 then (r.2.2.error "no contents specified").1 else r.2.2
  { s with
    _ff := ff
    _fields := fields
    _field_order :=
      click_qsort (sort_fields_compare fields) (order.take fields.length)
        ++ order.drop fields.length }

/-! ## `!flowid`, `!aggregate`, `!binary` -/

/-- The protocol number of ICMP. -/
def IP_PROTO_ICMP : Nat := 1

/-- The protocol number of TCP. -/
def IP_PROTO_TCP : Nat := 6

/-- The protocol number of UDP. -/
def IP_PROTO_UDP : Nat := 17

/-- The optional sixth word of `!flowid`: the new `_default_proto`, or `none`
for "bad protocol in !flowid". -/
def bang_flowid_proto {D : Type} (env : Env D) (w5 : Str) : Option Nat :=
  match env.cp_integer w5 with
  | some proto =>
    if proto < 256 then some proto
    else if w5 = str "T" then some IP_PROTO_TCP
    else if w5 = str "U" then some IP_PROTO_UDP
    else if w5 = str "I" then some IP_PROTO_ICMP
    else none
  | none =>
    if w5 = str "T" then some IP_PROTO_TCP
    else if w5 = str "U" then some IP_PROTO_UDP
    else if w5 = str "I" then some IP_PROTO_ICMP
    else none

/-- The method `FromIPSummaryDump::bang_flowid`. -/
def bang_flowid {D : Type} (env : Env D) (s : State D) (line : Str) : State D :=
  let words := env.cp_spacevec line
  let w := fun i => words.getD i []
  let src := (env.cp_ip_address (w 1)).getD 0
  let sport := (env.cp_integer (w 2)).getD 0
  let dst := (env.cp_ip_address (w 3)).getD 0
  let dport := (env.cp_integer (w 4)).getD 0
  if words.length < 5
      ∨ (env.cp_ip_address (w 1) = none ∧ w 1 ≠ str "-")
      ∨ (env.cp_integer (w 2) = none ∧ w 2 ≠ str "-")
      ∨ (env.cp_ip_address (w 3) = none ∧ w 3 ≠ str "-")
      ∨ (env.cp_integer (w 4) = none ∧ w 4 ≠ str "-")
      ∨ sport > 65535 ∨ dport > 65535 then
    { s with
      _ff := (s._ff.error "bad !flowid specification").1
      _have_flowid := false }
  else
    let s1 : State D :=
      if 6 ≤ words.length then
        match bang_flowid_proto env (w 5) with
        | some proto => { s with _default_proto := proto }
        | none => { s with _ff := (s._ff.error "bad protocol in !flowid").1 }
      else s
    { s1 with
      _given_flowid := IPFlowID.mk src (htons sport) dst (htons dport)
      _have_flowid := true }

/-- The method `FromIPSummaryDump::bang_aggregate`. -/
def bang_aggregate {D : Type} (env : Env D) (s : State D) (line : Str) : State D :=
  let words := env.cp_spacevec line
  if words.length ≠ 2 then
    { s with
      _ff := (s._ff.error "bad !aggregate specification").1
      _have_aggregate := false }
  else
    match env.cp_integer (words.getD 1 []) with
    | none =>
      { s with
        _ff := (s._ff.error "bad !aggregate specification").1
        _have_aggregate := false }
    | some v => { s with _aggregate := v, _have_aggregate := true }

/-- The method `FromIPSummaryDump::bang_binary`. -/
def bang_binary {D : Type} (env : Env D) (s : State D) (line : Str) : State D :=
  let words := env.cp_spacevec line
  let ff := if words.length ≠ 1 then (s._ff.error "bad !binary specification").1 else s._ff
  { s with
    _binary := true
    _ff := { ff with landmark := "%f:record %l", lineno := 1 } }

/-! ## Binary framing -/

/-- The macro `GET4`: a big-endian 32-bit value from four bytes. -/
def GET4 (p : Str) : Nat :=
  (p.getD 0 0 <<< 24) ||| (p.getD 1 0 <<< 16) ||| (p.getD 2 0 <<< 8) ||| p.getD 3 0

/-- The method `FromIPSummaryDump::read_binary`; `result` is the caller's string, which an
early return leaves as it was. -/
def read_binary {D : Type} (s : State D) (result : Str) : State D × Str × Int :=
  let r := s._ff.get_unaligned 4
  match r.2 with
  | none => ({ s with _ff := r.1 }, result, 0)
  | some record =>
    let record_length := GET4 record &&& 0x7FFFFFFF
    if record_length < 4 then
      let e := r.1.error "binary record too short"
      ({ s with _ff := e.1 }, result, e.2)
    else
      let textual : Bool := (record.getD 0 0 &&& 0x80) != 0
      let g := r.1.get_string (record_length - 4)
      if g.2 = [] then
        ({ s with _ff := g.1 }, g.2, 0)
      else
        let result1 := if textual then g.2.rdropWhile (fun b => b == 0) else g.2
        ({ s with _ff := { g.1 with lineno := g.1.lineno + 1 } }, result1,
          if textual then 2 else 1)

/-! ## Record parser -/

/-- The scan inside a double-quoted span, after its opening quote; `escaped`
says that the previous byte was a backslash. -/
def skip_quoted : Bool → Str → Str
  | _, [] => []
  | true, _ :: rest => skip_quoted false rest
  | false, c :: rest =>
    if c = 92 then skip_quoted true rest
    else if c = 34 then rest
    else skip_quoted false rest

/-- Modelled from the spec: `cp_skip_double_quote` (a `confparse` helper, not
part of this source file) skips a double-quoted span with backslash escapes;
`data` starts at the opening quote and the result is what follows the span. -/
def cp_skip_double_quote (data : Str) : Str := skip_quoted false data.tail

/-- The inner `while (data < end)` loop of the ASCII tokenizer: the input left
when the loop ends.  One unit of fuel is one trip through the loop. -/
def scan_token : Nat → Str → Str
  | 0, data => data
  | _ + 1, [] => []
  | fuel + 1, c :: rest =>
    if isspace c then c :: rest
    else if c = 34 then scan_token fuel (cp_skip_double_quote (c :: rest))
    else scan_token fuel rest

/-- The ASCII tokenizer of `read_packet`: `k` is `_fields.size() - args.size()`
and `data` the input from the cursor to the end of the line. -/
def tokenize : Nat → Str → List Str
  | 0, _ => []
  | k + 1, data =>
    let data1 := scan_token data.length data
    let arg := data.take (data.length - data1.length)
    arg :: tokenize k (data1.dropWhile isspace)

/-- The byte count that the `switch` of the binary slicer assigns to a
fixed-width class. -/
def nbytes_of : WireType → Option Nat
  | WireType.B_0 => some 0
  | WireType.B_1 => some 1
  | WireType.B_2 => some 2
  | WireType.B_4 => some 4
  | WireType.B_4NET => some 4
  | WireType.B_6PTR => some 6
  | WireType.B_8 => some 8
  | WireType.B_16 => some 16
  | _ => none

/-- The binary slicer of `read_packet`: the loop over `_fields` in declared
order, from cursor `data`.  It yields the argument pointers, the final cursor
and the descriptor (a `B_SPECIAL` parser may write to it). -/
def slice_binary {D : Type} (line : Line) :
    List (FieldReader D) → Nat → D → List Nat × Nat × D
  | [], data, d => ([], data, d)
  | f :: fs, data, d =>
    match f.inb with
    | none =>
      let r := slice_binary line fs line.end_ d
      (0 :: r.1, r.2)
    | some inb =>
      match nbytes_of f.type with
      | some nbytes =>
        if data + nbytes ≤ line.end_ then
          let r := slice_binary line fs (data + nbytes) d
          (data :: r.1, r.2)
        else
          let r := slice_binary line fs line.end_ d
          (0 :: r.1, r.2)
      | none =>
        if f.type = WireType.B_SPECIAL then
          let c := inb d line data
          let r := slice_binary line fs c.1 c.2
          (data :: r.1, r.2)
        else
          let r := slice_binary line fs line.end_ d
          (0 :: r.1, r.2)

/-! ## Pass 1: parse and inject in field order -/

/-- What pass 1 does, in the order it does it: a call of a field's parser
(field index, argument, whether the parser reported success) or a call of a
field's injector.  The log is not program state; it records the calls. -/
inductive Event (A : Type) where
  | parse (i : Nat) (arg : A) (ok : Bool)
  | inject (i : Nat)
  deriving DecidableEq, Repr

/-- The result of pass 1: the descriptor, `nfields`, and the log of calls. -/
structure Pass1 (D A : Type) where
  d : D
  nfields : Nat
  log : List (Event A)

/-- Putting earlier calls in front of the log of a result. -/
def Pass1.after {D A : Type} (evs : List (Event A)) (r : Pass1 D A) : Pass1 D A :=
  { r with log := evs ++ r.log }

/-- The ASCII inject loop of `read_packet`, over the rest of `_field_order`.
The result is `none` when `_fields` or `args` is indexed out of bounds. -/
def inject_ascii {D : Type} (env : Env D) (fields : List (FieldReader D)) (args : List Str) :
    List Nat → D → Nat → Option (Pass1 D Str)
  | [], d, nfields => some { d := d, nfields := nfields, log := [] }
  | i :: rest, d, nfields =>
    if env.has_p d = false then some { d := d, nfields := nfields, log := [] }
    else
      match fields[i]?, args[i]? with
      | some f, some a =>
        if a = [] ∨ a = str "-" then inject_ascii env fields args rest d nfields
        else
          match f.inject with
          | none => inject_ascii env fields args rest d nfields
          | some inject =>
            let r := f.ina (env.clear_values d) a
            if r.1 = true then
              (inject_ascii env fields args rest (inject r.2) (nfields + 1)).map
                (Pass1.after [Event.parse i a true, Event.inject i])
            else
              (inject_ascii env fields args rest r.2 nfields).map
                (Pass1.after [Event.parse i a false])
      | _, _ => none

/-- The binary inject loop of `read_packet`, over the rest of `_field_order`.
The result is `none` when `_fields` or `args` is indexed out of bounds or a
null `inb` is called. -/
def inject_binary {D : Type} (env : Env D) (fields : List (FieldReader D)) (line : Line)
    (args : List Nat) : List Nat → D → Nat → Option (Pass1 D Nat)
  | [], d, nfields => some { d := d, nfields := nfields, log := [] }
  | i :: rest, d, nfields =>
    if env.has_p d = false then some { d := d, nfields := nfields, log := [] }
    else
      match fields[i]?, args[i]? with
      | some f, some a =>
        if a = 0 then inject_binary env fields line args rest d nfields
        else
          match f.inject with
          | none => inject_binary env fields line args rest d nfields
          | some inject =>
            match f.inb with
            | none => none
            | some inb =>
              let r := inb (env.clear_values d) line a
              if r.1 ≠ 0 then
                (inject_binary env fields line args rest (inject r.2) (nfields + 1)).map
                  (Pass1.after [Event.parse i a true, Event.inject i])
              else
                (inject_binary env fields line args rest r.2 nfields).map
                  (Pass1.after [Event.parse i a false])
      | _, _ => none

/-- The ASCII branch of `read_packet`: tokenize the line, then inject. -/
def assemble_ascii {D : Type} (env : Env D) (s : State D) (line : Str) (d : D) :
    Option (Pass1 D Str) :=
  inject_ascii env s._fields (tokenize s._fields.length line) s._field_order d 0

/-- The binary branch of `read_packet`: slice the record, then inject. -/
def assemble_binary {D : Type} (env : Env D) (s : State D) (line : Str) (d : D) :
    Option (Pass1 D Nat) :=
  let l : Line := { base := env.buf, bytes := line }
  let sl := slice_binary l s._fields l.base d
  inject_binary env s._fields l sl.1 s._field_order sl.2.2 0

/-! ## `read_packet` -/

/-- The test `data + n <= end && memcmp(data, word, n - 1) == 0 &&
isspace(data[n - 1])` of the directive dispatch, `n - 1` the length of `word`. -/
def is_bang (line : Str) (word : String) : Bool :=
  decide ((str word).length + 1 ≤ line.length) && line.take (str word).length == str word
    && isspace (line.getD (str word).length 0)

/-- The directive dispatch of `read_packet` for a line that starts with `!`. -/
def parse_bang {D : Type} (env : Env D) (s : State D) (line : Str) : State D :=
  if is_bang line "!data" then bang_data env s line
  else if is_bang line "!flowid" then bang_flowid env s line
  else if is_bang line "!aggregate" then bang_aggregate env s line
  else if is_bang line "!binary" then bang_binary env s line
  else if is_bang line "!contents" then bang_data env s line
  else s

/-- What the `while (1)` loop of `read_packet` ends with: the `eof` label, or
a packet line with the local flag `binary`. -/
inductive Record where
  | eof
  | packet (line : Str) (binary : Bool)
  deriving DecidableEq, Repr

/-- The `while (1)` loop of `read_packet`, without the `_ff.cleanup()` of the
`eof` label.  One unit of fuel is one record read; `none` is out of fuel. -/
def read_record {D : Type} (env : Env D) : Nat → State D → Str → Option (State D × Record)
  | 0, _, _ => none
  | fuel + 1, s, line =>
    let step (s1 : State D) (line1 : Str) (binary : Bool) : Option (State D × Record) :=
      if line1 = [] then read_record env fuel s1 line1
      else if binary ∨ (line1.head? ≠ some 33 ∧ line1.head? ≠ some 35) then
        some (s1, Record.packet line1 binary)
      else if line1.head? = some 33 then read_record env fuel (parse_bang env s1 line1) line1
      else read_record env fuel s1 line1
    if s._binary then
      let r := read_binary s line
      if r.2.2 ≤ 0 then some (r.1, Record.eof)
      else step r.1 r.2.1 (r.2.2 == 1)
    else
      let r := s._ff.read_line
      if r.2.2 ≤ 0 then some ({ s with _ff := r.1 }, Record.eof)
      else step { s with _ff := r.1 } r.2.1 false

/-- The part of `read_packet` after the record loop, for a packet line:
allocate, branch on `_binary`, inject, complain or fix up.  The inner `none` is
undefined behaviour in pass 1; the packet is `none` for a null result. -/
def read_packet_line {D : Type} (env : Env D) (s : State D) (line : Str) (binary : Bool) :
    Option (State D × Option D) :=
  match env.make_desc s._zero s._default_proto
      (if s._have_flowid then some s._flowid else none) with
  | none => some ({ s with _ff := (s._ff.error "Cannot allocate memory").1 }, none)
  | some d0 =>
    let pass : Option (D × Nat) :=
      if s._binary then (assemble_binary env s line d0).map (fun r => (r.d, r.nfields))
      else (assemble_ascii env s line d0).map (fun r => (r.d, r.nfields))
    match pass with
    | none => none
    | some (d, nfields) =>
      if nfields = 0 then
        if s._format_complaint = false ∧
            (binary ∨ (line.takeWhile (fun c => c == 32 || c == 9 || c == 10 || c == 13)).length
              ≠ line.length) then
          let msg := if s._fields.length = 0 then "no '!data' provided" else "packet parse error"
          some ({ s with _ff := (s._ff.error msg).1, _format_complaint := true }, none)
        else some (s, none)
      else
        let d1 := env.fixup s._checksum d
        some (s, if env.has_p d1 then some d1 else none)

/-- The method `FromIPSummaryDump::read_packet` with `fuel` trips through its record
loop; the outer `none` is out of fuel or undefined behaviour in pass 1. -/
def read_packet_fuel {D : Type} (env : Env D) (fuel : Nat) (s : State D) :
    Option (State D × Option D) :=
  match read_record env fuel s [] with
  | none => none
  | some (s1, Record.eof) => some ({ s1 with _ff := s1._ff.cleanup }, none)
  | some (s1, Record.packet line binary) => read_packet_line env s1 line binary

/-- The method `FromIPSummaryDump::read_packet`: every trip through the record loop takes
at least one byte from the source, so one more trip than there are unread
bytes is enough. -/
def read_packet {D : Type} (env : Env D) (s : State D) : Option (State D × Option D) :=
  read_packet_fuel env (s._ff.input.length + 1) s

/-! ## A small registry for concrete runs -/

/-- A concrete packet descriptor: whether `d.p` is non-null, the value slot
that `clear_values` zeroes, and what the injectors stored, in order. -/
structure Desc where
  alive : Bool
  slot : Nat
  stored : List (String × Nat)
  deriving DecidableEq, Repr

/-- The value of a string of decimal digits, `none` for anything else. -/
def parse_decimal (a : Str) : Option Nat :=
  if a = [] ∨ ¬ a.all (fun c => decide (48 ≤ c ∧ c ≤ 57)) then none
  else some (a.foldl (fun v c => 10 * v + (c - 48)) 0)

/-- The big-endian value of the `n` bytes at address `p` of a record. -/
def bytes_at (line : Line) (p n : Nat) : Nat :=
  ((line.bytes.drop (p - line.base)).take n).foldl (fun v c => 256 * v + c) 0

/-- A numeric field of `n` wire bytes: the ASCII parser reads a decimal
number, the binary parser reads `n` bytes, the injector stores the slot. -/
def ex_reader (name : String) (type : WireType) (n : Nat) (order : Int) : FieldReader Desc :=
  { name := name
    type := type
    order := order
    ina := fun d a =>
      match parse_decimal a with
      | some v => (true, { d with slot := v })
      | none => (false, d)
    inb := some (fun d line p => (p + n, { d with slot := bytes_at line p n }))
    inject := some (fun d => { d with stored := d.stored ++ [(name, d.slot)] }) }

/-- A reader without an injector. -/
def ex_null_reader : FieldReader Desc :=
  { name := "none"
    type := WireType.B_0
    order := 0
    ina := fun d _ => (false, d)
    inb := none
    inject := none }

/-- A reader of a wire class that the slicer does not know. -/
def ex_odd_reader : FieldReader Desc :=
  { ex_reader "odd" (WireType.B_OTHER 9) 0 50 with }

/-- The sample registry. -/
def ex_find (word : Str) : Option (FieldReader Desc) :=
  if word = str "ip_proto" then some (ex_reader "ip_proto" WireType.B_1 1 30)
  else if word = str "sport" then some (ex_reader "sport" WireType.B_2 2 40)
  else if word = str "dport" then some (ex_reader "dport" WireType.B_2 2 40)
  else if word = str "ip_len" then some (ex_reader "ip_len" WireType.B_4 4 20)
  else if word = str "count" then some (ex_reader "count" WireType.B_4 4 10)
  else if word = str "odd" then some ex_odd_reader
  else if word = str "ntimestamp" then some { ex_null_reader with name := "ntimestamp" }
  else none

/-- The sample environment: words are the maximal runs of non-whitespace. -/
def ex_env : Env Desc :=
  { find := ex_find
    null_reader := ex_null_reader
    cp_spacevec := fun l => (l.splitOnP isspace).filter (fun w => !w.isEmpty)
    cp_unquote := fun w => w
    cp_ip_address := fun _ => none
    cp_integer := parse_decimal
    buf := 4096
    make_desc := fun _ _ _ => some { alive := true, slot := 0, stored := [] }
    has_p := fun d => d.alive
    clear_values := fun d => { d with slot := 0 }
    fixup := fun _ d => d }

/-- An open source holding `input`. -/
def ex_file (input : Str) : FromFile :=
  { input := input, lineno := 0, initialized := true, landmark := "%f:%l", messages := [] }

/-- A fresh engine in text mode reading `input`, with no field list. -/
def ex_state (input : Str) : State Desc :=
  { _ff := ex_file input
    _fields := []
    _field_order := []
    _default_proto := IP_PROTO_TCP
    _zero := true
    _checksum := false
    _binary := false
    _format_complaint := false
    _have_flowid := false
    _given_flowid := IPFlowID.mk 0 0 0 0
    _flowid := IPFlowID.mk 0 0 0 0
    _have_aggregate := false
    _aggregate := 0 }

/-! ## Reading the log of pass 1 -/

/-- The field index of a parser call. -/
def Event.parsed_index {A : Type} : Event A → Option Nat
  | Event.parse i _ _ => some i
  | Event.inject _ => none

/-- Whether an event is an injector call. -/
def Event.is_inject {A : Type} : Event A → Bool
  | Event.parse _ _ _ => false
  | Event.inject _ => true

/-- The number of injector calls in a log. -/
def injections {A : Type} (log : List (Event A)) : Nat := log.countP Event.is_inject

/-- Whether a log calls an injector exactly after each successful parser call,
for the same field, and nowhere else. -/
def paired {A : Type} : List (Event A) → Bool
  | [] => true
  | Event.parse i _ true :: Event.inject j :: rest => i == j && paired rest
  | Event.parse _ _ false :: rest => paired rest
  | _ => false

/-- A call of pass 1 without its field index: which reader was called (parser
or injector) and, for a parser, on which argument and with what result. -/
inductive Call (D A : Type) where
  | parse (f : FieldReader D) (arg : A) (ok : Bool)
  | inject (f : FieldReader D)

/-- The call that an event of the log stands for, given the field list. -/
def Event.call {D A : Type} (fields : List (FieldReader D)) (dflt : FieldReader D) :
    Event A → Call D A
  | Event.parse i a ok => Call.parse (fields.getD i dflt) a ok
  | Event.inject i => Call.inject (fields.getD i dflt)

/-- What a log of pass 1 must satisfy over the index list `order`: the parser
calls follow `order` (their indices are a sublist of it); every parser call is
for a field whose argument is the one in `args`, is not `absent`, and whose
reader has an injector; and injector calls are `paired` with the successful
parser calls. -/
def log_ok {D A : Type} (fields : List (FieldReader D)) (args : List A) (absent : A → Prop)
    (order : List Nat) (log : List (Event A)) : Prop :=
  List.Sublist (log.filterMap Event.parsed_index) order ∧
  (∀ i a ok, Event.parse i a ok ∈ log →
    args[i]? = some a ∧ ¬ absent a ∧ ∃ f, fields[i]? = some f ∧ f.inject.isSome = true) ∧
  paired log = true

/-- What two runs of pass 1 are compared on: the descriptor, `nfields`, and the
calls made, by reader rather than by field index. -/
def Pass1.view {D A : Type} (fields : List (FieldReader D)) (dflt : FieldReader D)
    (r : Pass1 D A) : D × Nat × List (Call D A) :=
  (r.d, r.nfields, r.log.map (Event.call fields dflt))

/-- The order key of a (field, token) pair looked up by index; an index out
of range counts as key `0`, as in `field_order_key`. -/
def pair_key {D : Type} : Option (FieldReader D × Str) → Int
  | some p => p.1.order
  | none => 0

/-! ## Sample states -/

/-- A fresh descriptor of the sample environment. -/
def ex_d0 : Desc := { alive := true, slot := 0, stored := [] }

/-- The engine after `!data sport ip_proto`: two fields with different order
keys. -/
def ex_c3_state : State Desc := bang_data ex_env (ex_state []) (str "!data sport ip_proto")

/-- The engine after `!data ip_proto sport`: the same fields, swapped. -/
def ex_c3_state' : State Desc := bang_data ex_env (ex_state []) (str "!data ip_proto sport")

/-- The engine after `!data sport dport`: two fields with the same order key. -/
def ex_c3_tie : State Desc := bang_data ex_env (ex_state []) (str "!data sport dport")

/-- The engine after `!data dport sport`: the same fields, swapped. -/
def ex_c3_tie' : State Desc := bang_data ex_env (ex_state []) (str "!data dport sport")

/-! ## The field list of a `!data` line, in the words of the specification -/

/-- The reader for one field name: the registry's reader, or the null reader
when the name is unknown or its reader has no injector. -/
def spec_reader_for {D : Type} (env : Env D) (word : Str) : FieldReader D :=
  match env.find (env.cp_unquote word) with
  | none => env.null_reader
  | some f => if f.inject.isSome then f else env.null_reader

/-- The field names of a directive line: its words after a leading `!data` or
`!contents` word. -/
def spec_data_words {D : Type} (env : Env D) (line : Str) : List Str :=
  match env.cp_spacevec line with
  | [] => []
  | w :: ws =>
    if env.cp_unquote w = str "!data" ∨ env.cp_unquote w = str "!contents" then ws
    else w :: ws

/-- The field list that a `!data` line declares: one reader per field name. -/
def spec_data_fields {D : Type} (env : Env D) (line : Str) : List (FieldReader D) :=
  (spec_data_words env line).map (spec_reader_for env)

/-! ## The tokens of a text record, in the words of the specification -/

/-- The maximal runs of non-whitespace bytes of a line, in order. -/
def spec_runs (line : Str) : List Str :=
  (line.splitOnP isspace).filter (fun t => !t.isEmpty)

/-! ## Wire widths and sample frames -/

/-- The wire width of a field of a fixed-width class (`0` for the others). -/
def wire_width {D : Type} (f : FieldReader D) : Nat := (nbytes_of f.type).getD 0

/-- A record buffer at address 4096 holding one protocol byte and a port. -/
def ex_frame : Line := { base := 4096, bytes := [6, 0, 80] }

/-- A variable-width field whose binary parser takes every byte that is left
(and none when the cursor is already past the end). -/
def ex_special_reader : FieldReader Desc :=
  { name := "payload"
    type := WireType.B_SPECIAL
    order := 90
    ina := fun d _ => (false, d)
    inb := some (fun d line p => (max p line.end_, { d with slot := line.end_ - p }))
    inject := some (fun d => { d with stored := d.stored ++ [("payload", d.slot)] }) }

/-- The field before the short one: one protocol byte. -/
def ex_c7_pre : List (FieldReader Desc) := [ex_reader "ip_proto" WireType.B_1 1 30]

/-- A four-byte field, for which the sample frame is too short after its first
byte. -/
def ex_c7_short : FieldReader Desc := ex_reader "ip_len" WireType.B_4 4 20

/-- The fields after the short one: a variable-width field and a port. -/
def ex_c7_post : List (FieldReader Desc) :=
  [ex_special_reader, ex_reader "sport" WireType.B_2 2 40]

/-- The sample engine in binary mode, under `!data ip_proto sport`, reading
`input`. -/
def ex_bin_state (input : Str) : State Desc :=
  { bang_data ex_env (ex_state input) (str "!data ip_proto sport") with _binary := true }

/-- The sample engine in text mode, under `!data ip_proto sport`, reading
`input`. -/
def ex_text_state (input : Str) : State Desc :=
  bang_data ex_env (ex_state input) (str "!data ip_proto sport")

/-! ## Packets and the post-pass of `read_packet` -/

/-- The conversion of an unsigned 32-bit value to `int` (two's complement). -/
def to_int32 (x : Nat) : Int :=
  if x % 2 ^ 32 < 2 ^ 31 then ((x % 2 ^ 32 : Nat) : Int) else ((x % 2 ^ 32 : Nat) : Int) - 2 ^ 32

/-- The conversion of an `int` to `uint16_t`. -/
def to_uint16 (x : Int) : Nat := (x % 65536).toNat

/-- The conversion of an `int` to `uint32_t`. -/
def to_uint32 (x : Int) : Nat := (x % 2 ^ 32).toNat

/-- The 16-bit byte swap `ntohs` of a little-endian host. -/
def ntohs (x : Nat) : Nat := htons x

/-- The members of `struct click_ip`, each holding the value the host reads from
the struct (members in network byte order go through `ntohs`/`htons`). -/
structure click_ip where
  ip_v : Nat
  ip_hl : Nat
  ip_tos : Nat
  ip_len : Nat
  ip_id : Nat
  ip_off : Nat
  ip_ttl : Nat
  ip_p : Nat
  ip_sum : Nat
  ip_src : Nat
  ip_dst : Nat
  deriving DecidableEq, Repr

/-- The members of `struct click_udp`. -/
structure click_udp where
  uh_sport : Nat
  uh_dport : Nat
  uh_ulen : Nat
  uh_sum : Nat
  deriving DecidableEq, Repr

/-- The member of `struct click_tcp` that this file writes. -/
structure click_tcp where
  th_sum : Nat
  deriving DecidableEq, Repr

/-- A `Packet` as `read_packet` sees it after pass 1: what `length()`,
`network_length()`, `network_header_length()` and `transport_length()` return,
the IP header at `ip_header()` with the bytes `ip_opts` that follow the struct
up to the transport header, the headers at `udp_header()` and `tcp_header()`,
and the annotations.  The headers are records; the bytes that the memory holds
from the transport header on are `PacketEnv.transport_bytes`.  A `Timestamp` is
a whole number of its subsecond units; the timestamp that converts to `false`
is zero. -/
structure Packet where
  length : Nat
  network_length : Nat
  network_header_length : Nat
  transport_length : Nat
  ip : click_ip
  ip_opts : List Nat
  udp : click_udp
  tcp : click_tcp
  extra_length_anno : Nat
  dst_ip_anno : Nat
  extra_packets_anno : Nat := 0
  timestamp_anno : Int := 0
  first_timestamp_anno : Int := 0
  deriving DecidableEq, Repr

/-- What `read_packet` uses of an `IPSummaryDump::PacketOdesc`. -/
structure PacketOdesc where
  p : Option Packet
  is_ip : Bool
  default_ip_flowid : Option IPFlowID
  deriving DecidableEq, Repr

/-- What the post-pass uses but this source file does not define: the methods
`make_ip` and `make_transp` of the descriptor, `transport_cksum q`, the value
`click_in_cksum_pseudohdr(click_in_cksum(header, transport_length()), iph,
transport_length())` over the transport header of `q` as it stands, and
`transport_bytes q`, the bytes of the packet memory from `transport_header()`
on as `q` stands (the records `udp` and `tcp` are views of these bytes). -/
structure PacketEnv where
  make_ip : PacketOdesc → Nat → Bool × PacketOdesc
  make_transp : PacketOdesc → Bool × PacketOdesc
  transport_cksum : Packet → Nat
  transport_bytes : Packet → List Nat

/-- The macro `IP_FIRSTFRAG`: the fragment offset is zero. -/
def IP_FIRSTFRAG (iph : click_ip) : Bool := iph.ip_off &&& htons 0x1FFF == 0

/-- The macro `IP_ISFRAG`: more fragments follow or the fragment offset is not
zero. -/
def IP_ISFRAG (iph : click_ip) : Bool := iph.ip_off &&& htons 0x3FFF != 0

/-- The sum of the 16-bit words of a byte string as a little-endian host loads
them, a last odd byte counting as the low byte of a word. -/
def word_sum : List Nat → Nat
  | [] => 0
  | [a] => a
  | a :: b :: rest => a + 256 * b + word_sum rest

/-- Modelled from the spec: `click_in_cksum` (Click's library, not part of this
source file), the Internet checksum of the first `len` bytes: the 16-bit
one's-complement sum, accumulated in 32 bits and folded twice, complemented. -/
def click_in_cksum (bytes : List Nat) (len : Nat) : Nat :=
  let sum := word_sum (bytes.take len) % 2 ^ 32
  let sum1 := sum % 65536 + sum / 65536
  let sum2 := sum1 + sum1 / 65536
  65535 - sum2 % 65536

/-- The bytes of a `struct click_ip` in the memory of a little-endian host. -/
def click_ip.bytes (h : click_ip) : List Nat :=
  [(h.ip_v % 16) * 16 + h.ip_hl % 16, h.ip_tos % 256,
    h.ip_len % 256, h.ip_len / 256 % 256,
    h.ip_id % 256, h.ip_id / 256 % 256,
    h.ip_off % 256, h.ip_off / 256 % 256,
    h.ip_ttl % 256, h.ip_p % 256,
    h.ip_sum % 256, h.ip_sum / 256 % 256,
    h.ip_src % 256, h.ip_src / 256 % 256, h.ip_src / 65536 % 256, h.ip_src / 16777216 % 256,
    h.ip_dst % 256, h.ip_dst / 256 % 256, h.ip_dst / 65536 % 256, h.ip_dst / 16777216 % 256]

/-- The bytes of a `struct click_udp` in the memory of a little-endian host. -/
def click_udp.bytes (h : click_udp) : List Nat :=
  [h.uh_sport % 256, h.uh_sport / 256 % 256, h.uh_dport % 256, h.uh_dport / 256 % 256,
    h.uh_ulen % 256, h.uh_ulen / 256 % 256, h.uh_sum % 256, h.uh_sum / 256 % 256]

/-- The network header of a packet: the struct, then the bytes `ip_opts` up to
the transport header. -/
def ip_header_bytes (q : Packet) : List Nat := q.ip.bytes ++ q.ip_opts

/-- The memory at `(uint8_t *) iph`: the network header, then the memory from
the transport header on.  `click_in_cksum((uint8_t *) iph, ip_hl << 2)` reads
into the second part when `ip_hl << 2` exceeds the network header length. -/
def iph_memory (pe : PacketEnv) (q : Packet) : List Nat :=
  ip_header_bytes q ++ pe.transport_bytes q

/-- The function `set_checksums`.  The IP checksum is taken over `ip_hl << 2`
bytes of memory from `iph` as it stands after `ip_sum = 0`, before the
transport checksum is written. -/
def set_checksums (pe : PacketEnv) (q : Packet) : Packet :=
  let q1 : Packet := { q with ip := { q.ip with ip_sum := 0 } }
  let q2 : Packet :=
    { q1 with ip := { q1.ip with
        ip_sum := click_in_cksum (iph_memory pe q1) (q1.ip.ip_hl <<< 2) } }
  if IP_ISFRAG q2.ip then q2
  else if q2.ip.ip_p = IP_PROTO_TCP then
    let q3 : Packet := { q2 with tcp := { q2.tcp with th_sum := 0 } }
    { q3 with tcp := { q3.tcp with th_sum := pe.transport_cksum q3 } }
  else if q2.ip.ip_p = IP_PROTO_UDP then
    let q3 : Packet := { q2 with udp := { q2.udp with uh_sum := 0 } }
    { q3 with udp := { q3.udp with uh_sum := pe.transport_cksum q3 } }
  else q2

/-- The step "set IP length" of `read_packet`: `int len = network_length() +
EXTRA_LENGTH_ANNO(p)` adds in unsigned 32 bits and converts to `int`. -/
def fixup_ip_len (p : Packet) : Packet :=
  if p.ip.ip_len = 0 then
    let len : Int := to_int32 (p.network_length + p.extra_length_anno)
    let len1 : Int := if len > 0xFFFF then 0xFFFF else len
    { p with ip := { p.ip with ip_len := htons (to_uint16 len1) } }
  else p

/-- The step "set UDP length" of `read_packet`. -/
def fixup_udp_len (p : Packet) : Packet :=
  if p.ip.ip_p = IP_PROTO_UDP ∧ IP_FIRSTFRAG p.ip = true ∧ p.udp.uh_ulen = 0 then
    let len : Int := (htons p.ip.ip_len : Int) - (p.network_header_length : Int)
    { p with udp := { p.udp with uh_ulen := htons (to_uint16 len) } }
  else p

/-- The step "set extra length annotation" of `read_packet`: the difference of
`ntohs(ip_len)` and the unsigned `length()`, stored in the unsigned 32-bit
annotation. -/
def fixup_extra_length (p : Packet) : Packet :=
  { p with extra_length_anno := to_uint32 ((ntohs p.ip.ip_len : Int) - (p.length : Int)) }

/-- The block `if (d.p && d.is_ip)` of `read_packet`, for the packet `d.p`. -/
def fixup_ip (pe : PacketEnv) (checksum : Bool) (p : Packet) : Packet :=
  let p1 := fixup_ip_len p
  let p2 := fixup_udp_len p1
  let p3 := fixup_extra_length p2
  let p4 : Packet := { p3 with dst_ip_anno := p3.ip.ip_dst }
  if checksum then set_checksums pe p4 else p4

/-- The post-pass of `read_packet`, from "set source and destination ports" to
the checksums. -/
def read_packet_fixup (pe : PacketEnv) (checksum : Bool) (d : PacketOdesc) : PacketOdesc :=
  let d1 : PacketOdesc :=
    if d.p.isSome ∧ d.default_ip_flowid.isSome then
      let r := pe.make_ip d 0
      if r.1 then (pe.make_transp r.2).2 else r.2
    else d
  match d1.p with
  | none => d1
  | some p => if d1.is_ip then { d1 with p := some (fixup_ip pe checksum p) } else d1

/-- The sample engine in text mode reading a `!creator` line, which is not a
directive of `read_packet`, then a record. -/
def ex_c11_state : State Desc := ex_text_state (str "!creator x\n6 80\n")

/-- The sample engine in text mode reading an empty line, then a record. -/
def ex_c11_blank_state : State Desc := ex_text_state (str "\n6 80\n")

/-- A dotted-quad address as a number, `none` for anything else. -/
def parse_dotted (a : Str) : Option Nat :=
  match (a.splitOnP (fun c => c == 46)).map parse_decimal with
  | [some x, some y, some z, some w] =>
    if x ≤ 255 ∧ y ≤ 255 ∧ z ≤ 255 ∧ w ≤ 255 then some (((x * 256 + y) * 256 + z) * 256 + w)
    else none
  | _ => none

/-- The sample environment with an address parser and a descriptor that records
the default flow ID it is constructed with. -/
def ex_flow_env : Env Desc :=
  { ex_env with
    cp_ip_address := parse_dotted
    make_desc := fun _ _ flowid =>
      some
        { alive := true
          slot := 0
          stored :=
            match flowid with
            | none => []
            | some f =>
              [("flowid.saddr", f.saddr), ("flowid.sport", f.sport),
                ("flowid.daddr", f.daddr), ("flowid.dport", f.dport)] } }

/-- The sample engine in text mode, under `!data ip_proto sport`, reading a
`!flowid` directive and one record. -/
def ex_c12_state : State Desc :=
  ex_text_state (str "!flowid 1.2.3.4 5000 5.6.7.8 6000\n6 80\n")

/-! ## Counting format complaints -/

/-- Whether a message is one of the two texts of the format complaint of
`read_packet`. -/
def is_diagnostic (m : String) : Bool :=
  m == "packet parse error" || m == "no '!data' provided"

/-- The number of format complaints among the messages emitted so far. -/
def diagnostics (msgs : List String) : Nat := msgs.countP is_diagnostic

/-- The engine after `n` successive calls of `read_packet`, whatever they return; the
run stops where pass 1 is undefined. -/
def read_packets {D : Type} (env : Env D) : Nat → State D → State D
  | 0, s => s
  | n + 1, s =>
    match read_packet env s with
    | none => s
    | some r => read_packets env n r.1

/-- The sample engine in text mode, under `!data ip_proto sport`, reading an
unparseable record, a `!data` directive and a second unparseable record. -/
def ex_c14_state : State Desc :=
  ex_text_state (str "xx yy\n!data ip_proto sport\nzz ww\n")

/-- A sample packet after pass 1: a 40-byte UDP datagram with a 20-byte IP
header, `ip_len` and `uh_ulen` still zero, and 100 bytes of extra length. -/
def ex_packet : Packet :=
  { length := 40
    network_length := 40
    network_header_length := 20
    transport_length := 20
    ip :=
      { ip_v := 4
        ip_hl := 5
        ip_tos := 0
        ip_len := 0
        ip_id := 7
        ip_off := 0
        ip_ttl := 64
        ip_p := 17
        ip_sum := 0
        ip_src := 0x0100000a
        ip_dst := 0x0200000a }
    ip_opts := []
    udp := ⟨htons 1000, htons 80, 0, 0⟩
    tcp := ⟨0⟩
    extra_length_anno := 100
    dst_ip_anno := 0 }

/-- A sample environment of the post-pass: `make_ip` and `make_transp` succeed
and change nothing, the transport checksum is zero, the transport header is the
UDP header with nothing after it. -/
def ex_packet_env : PacketEnv :=
  { make_ip := fun d _ => (true, d)
    make_transp := fun d => (true, d)
    transport_cksum := fun _ => 0
    transport_bytes := fun q => q.udp.bytes }

/-- The sample environment with a transport checksum that is not zero. -/
def ex_overlap_env : PacketEnv := { ex_packet_env with transport_cksum := fun _ => 0x1234 }

/-- A UDP packet whose `ip_hl` of 7 claims 28 bytes of header while the network
header ends after the 20 bytes of the struct, where the UDP header starts. -/
def ex_overlap_packet : Packet :=
  { ex_packet with ip := { ex_packet.ip with ip_hl := 7 } }

/-! ## Multi-packet expansion, the timing gate and the emission loops -/

/-- A call that the emission code makes on the router, the timer, the task, the
notifier, the output port or a packet it drops, in the order of the calls.  The
log is not program state; it records the calls. -/
inductive Effect where
  | push (p : Packet)
  | kill (p : Packet)
  | schedule_at (t : Int)
  | notifier_sleep
  | notifier_wake
  | notifier_set_active (active : Bool)
  | task_reschedule
  | task_fast_reschedule
  | please_stop_driver
  deriving DecidableEq, Repr

/-- What the emission code uses but this source file does not define: the
environment of `read_packet`; `packet_of d`, the packet `d.p` that `read_packet`
returns for a descriptor it hands back; whether `Packet::clone` and
`Packet::uniqueify` succeed on a packet (a success keeps the contents);
`ts_div`, the division of a `Timestamp` by an integer; `now n`, the value of the
`n`-th call of `Timestamp::now()`; `Timer::adjustment()`; `click_random n`, the
value of the `n`-th call of `click_random()`; and whether output 0 is a pull
port (it is a push port otherwise). -/
structure RunEnv (D : Type) where
  env : Env D
  packet_of : D → Packet
  clone_ok : Packet → Bool
  uniqueify_ok : Packet → Bool
  ts_div : Int → Nat → Int
  now : Nat → Int
  adjustment : Int
  click_random : Nat → Nat
  output_is_pull : Bool

/-- The element as the emission code sees it: the members that `read_packet`
uses (`rd`), the members of the emission code, how many times the clock and the
random generator have been read, and the log of calls made. -/
structure Engine (D : Type) where
  rd : State D
  _active : Bool
  _stop : Bool
  _timing : Bool
  _have_timing : Bool
  _timing_offset : Int
  _multipacket : Bool
  _multipacket_length : Nat
  _multipacket_end_timestamp : Int
  _multipacket_timestamp_delta : Int
  _sampling_prob : Nat
  _work_packet : Option Packet
  clock_reads : Nat
  random_draws : Nat
  effects : List Effect

/-- The function `set_packet_lengths`, `extra_length` an unsigned 32-bit value;
`none` is the null result, when `uniqueify` fails. -/
def set_packet_lengths (uniqueify_ok : Packet → Bool) (p : Packet) (extra_length : Nat) :
    Option Packet :=
  let length := (p.length + extra_length) % 2 ^ 32
  if htons (length % 65536) ≠ p.ip.ip_len then
    if uniqueify_ok p then
      let q : Packet := { p with ip := { p.ip with ip_len := htons (length % 65536) } }
      if q.ip.ip_p = IP_PROTO_UDP then
        some { q with
          udp := { q.udp with
            uh_ulen :=
              htons (to_uint32 ((length : Int) - ((q.ip.ip_hl <<< 2 : Nat) : Int)) % 65536) } }
      else some q
    else none
  else some p

/-- The block "set up _multipacket variables on new packets" of
`handle_multipacket`, up to the call of `set_packet_lengths`: the engine and the
packet `p` as the block leaves them.  The arithmetic on lengths is unsigned
32-bit; `none` is the division by a zero `count`. -/
def multipacket_setup {D : Type} (re : RunEnv D) (e : Engine D) (p : Packet) (count : Nat) :
    Option (Engine D × Packet) :=
  if count = 0 then none
  else
    let ml0 := (p.length + p.extra_length_anno) % 2 ^ 32 / count
    let ml := if ml0 < p.length then p.length else ml0
    let p1 : Packet :=
      if ml0 < p.length then { p with extra_length_anno := ml * (count - 1) % 2 ^ 32 } else p
    let delta : Int :=
      if p1.first_timestamp_anno ≠ 0 then
        re.ts_div (p1.timestamp_anno - p1.first_timestamp_anno) (count - 1)
      else 0
    let p2 : Packet :=
      if p1.first_timestamp_anno ≠ 0 then { p1 with timestamp_anno := p1.first_timestamp_anno }
      else p1
    some
      ({ e with
          _multipacket_length := ml
          _multipacket_end_timestamp := p1.timestamp_anno
          _multipacket_timestamp_delta := delta },
        p2)

/-- The part of `handle_multipacket` from "prepare packet to return" on; `w` is
the packet that both `p` and `_work_packet` point to there.  The result is the
engine and the packet returned (the clone, null when `clone` fails). -/
def multipacket_emit {D : Type} (re : RunEnv D) (e : Engine D) (w : Packet) (count : Nat) :
    Engine D × Option Packet :=
  let ret : Option Packet :=
    if re.clone_ok w then
      some { w with
        extra_packets_anno := 0
        extra_length_anno := to_uint32 ((e._multipacket_length : Int) - (w.length : Int)) }
    else none
  let w1 : Packet :=
    { w with
      extra_packets_anno := to_uint32 ((count : Int) - 2)
      extra_length_anno :=
        to_uint32 ((w.extra_length_anno : Int) - (e._multipacket_length : Int)) }
  if count = 2 then
    let w2 : Packet := { w1 with timestamp_anno := e._multipacket_end_timestamp }
    ({ e with _work_packet := set_packet_lengths re.uniqueify_ok w2 w2.extra_length_anno }, ret)
  else
    ({ e with
        _work_packet :=
          some { w1 with
            timestamp_anno := w1.timestamp_anno + e._multipacket_timestamp_delta } },
      ret)

/-- The method `FromIPSummaryDump::handle_multipacket`.  Its assertion makes a non-null
`_work_packet` the same object as `p`, and the source packet of a new record is
not shared, so that `uniqueify` hands back the object it is given; the model
works on that one object.  The outer `none` is the division by zero of the
set-up block. -/
def handle_multipacket {D : Type} (re : RunEnv D) (e : Engine D) (p : Option Packet) :
    Option (Engine D × Option Packet) :=
  match p with
  | none => some ({ e with _work_packet := none }, none)
  | some p0 =>
    if p0.extra_packets_anno = 0 then some ({ e with _work_packet := none }, some p0)
    else
      let count := (1 + p0.extra_packets_anno) % 2 ^ 32
      if e._work_packet.isNone then
        match multipacket_setup re e p0 count with
        | none => none
        | some (e1, p1) =>
          match set_packet_lengths re.uniqueify_ok p1
              (to_uint32 ((e1._multipacket_length : Int) - (p1.length : Int))) with
          | none => some ({ e1 with _work_packet := none }, none)
          | some w => some (multipacket_emit re e1 w count)
      else some (multipacket_emit re e p0 count)

/-- Calls of `handle_multipacket` in a row, as the emission loops make them with
the timing gate off: the first with `p`, each later one with the packet in the
work slot, until the slot is empty or `n` calls are made.  The result lists,
call by call, the packet returned and whether the slot was non-empty after the
call. -/
def multipacket_calls {D : Type} (re : RunEnv D) :
    Nat → Engine D → Packet → Option (List (Option Packet × Bool))
  | 0, _, _ => some []
  | n + 1, e, p =>
    match handle_multipacket re e (some p) with
    | none => none
    | some r =>
      match r.1._work_packet with
      | none => some [(r.2, false)]
      | some w => (multipacket_calls re n r.1 w).map (fun tr => (r.2, true) :: tr)

/-- The method `FromIPSummaryDump::check_timing`. -/
def check_timing {D : Type} (re : RunEnv D) (e : Engine D) (p : Packet) : Engine D × Bool :=
  let e1 : Engine D :=
    if e._have_timing then e
    else
      { e with
        _timing_offset := re.now e.clock_reads - p.timestamp_anno
        _have_timing := true
        clock_reads := e.clock_reads + 1 }
  let now := re.now e1.clock_reads
  let e2 : Engine D := { e1 with clock_reads := e1.clock_reads + 1 }
  let t := p.timestamp_anno + e2._timing_offset
  if now < t then
    let t1 := t - re.adjustment
    let e3 : Engine D :=
      if now < t1 then
        { e2 with
          effects := e2.effects ++
            (Effect.schedule_at t1 ::
              (if re.output_is_pull then [Effect.notifier_sleep] else [])) }
      else
        { e2 with
          effects := e2.effects ++
            (if re.output_is_pull then [] else [Effect.task_fast_reschedule]) }
    ({ e3 with _work_packet := some p }, false)
  else ({ e2 with _work_packet := none }, true)

/-- Modelled from the spec: the constant `SAMPLING_SHIFT` of the class
declaration, which is not part of this source file; the random value is a
28-bit one. -/
def SAMPLING_SHIFT : Nat := 28

/-- The test "check sampling probability" of the emission loops, for the draw
`r`. -/
def sampling_keep (sampling_prob r : Nat) : Bool :=
  decide (sampling_prob ≥ 1 <<< SAMPLING_SHIFT)
    || decide (r &&& ((1 <<< SAMPLING_SHIFT) - 1) < sampling_prob)

/-- The sampling test as the loops run it: `click_random()` is called only when
the first operand of `||` is false. -/
def sample {D : Type} (re : RunEnv D) (e : Engine D) : Engine D × Bool :=
  if e._sampling_prob ≥ 1 <<< SAMPLING_SHIFT then (e, true)
  else
    ({ e with random_draws := e.random_draws + 1 },
      sampling_keep e._sampling_prob (re.click_random e.random_draws))

/-- The statement `p = (_work_packet ? _work_packet : read_packet(0))` of the
emission loops; `none` is undefined behaviour in `read_packet`. -/
def next_packet {D : Type} (re : RunEnv D) (e : Engine D) : Option (Engine D × Option Packet) :=
  match e._work_packet with
  | some w => some (e, some w)
  | none =>
    match read_packet re.env e.rd with
    | none => none
    | some r => some ({ e with rd := r.1 }, r.2.map re.packet_of)

/-- The test `p && _timing && !check_timing(p)` of the emission loops: the engine
after it, and false when the loop returns there. -/
def timing_gate {D : Type} (re : RunEnv D) (e : Engine D) (p : Option Packet) :
    Engine D × Bool :=
  match p with
  | some p0 => if e._timing then check_timing re e p0 else (e, true)
  | none => (e, true)

/-- The statement `if (_multipacket) p = handle_multipacket(p);` of the emission
loops. -/
def expand {D : Type} (re : RunEnv D) (e : Engine D) (p : Option Packet) :
    Option (Engine D × Option Packet) :=
  if e._multipacket then handle_multipacket re e p else some (e, p)

/-- The statement `if (p) p->kill();` of the emission loops. -/
def kill_packet {D : Type} (e : Engine D) (p : Option Packet) : Engine D :=
  { e with
    effects := e.effects ++
      (match p with
        | some q => [Effect.kill q]
        | none => []) }

/-- The `while (1)` loop of `run_task` and what follows it.  One unit of fuel is
one trip through the loop; `none` is out of fuel or undefined behaviour. -/
def run_task_loop {D : Type} (re : RunEnv D) : Nat → Engine D → Option (Engine D × Bool)
  | 0, _ => none
  | fuel + 1, e =>
    match next_packet re e with
    | none => none
    | some (e1, p) =>
      if p.isNone ∧ e1.rd._ff.initialized = false then
        some
          ({ e1 with
              effects := e1.effects ++ (if e1._stop then [Effect.please_stop_driver] else []) },
            false)
      else if p.isNone then
        some ({ e1 with effects := e1.effects ++ [Effect.task_fast_reschedule] }, true)
      else
        let tc := timing_gate re e1 p
        if tc.2 = false then some (tc.1, false)
        else
          match expand re tc.1 p with
          | none => none
          | some (e2, p1) =>
            let sk := sample re e2
            if sk.2 then
              some
                ({ sk.1 with
                    effects := sk.1.effects ++
                      ((match p1 with
                        | some q => [Effect.push q]
                        | none => []) ++ [Effect.task_fast_reschedule]) },
                  true)
            else run_task_loop re fuel (kill_packet sk.1 p1)

/-- The method `FromIPSummaryDump::run_task`. -/
def run_task {D : Type} (re : RunEnv D) (fuel : Nat) (e : Engine D) : Option (Engine D × Bool) :=
  if e._active = false then some (e, false) else run_task_loop re fuel e

/-- The `while (1)` loop of `pull` and what follows it.  One unit of fuel is one
trip through the loop; `none` is out of fuel or undefined behaviour. -/
def pull_loop {D : Type} (re : RunEnv D) : Nat → Engine D → Option (Engine D × Option Packet)
  | 0, _ => none
  | fuel + 1, e =>
    match next_packet re e with
    | none => none
    | some (e1, p) =>
      if p.isNone ∧ e1.rd._ff.initialized = false then
        some
          ({ e1 with
              effects := e1.effects ++
                ((if e1._stop then [Effect.please_stop_driver] else [])
                  ++ [Effect.notifier_sleep]) },
            none)
      else
        let tc := timing_gate re e1 p
        if tc.2 = false then some (tc.1, none)
        else
          match expand re tc.1 p with
          | none => none
          | some (e2, p1) =>
            let sk := sample re e2
            if sk.2 then
              some ({ sk.1 with effects := sk.1.effects ++ [Effect.notifier_wake] }, p1)
            else pull_loop re fuel (kill_packet sk.1 p1)

/-- The method `FromIPSummaryDump::pull`. -/
def pull {D : Type} (re : RunEnv D) (fuel : Nat) (e : Engine D) :
    Option (Engine D × Option Packet) :=
  if e._active = false then some (e, none) else pull_loop re fuel e

/-- The case `H_ACTIVE` of `write_handler` after `cp_bool` has parsed `active`;
`scheduled` is what `_task.scheduled()` returns. -/
def write_active {D : Type} (re : RunEnv D) (e : Engine D) (active scheduled : Bool) :
    Engine D :=
  { e with
    _active := active
    effects := e.effects ++
      (if re.output_is_pull = false ∧ active = true ∧ scheduled = false then
        [Effect.task_reschedule]
      else if re.output_is_pull then [Effect.notifier_set_active active]
      else []) }

/-- The sample packet with `ip_len` already 40, the buffer length, and a UDP
length of 999. -/
def ex_c30_packet : Packet :=
  { ex_packet with
    ip := { ex_packet.ip with ip_len := htons 40 }
    udp := { ex_packet.udp with uh_ulen := htons 999 } }

/-- A sample environment of the emission code over the sample registry: the
descriptor's packet is the sample packet stamped with the first stored value,
`clone` and `uniqueify` succeed, timestamps divide rounding down, the clock
advances by 10 units a reading from 1000, the timer adjustment is 5, every
random draw is 123456789, and output 0 is a push port. -/
def ex_run_env : RunEnv Desc :=
  { env := ex_env
    packet_of := fun d =>
      { ex_packet with timestamp_anno := ((d.stored.map (fun x => x.2)).headD 0 : Nat) }
    clone_ok := fun _ => true
    uniqueify_ok := fun _ => true
    ts_div := fun a n => a / (n : Int)
    now := fun n => 1000 + 10 * (n : Int)
    adjustment := 5
    click_random := fun _ => 123456789
    output_is_pull := false }

/-- A sample engine reading `input` in text mode under `!data ip_proto sport`:
active, timing and multi-packet expansion off, every packet kept, the work slot
empty. -/
def ex_engine (input : Str) : Engine Desc :=
  { rd := ex_text_state input
    _active := true
    _stop := false
    _timing := false
    _have_timing := false
    _timing_offset := 0
    _multipacket := false
    _multipacket_length := 0
    _multipacket_end_timestamp := 0
    _multipacket_timestamp_delta := 0
    _sampling_prob := 1 <<< SAMPLING_SHIFT
    _work_packet := none
    clock_reads := 0
    random_draws := 0
    effects := [] }

/-- The packets that a log of calls hands to the output port, in order. -/
def pushed : List Effect → List Packet
  | [] => []
  | Effect.push p :: rest => p :: pushed rest
  | _ :: rest => pushed rest

/-- Every entry of `_field_order` is an index into `_fields`. -/
def fields_indexed {D : Type} (s : State D) : Prop :=
  ∀ i ∈ s._field_order, i < s._fields.length

/-- The sample packet as the source of Scenario 3: count 3 (two extra packets),
total length 300 (a 40-byte buffer and 260 bytes of extra length), first
timestamp 1.0 and timestamp 3.0, in microseconds. -/
def ex_multi_packet : Packet :=
  { ex_packet with
    extra_length_anno := 260
    extra_packets_anno := 2
    timestamp_anno := 3000000
    first_timestamp_anno := 1000000 }

/-- The sample packet with count 2 and no extra length. -/
def ex_c22_packet : Packet :=
  { ex_packet with extra_length_anno := 0, extra_packets_anno := 1 }

/-- The sample packet with count 2 and a first timestamp after its timestamp. -/
def ex_c23_packet : Packet :=
  { ex_packet with
    extra_length_anno := 60
    extra_packets_anno := 1
    timestamp_anno := 1000
    first_timestamp_anno := 3000 }

/-- The sample packet with count 2 and the extra-length annotation `2^32 - 20`,
which the post-pass stores for an `ip_len` of 20 on a 40-byte buffer. -/
def ex_c29_packet : Packet :=
  { ex_packet with extra_length_anno := 4294967276, extra_packets_anno := 1 }

/-- The engine after `n` successive runs of `run_task`, each with `fuel` trips for its
loop; `none` when a run is out of fuel or undefined. -/
def run_tasks {D : Type} (re : RunEnv D) (fuel : Nat) : Nat → Engine D → Option (Engine D)
  | 0, e => some e
  | n + 1, e =>
    match run_task re fuel e with
    | none => none
    | some r => run_tasks re fuel n r.1

/-- The sample environment in which every record read is the source packet of
Scenario 3. -/
def ex_c31_env : RunEnv Desc :=
  { ex_run_env with packet_of := fun _ => ex_multi_packet }

/-- The sample engine reading one record, with `TIMING` and `MULTIPACKET` both
on. -/
def ex_c31_engine : Engine Desc :=
  { ex_engine (str "6 80\n") with _timing := true, _multipacket := true }

/-! ## Pass 1, in the words of the specification -/

/-- Whether an ASCII argument is present: not empty and not the token `-`. -/
def present_ascii (a : Str) : Bool := a != [] && a != str "-"

/-- Whether a binary argument is present: the slice pointer is not null. -/
def present_binary (a : Nat) : Bool := a != 0

/-- The entries of the index list `order` that are due for a parser call, in the
order of the list: those whose argument is present and whose reader has an
injector. -/
def spec_due {D A : Type} (fields : List (FieldReader D)) (args : List A) (present : A → Bool)
    (order : List Nat) : List Nat :=
  order.filter (fun i =>
    match fields[i]?, args[i]? with
    | some f, some a => present a && f.inject.isSome
    | _, _ => false)

/-- The call `f->ina(d, args[*fip], f)`: the flag returned and the descriptor
left. -/
def call_ina {D : Type} (f : FieldReader D) (d : D) (a : Str) : Option (Bool × D) :=
  some (f.ina d a)

/-- The call `f->inb(d, args[*fip], end, f)`: whether the pointer returned is
not null, and the descriptor left; `none` for a null `inb`. -/
def call_inb {D : Type} (line : Line) (f : FieldReader D) (d : D) (a : Nat) :
    Option (Bool × D) :=
  f.inb.map (fun inb => (decide ((inb d line a).1 ≠ 0), (inb d line a).2))

/-- Making the calls of a log on a descriptor, one after the other.  A parser
call is made while the descriptor holds its packet, on the descriptor with its
value slots cleared, and must return the flag that the log gives; an injector
call runs the injector of the field.  The result is the descriptor after the
last call, `none` when a call of the log cannot be made or returns another
flag. -/
def replay {D A : Type} (env : Env D) (parser : FieldReader D → D → A → Option (Bool × D))
    (fields : List (FieldReader D)) : List (Event A) → D → Option D
  | [], d => some d
  | Event.parse i a ok :: rest, d =>
    if env.has_p d = false then none
    else
      match fields[i]? with
      | none => none
      | some f =>
        match parser f (env.clear_values d) a with
        | none => none
        | some r => if r.1 = ok then replay env parser fields rest r.2 else none
  | Event.inject i :: rest, d =>
    match fields[i]? with
    | none => none
    | some f =>
      match f.inject with
      | none => none
      | some inject => replay env parser fields rest (inject d)

/-- The sample environment of the emission code with a first random draw of
200000000 and later draws of 5. -/
def ex_c25_env : RunEnv Desc :=
  { ex_run_env with click_random := fun n => if n = 0 then 200000000 else 5 }

/-- The sample engine with a sampling probability of `2^27`, one half, reading
two records. -/
def ex_c25_engine : Engine Desc :=
  { ex_engine (str "6 80\n7 81\n") with _sampling_prob := 2 ^ 27 }

/-! # Properties -/

/-! ## The field order after `!data` -/

/-- Inserting an element keeps the elements. -/
theorem qsort_insert_perm (c : Nat → Nat → Int) (x : Nat) (l : List Nat) :
    List.Perm (qsort_insert c x l) (x :: l) := by
  induction l with
  | nil => exact List.Perm.refl _
  | cons y ys ih =>
    unfold qsort_insert
    split
    · exact List.Perm.refl _
    · exact (List.Perm.cons y ih).trans (List.Perm.swap x y ys)

/-- The sort returns a permutation of its input. -/
theorem click_qsort_perm (c : Nat → Nat → Int) (l : List Nat) :
    List.Perm (click_qsort c l) l := by
  induction l with
  | nil => exact List.Perm.refl _
  | cons x xs ih =>
    unfold click_qsort
    exact (qsort_insert_perm c x _).trans (List.Perm.cons x ih)

/-- Inserting into a sorted list keeps it sorted, for a total and transitive
comparison. -/
theorem qsort_insert_sorted (c : Nat → Nat → Int)
    (htot : ∀ a b, c a b ≤ 0 ∨ c b a ≤ 0)
    (htrans : ∀ a b d, c a b ≤ 0 → c b d ≤ 0 → c a d ≤ 0) (x : Nat) (l : List Nat)
    (hl : List.Pairwise (fun a b => c a b ≤ 0) l) :
    List.Pairwise (fun a b => c a b ≤ 0) (qsort_insert c x l) := by
  induction l with
  | nil => simp [qsort_insert]
  | cons y ys ih =>
    rw [List.pairwise_cons] at hl
    unfold qsort_insert
    split
    · rename_i hxy
      refine List.Pairwise.cons ?_ (List.Pairwise.cons hl.1 hl.2)
      intro b hb
      rcases List.mem_cons.mp hb with rfl | hb
      · exact hxy
      · exact htrans _ _ _ hxy (hl.1 b hb)
    · rename_i hxy
      refine List.Pairwise.cons ?_ (ih hl.2)
      intro b hb
      rcases List.mem_cons.mp ((qsort_insert_perm c x ys).mem_iff.mp hb) with rfl | hb
      · exact (htot b y).resolve_left hxy
      · exact hl.1 b hb

/-- The sort returns a sorted list, for a total and transitive comparison. -/
theorem click_qsort_sorted (c : Nat → Nat → Int)
    (htot : ∀ a b, c a b ≤ 0 ∨ c b a ≤ 0)
    (htrans : ∀ a b d, c a b ≤ 0 → c b d ≤ 0 → c a d ≤ 0) (l : List Nat) :
    List.Pairwise (fun a b => c a b ≤ 0) (click_qsort c l) := by
  induction l with
  | nil => simp [click_qsort]
  | cons x xs ih =>
    unfold click_qsort
    exact qsort_insert_sorted c htot htrans x _ ih

/-- When `sort_fields_compare` puts `a` no later than `b`. -/
theorem sort_fields_compare_le {D : Type} (fields : List (FieldReader D)) (a b : Nat) :
    sort_fields_compare fields a b ≤ 0 ↔
      (field_order_key fields a < field_order_key fields b ∨
        (field_order_key fields a = field_order_key fields b ∧ a ≤ b)) := by
  unfold sort_fields_compare
  split_ifs <;> omega

/-- Sorting `0..n-1` with `sort_fields_compare` gives a list in strictly ascending
(order key, index) order. -/
theorem click_qsort_range_strict {D : Type} (fields : List (FieldReader D)) (n : Nat) :
    List.Pairwise
      (fun a b => field_order_key fields a < field_order_key fields b ∨
        (field_order_key fields a = field_order_key fields b ∧ a < b))
      (click_qsort (sort_fields_compare fields) (List.range n)) := by
  have hsorted : List.Pairwise (fun a b => sort_fields_compare fields a b ≤ 0)
      (click_qsort (sort_fields_compare fields) (List.range n)) := by
    apply click_qsort_sorted
    · intro a b; simp only [sort_fields_compare_le]; omega
    · intro a b d; simp only [sort_fields_compare_le]; omega
  have hnodup : (click_qsort (sort_fields_compare fields) (List.range n)).Nodup :=
    (click_qsort_perm _ _).nodup_iff.mpr (List.nodup_range _)
  refine (hsorted.and hnodup).imp ?_
  intro a b h
  have h1 := (sort_fields_compare_le _ a b).mp h.1
  have h2 : a ≠ b := h.2
  omega

/-- The loop of `bang_data` keeps `_field_order` equal to `0..|_fields|-1`. -/
theorem bang_data_loop_range {D : Type} (env : Env D) (ws : List Str) :
    ∀ (i : Nat) (fields : List (FieldReader D)) (order : List Nat) (ff : FromFile),
      order = List.range fields.length →
      (bang_data_loop env ws i fields order ff).2.1
        = List.range (bang_data_loop env ws i fields order ff).1.length := by
  induction ws with
  | nil => intro i fields order ff h; simpa [bang_data_loop] using h
  | cons w ws ih =>
    intro i fields order ff h
    unfold bang_data_loop
    simp only
    split
    · exact ih _ _ _ _ h
    · apply ih
      simp [h, List.range_succ]

/-- After `bang_data`, `_field_order` holds the sorted indices of `_fields`. -/
theorem bang_data_field_order_eq {D : Type} (env : Env D) (s : State D) (line : Str) :
    (bang_data env s line)._field_order
      = click_qsort (sort_fields_compare (bang_data env s line)._fields)
          (List.range (bang_data env s line)._fields.length) := by
  have h := bang_data_loop_range env (env.cp_spacevec line) 0 [] [] s._ff rfl
  simp only [bang_data]
  rw [h]
  rw [List.take_range, List.drop_eq_nil_of_le (by simp)]
  simp

/-- C1. After `bang_data` on any line, `_field_order` is as long as `_fields`, is
a permutation of `0..n-1`, and is in strictly ascending (order key, declaration
index) order: of two consecutive entries `a`, `b`, either the order key of
`_fields[a]` is smaller, or the keys are equal and `a < b`. -/
theorem bang_data_field_order_sorted_perm {D : Type} (env : Env D) (s : State D) (line : Str) :
    (bang_data env s line)._field_order.length = (bang_data env s line)._fields.length ∧
    List.Perm (bang_data env s line)._field_order
      (List.range (bang_data env s line)._fields.length) ∧
    List.Chain'
      (fun a b =>
        field_order_key (bang_data env s line)._fields a
            < field_order_key (bang_data env s line)._fields b ∨
          (field_order_key (bang_data env s line)._fields a
              = field_order_key (bang_data env s line)._fields b ∧ a < b))
      (bang_data env s line)._field_order := by
  have hperm : List.Perm (bang_data env s line)._field_order
      (List.range (bang_data env s line)._fields.length) := by
    rw [bang_data_field_order_eq]; exact click_qsort_perm _ _
  refine ⟨by simpa using hperm.length_eq, hperm, List.Pairwise.chain' ?_⟩
  rw [bang_data_field_order_eq]
  exact click_qsort_range_strict _ _

/-! ## Pass 1 follows the field order -/

/-- Injector calls of a log put after another add up. -/
theorem injections_after {A : Type} (evs log : List (Event A)) :
    injections (evs ++ log) = injections evs + injections log := by
  simp [injections, List.countP_append]

/-- The empty log satisfies `log_ok`. -/
theorem log_ok_nil {D A : Type} (fields : List (FieldReader D)) (args : List A)
    (absent : A → Prop) (order : List Nat) : log_ok fields args absent order [] := by
  refine ⟨by simp, by simp, rfl⟩

/-- A field that pass 1 skips leaves the log as it is. -/
theorem log_ok_skip {D A : Type} (fields : List (FieldReader D)) (args : List A)
    (absent : A → Prop) (i : Nat) (order : List Nat) (log : List (Event A))
    (h : log_ok fields args absent order log) : log_ok fields args absent (i :: order) log :=
  ⟨h.1.cons i, h.2.1, h.2.2⟩

/-- A field whose parser succeeds adds a parser call and an injector call. -/
theorem log_ok_hit {D A : Type} (fields : List (FieldReader D)) (args : List A)
    (absent : A → Prop) (i : Nat) (a : A) (f : FieldReader D) (order : List Nat)
    (log : List (Event A))
    (ha : args[i]? = some a) (hp : ¬ absent a) (hf : fields[i]? = some f)
    (hj : f.inject.isSome = true)
    (h : log_ok fields args absent order log) :
    log_ok fields args absent (i :: order) ([Event.parse i a true, Event.inject i] ++ log) := by
  refine ⟨?_, ?_, ?_⟩
  · simpa [Event.parsed_index] using h.1
  · intro j b ok hm
    simp only [List.cons_append, List.nil_append, List.mem_cons] at hm
    rcases hm with hm | hm | hm
    · cases hm; exact ⟨ha, hp, f, hf, hj⟩
    · cases hm
    · exact h.2.1 j b ok hm
  · simpa [paired] using h.2.2

/-- A field whose parser fails adds a parser call only. -/
theorem log_ok_miss {D A : Type} (fields : List (FieldReader D)) (args : List A)
    (absent : A → Prop) (i : Nat) (a : A) (f : FieldReader D) (order : List Nat)
    (log : List (Event A))
    (ha : args[i]? = some a) (hp : ¬ absent a) (hf : fields[i]? = some f)
    (hj : f.inject.isSome = true)
    (h : log_ok fields args absent order log) :
    log_ok fields args absent (i :: order) ([Event.parse i a false] ++ log) := by
  refine ⟨?_, ?_, ?_⟩
  · simpa [Event.parsed_index] using h.1
  · intro j b ok hm
    simp only [List.cons_append, List.nil_append, List.mem_cons] at hm
    rcases hm with hm | hm
    · cases hm; exact ⟨ha, hp, f, hf, hj⟩
    · exact h.2.1 j b ok hm
  · simpa [paired] using h.2.2

/-- The ASCII inject loop returns, its log satisfies `log_ok`, and it adds one to
`nfields` per injector call. -/
theorem inject_ascii_log {D : Type} (env : Env D) (fields : List (FieldReader D))
    (args : List Str) (hargs : args.length = fields.length) :
    ∀ (order : List Nat) (d : D) (n : Nat), (∀ i ∈ order, i < fields.length) →
      ∃ r, inject_ascii env fields args order d n = some r ∧
        log_ok fields args (fun a => a = [] ∨ a = str "-") order r.log ∧
        r.nfields = n + injections r.log := by
  intro order
  induction order with
  | nil =>
    intro d n _
    exact ⟨_, rfl, log_ok_nil _ _ _ _, by simp [injections]⟩
  | cons i rest ih =>
    intro d n h
    have hi : i < fields.length := h i (List.mem_cons_self _ _)
    have hrest : ∀ j ∈ rest, j < fields.length := fun j hj => h j (List.mem_cons_of_mem _ hj)
    have hf : fields[i]? = some (fields[i]) := List.getElem?_eq_getElem hi
    have ha : args[i]? = some (args[i]) := List.getElem?_eq_getElem (hargs ▸ hi)
    unfold inject_ascii
    by_cases hp : env.has_p d = false
    · rw [if_pos hp]
      exact ⟨_, rfl, log_ok_nil _ _ _ _, by simp [injections]⟩
    · rw [if_neg hp, hf, ha]
      simp only
      by_cases hab : args[i] = [] ∨ args[i] = str "-"
      · rw [if_pos hab]
        obtain ⟨r, hr, hlog, hn⟩ := ih d n hrest
        exact ⟨r, hr, log_ok_skip _ _ _ _ _ _ hlog, hn⟩
      · rw [if_neg hab]
        cases hj : fields[i].inject with
        | none =>
          simp only
          obtain ⟨r, hr, hlog, hn⟩ := ih d n hrest
          exact ⟨r, hr, log_ok_skip _ _ _ _ _ _ hlog, hn⟩
        | some inj =>
          simp only
          have hj2 : fields[i].inject.isSome = true := by simp [hj]
          by_cases hok : (fields[i].ina (env.clear_values d) args[i]).1 = true
          · rw [if_pos hok]
            obtain ⟨r, hr, hlog, hn⟩ := ih (inj (fields[i].ina (env.clear_values d) args[i]).2) (n + 1) hrest
            refine ⟨Pass1.after [Event.parse i args[i] true, Event.inject i] r, by simp [hr], ?_, ?_⟩
            · exact log_ok_hit _ _ _ _ _ _ _ _ ha hab hf hj2 hlog
            · simp only [Pass1.after, injections_after, hn]
              simp [injections, Event.is_inject]; omega
          · rw [if_neg hok]
            obtain ⟨r, hr, hlog, hn⟩ := ih (fields[i].ina (env.clear_values d) args[i]).2 n hrest
            refine ⟨Pass1.after [Event.parse i args[i] false] r, by simp [hr], ?_, ?_⟩
            · exact log_ok_miss _ _ _ _ _ _ _ _ ha hab hf hj2 hlog
            · simp only [Pass1.after, injections_after, hn]
              simp [injections, Event.is_inject]

/-- The tokenizer collects exactly as many arguments as it is asked for. -/
theorem tokenize_length (k : Nat) : ∀ data : Str, (tokenize k data).length = k := by
  induction k with
  | zero => intro data; rfl
  | succ k ih => intro data; simp [tokenize, ih]

/-- The slicer stores one argument per field. -/
theorem slice_binary_length {D : Type} (line : Line) (fs : List (FieldReader D)) :
    ∀ (data : Nat) (d : D), (slice_binary line fs data d).1.length = fs.length := by
  induction fs with
  | nil => intro data d; rfl
  | cons f fs ih =>
    intro data d
    unfold slice_binary
    split
    · simp [ih]
    · split
      · split <;> simp [ih]
      · split <;> simp [ih]

/-- A field with a non-null sliced argument has a binary parser. -/
theorem slice_binary_inb {D : Type} (line : Line) (fs : List (FieldReader D)) :
    ∀ (data : Nat) (d : D) (i a : Nat) (f : FieldReader D),
      (slice_binary line fs data d).1[i]? = some a → a ≠ 0 → fs[i]? = some f →
        f.inb.isSome = true := by
  induction fs with
  | nil => intro data d i a f _ _ hf; simp at hf
  | cons g fs ih =>
    intro data d i a f ha hne hf
    unfold slice_binary at ha
    cases i with
    | zero =>
      simp only [List.getElem?_cons_zero, Option.some.injEq] at hf
      subst hf
      split at ha
      · simp at ha; omega
      · rename_i inb hinb; simp [hinb]
    | succ i =>
      simp only [List.getElem?_cons_succ] at hf
      split at ha
      · simp only [List.getElem?_cons_succ] at ha
        exact ih _ _ _ _ _ ha hne hf
      · split at ha
        · split at ha <;>
          · simp only [List.getElem?_cons_succ] at ha
            exact ih _ _ _ _ _ ha hne hf
        · split at ha <;>
          · simp only [List.getElem?_cons_succ] at ha
            exact ih _ _ _ _ _ ha hne hf

/-- The binary inject loop returns, its log satisfies `log_ok`, and it adds one to
`nfields` per injector call, when every non-null argument belongs to a field
with a binary parser. -/
theorem inject_binary_log {D : Type} (env : Env D) (fields : List (FieldReader D))
    (line : Line) (args : List Nat) (hargs : args.length = fields.length)
    (hinb : ∀ (i a : Nat) (f : FieldReader D), args[i]? = some a → a ≠ 0 →
      fields[i]? = some f → f.inb.isSome = true) :
    ∀ (order : List Nat) (d : D) (n : Nat), (∀ i ∈ order, i < fields.length) →
      ∃ r, inject_binary env fields line args order d n = some r ∧
        log_ok fields args (fun a => a = 0) order r.log ∧
        r.nfields = n + injections r.log := by
  intro order
  induction order with
  | nil =>
    intro d n _
    exact ⟨_, rfl, log_ok_nil _ _ _ _, by simp [injections]⟩
  | cons i rest ih =>
    intro d n h
    have hi : i < fields.length := h i (List.mem_cons_self _ _)
    have hrest : ∀ j ∈ rest, j < fields.length := fun j hj => h j (List.mem_cons_of_mem _ hj)
    have hf : fields[i]? = some (fields[i]) := List.getElem?_eq_getElem hi
    have ha : args[i]? = some (args[i]) := List.getElem?_eq_getElem (hargs ▸ hi)
    unfold inject_binary
    by_cases hp : env.has_p d = false
    · rw [if_pos hp]
      exact ⟨_, rfl, log_ok_nil _ _ _ _, by simp [injections]⟩
    · rw [if_neg hp, hf, ha]
      simp only
      by_cases hab : args[i] = 0
      · rw [if_pos hab]
        obtain ⟨r, hr, hlog, hn⟩ := ih d n hrest
        exact ⟨r, hr, log_ok_skip _ _ _ _ _ _ hlog, hn⟩
      · rw [if_neg hab]
        cases hj : fields[i].inject with
        | none =>
          simp only
          obtain ⟨r, hr, hlog, hn⟩ := ih d n hrest
          exact ⟨r, hr, log_ok_skip _ _ _ _ _ _ hlog, hn⟩
        | some inj =>
          simp only
          have hj2 : fields[i].inject.isSome = true := by simp [hj]
          have hb := hinb i _ _ ha hab hf
          cases hib : fields[i].inb with
          | none => simp [hib] at hb
          | some inb =>
            simp only
            by_cases hok : (inb (env.clear_values d) line args[i]).1 ≠ 0
            · rw [if_pos hok]
              obtain ⟨r, hr, hlog, hn⟩ :=
                ih (inj (inb (env.clear_values d) line args[i]).2) (n + 1) hrest
              refine ⟨Pass1.after [Event.parse i args[i] true, Event.inject i] r,
                by simp [hr], ?_, ?_⟩
              · exact log_ok_hit _ _ _ _ _ _ _ _ ha hab hf hj2 hlog
              · simp only [Pass1.after, injections_after, hn]
                simp [injections, Event.is_inject]; omega
            · rw [if_neg hok]
              obtain ⟨r, hr, hlog, hn⟩ := ih (inb (env.clear_values d) line args[i]).2 n hrest
              refine ⟨Pass1.after [Event.parse i args[i] false] r, by simp [hr], ?_, ?_⟩
              · exact log_ok_miss _ _ _ _ _ _ _ _ ha hab hf hj2 hlog
              · simp only [Pass1.after, injections_after, hn]
                simp [injections, Event.is_inject]

/-- An index whose field is not due is not in the due list. -/
theorem spec_due_skip {D A : Type} (fields : List (FieldReader D)) (args : List A)
    (present : A → Bool) (i : Nat) (order : List Nat) (f : FieldReader D) (a : A)
    (hf : fields[i]? = some f) (ha : args[i]? = some a)
    (h : (present a && f.inject.isSome) = false) :
    spec_due fields args present (i :: order) = spec_due fields args present order := by
  unfold spec_due
  rw [List.filter_cons]
  simp only [hf, ha, h, Bool.false_eq_true, if_false]

/-- An index whose field is due heads the due list. -/
theorem spec_due_take {D A : Type} (fields : List (FieldReader D)) (args : List A)
    (present : A → Bool) (i : Nat) (order : List Nat) (f : FieldReader D) (a : A)
    (hf : fields[i]? = some f) (ha : args[i]? = some a)
    (h : (present a && f.inject.isSome) = true) :
    spec_due fields args present (i :: order) = i :: spec_due fields args present order := by
  unfold spec_due
  rw [List.filter_cons]
  simp only [hf, ha, h, if_true]

/-- The ASCII inject loop calls the parsers of the due fields in order, all of
them unless the descriptor lost its packet, and its log replays to the
descriptor it returns. -/
theorem inject_ascii_replay {D : Type} (env : Env D) (fields : List (FieldReader D))
    (args : List Str) :
    ∀ (order : List Nat) (d : D) (n : Nat) (r : Pass1 D Str),
      inject_ascii env fields args order d n = some r →
        List.IsPrefix (r.log.filterMap Event.parsed_index)
          (spec_due fields args present_ascii order) ∧
        (env.has_p r.d = true →
          r.log.filterMap Event.parsed_index = spec_due fields args present_ascii order) ∧
        replay env call_ina fields r.log d = some r.d := by
  intro order
  induction order with
  | nil =>
    intro d n r h
    simp only [inject_ascii, Option.some.injEq] at h
    subst h
    exact ⟨by simp [spec_due], fun _ => by simp [spec_due], rfl⟩
  | cons i rest ih =>
    intro d n r h
    unfold inject_ascii at h
    by_cases hp : env.has_p d = false
    · rw [if_pos hp] at h
      simp only [Option.some.injEq] at h
      subst h
      exact ⟨List.nil_prefix, fun hh => by simp [hp] at hh, rfl⟩
    · rw [if_neg hp] at h
      cases hf : fields[i]? with
      | none => simp [hf] at h
      | some f =>
        cases ha : args[i]? with
        | none => simp [hf, ha] at h
        | some a =>
          simp only [hf, ha] at h
          by_cases hab : a = [] ∨ a = str "-"
          · rw [if_pos hab] at h
            have hd : (present_ascii a && f.inject.isSome) = false := by
              rcases hab with hab | hab <;> simp [present_ascii, hab]
            rw [spec_due_skip fields args present_ascii i rest f a hf ha hd]
            exact ih d n r h
          · rw [if_neg hab] at h
            have hpa : present_ascii a = true := by
              simp only [not_or] at hab
              simp [present_ascii, hab.1, hab.2]
            cases hj : f.inject with
            | none =>
              simp only [hj] at h
              have hd : (present_ascii a && f.inject.isSome) = false := by simp [hj]
              rw [spec_due_skip fields args present_ascii i rest f a hf ha hd]
              exact ih d n r h
            | some inj =>
              simp only [hj] at h
              have hd : (present_ascii a && f.inject.isSome) = true := by simp [hj, hpa]
              rw [spec_due_take fields args present_ascii i rest f a hf ha hd]
              by_cases hok : (f.ina (env.clear_values d) a).1 = true
              · rw [if_pos hok] at h
                cases hr : inject_ascii env fields args rest
                    (inj (f.ina (env.clear_values d) a).2) (n + 1) with
                | none => simp [hr] at h
                | some r1 =>
                  simp only [hr, Option.map_some', Option.some.injEq] at h
                  subst h
                  obtain ⟨h1, h2, h3⟩ := ih _ _ _ hr
                  refine ⟨?_, ?_, ?_⟩
                  · simpa [Pass1.after, Event.parsed_index, List.prefix_cons_inj] using h1
                  · intro hh
                    simpa [Pass1.after, Event.parsed_index] using h2 hh
                  · simp only [Pass1.after, List.cons_append, List.nil_append, replay, hf,
                      call_ina, hok, hj, if_neg hp, if_true]
                    exact h3
              · rw [if_neg hok] at h
                cases hr : inject_ascii env fields args rest
                    (f.ina (env.clear_values d) a).2 n with
                | none => simp [hr] at h
                | some r1 =>
                  simp only [hr, Option.map_some', Option.some.injEq] at h
                  subst h
                  obtain ⟨h1, h2, h3⟩ := ih _ _ _ hr
                  have hok2 : (f.ina (env.clear_values d) a).1 = false := by
                    simpa using hok
                  refine ⟨?_, ?_, ?_⟩
                  · simpa [Pass1.after, Event.parsed_index, List.prefix_cons_inj] using h1
                  · intro hh
                    simpa [Pass1.after, Event.parsed_index] using h2 hh
                  · simp only [Pass1.after, List.cons_append, List.nil_append, replay, hf,
                      call_ina, hok2, if_neg hp, if_true]
                    exact h3

/-- The binary inject loop calls the parsers of the due fields in order, all of
them unless the descriptor lost its packet, and its log replays to the
descriptor it returns. -/
theorem inject_binary_replay {D : Type} (env : Env D) (fields : List (FieldReader D))
    (line : Line) (args : List Nat) :
    ∀ (order : List Nat) (d : D) (n : Nat) (r : Pass1 D Nat),
      inject_binary env fields line args order d n = some r →
        List.IsPrefix (r.log.filterMap Event.parsed_index)
          (spec_due fields args present_binary order) ∧
        (env.has_p r.d = true →
          r.log.filterMap Event.parsed_index = spec_due fields args present_binary order) ∧
        replay env (call_inb line) fields r.log d = some r.d := by
  intro order
  induction order with
  | nil =>
    intro d n r h
    simp only [inject_binary, Option.some.injEq] at h
    subst h
    exact ⟨by simp [spec_due], fun _ => by simp [spec_due], rfl⟩
  | cons i rest ih =>
    intro d n r h
    unfold inject_binary at h
    by_cases hp : env.has_p d = false
    · rw [if_pos hp] at h
      simp only [Option.some.injEq] at h
      subst h
      exact ⟨List.nil_prefix, fun hh => by simp [hp] at hh, rfl⟩
    · rw [if_neg hp] at h
      cases hf : fields[i]? with
      | none => simp [hf] at h
      | some f =>
        cases ha : args[i]? with
        | none => simp [hf, ha] at h
        | some a =>
          simp only [hf, ha] at h
          by_cases hab : a = 0
          · rw [if_pos hab] at h
            have hd : (present_binary a && f.inject.isSome) = false := by
              simp [present_binary, hab]
            rw [spec_due_skip fields args present_binary i rest f a hf ha hd]
            exact ih d n r h
          · rw [if_neg hab] at h
            have hpa : present_binary a = true := by
              simp [present_binary, hab]
            cases hj : f.inject with
            | none =>
              simp only [hj] at h
              have hd : (present_binary a && f.inject.isSome) = false := by simp [hj]
              rw [spec_due_skip fields args present_binary i rest f a hf ha hd]
              exact ih d n r h
            | some inj =>
              simp only [hj] at h
              have hd : (present_binary a && f.inject.isSome) = true := by simp [hj, hpa]
              rw [spec_due_take fields args present_binary i rest f a hf ha hd]
              cases hib : f.inb with
              | none => simp [hib] at h
              | some inb =>
                simp only [hib] at h
                by_cases hok : (inb (env.clear_values d) line a).1 ≠ 0
                · rw [if_pos hok] at h
                  cases hr : inject_binary env fields line args rest
                      (inj (inb (env.clear_values d) line a).2) (n + 1) with
                  | none => simp [hr] at h
                  | some r1 =>
                    simp only [hr, Option.map_some', Option.some.injEq] at h
                    subst h
                    obtain ⟨h1, h2, h3⟩ := ih _ _ _ hr
                    refine ⟨?_, ?_, ?_⟩
                    · simpa [Pass1.after, Event.parsed_index, List.prefix_cons_inj] using h1
                    · intro hh
                      simpa [Pass1.after, Event.parsed_index] using h2 hh
                    · simp only [Pass1.after, List.cons_append, List.nil_append, replay, hf,
                        call_inb, hib, Option.map_some', hj, if_neg hp]
                      rw [if_pos (by simpa using hok)]
                      exact h3
                · rw [if_neg hok] at h
                  cases hr : inject_binary env fields line args rest
                      (inb (env.clear_values d) line a).2 n with
                  | none => simp [hr] at h
                  | some r1 =>
                    simp only [hr, Option.map_some', Option.some.injEq] at h
                    subst h
                    obtain ⟨h1, h2, h3⟩ := ih _ _ _ hr
                    refine ⟨?_, ?_, ?_⟩
                    · simpa [Pass1.after, Event.parsed_index, List.prefix_cons_inj] using h1
                    · intro hh
                      simpa [Pass1.after, Event.parsed_index] using h2 hh
                    · simp only [Pass1.after, List.cons_append, List.nil_append, replay, hf,
                        call_inb, hib, Option.map_some', if_neg hp]
                      rw [if_pos (by simpa using hok)]
                      exact h3

/-- C2. Pass 1 of `read_packet`, ASCII and binary alike, for a field order whose
entries index `_fields`: the loop returns; its parser calls follow
`_field_order`; a parser is called only for a field whose argument is present
(ASCII: not empty and not `-`; binary: not null) and whose reader has an
injector, and for each such field in turn (the calls are a prefix of the due
fields, and all of them when the descriptor still holds its packet at the
end); an injector call follows exactly each successful parser call; `nfields`
is the number of injector calls; and making the logged calls one after the
other, each parser on the cleared descriptor and returning the logged flag,
leads from the descriptor the loop starts with to the one it returns. -/
theorem pass1_calls_follow_field_order {D : Type} (env : Env D) (s : State D) (line : Str)
    (d : D) (h : ∀ i ∈ s._field_order, i < s._fields.length) :
    (∃ r, assemble_ascii env s line d = some r ∧
      log_ok s._fields (tokenize s._fields.length line) (fun a => a = [] ∨ a = str "-")
        s._field_order r.log ∧
      r.nfields = injections r.log ∧
      List.IsPrefix (r.log.filterMap Event.parsed_index)
        (spec_due s._fields (tokenize s._fields.length line) present_ascii s._field_order) ∧
      (env.has_p r.d = true →
        r.log.filterMap Event.parsed_index
          = spec_due s._fields (tokenize s._fields.length line) present_ascii
              s._field_order) ∧
      replay env call_ina s._fields r.log d = some r.d) ∧
    (∃ r, assemble_binary env s line d = some r ∧
      log_ok s._fields
        (slice_binary (Line.mk env.buf line) s._fields env.buf d).1 (fun a => a = 0)
        s._field_order r.log ∧
      r.nfields = injections r.log ∧
      List.IsPrefix (r.log.filterMap Event.parsed_index)
        (spec_due s._fields (slice_binary (Line.mk env.buf line) s._fields env.buf d).1
          present_binary s._field_order) ∧
      (env.has_p r.d = true →
        r.log.filterMap Event.parsed_index
          = spec_due s._fields (slice_binary (Line.mk env.buf line) s._fields env.buf d).1
              present_binary s._field_order) ∧
      replay env (call_inb (Line.mk env.buf line)) s._fields r.log
        (slice_binary (Line.mk env.buf line) s._fields env.buf d).2.2 = some r.d) := by
  constructor
  · obtain ⟨r, hr, hlog, hn⟩ := inject_ascii_log env s._fields (tokenize s._fields.length line)
      (tokenize_length _ _) s._field_order d 0 h
    obtain ⟨h1, h2, h3⟩ := inject_ascii_replay env s._fields (tokenize s._fields.length line)
      s._field_order d 0 r hr
    exact ⟨r, hr, hlog, by simpa using hn, h1, h2, h3⟩
  · obtain ⟨r, hr, hlog, hn⟩ := inject_binary_log env s._fields (Line.mk env.buf line)
      (slice_binary (Line.mk env.buf line) s._fields env.buf d).1
      (slice_binary_length _ _ _ _) (slice_binary_inb _ _ _ _) s._field_order
      (slice_binary (Line.mk env.buf line) s._fields env.buf d).2.2 0 h
    obtain ⟨h1, h2, h3⟩ := inject_binary_replay env s._fields (Line.mk env.buf line)
      (slice_binary (Line.mk env.buf line) s._fields env.buf d).1 s._field_order
      (slice_binary (Line.mk env.buf line) s._fields env.buf d).2.2 0 r hr
    exact ⟨r, hr, hlog, by simpa using hn, h1, h2, h3⟩

/-- C2 at the sample state after `!data sport ip_proto`, whose field order is
`ip_proto`, `sport`, for the record `x 6`: the ASCII loop parses `6` for
`ip_proto` and injects, then parses `x` for `sport`, which fails, and does not
inject; the binary loop parses and injects both fields. -/
theorem pass1_calls_follow_field_order_witness :
    (∀ i ∈ ex_c3_state._field_order, i < ex_c3_state._fields.length) ∧
    ((∃ r, assemble_ascii ex_env ex_c3_state (str "x 6") ex_d0 = some r ∧
      log_ok ex_c3_state._fields (tokenize ex_c3_state._fields.length (str "x 6"))
        (fun a => a = [] ∨ a = str "-") ex_c3_state._field_order r.log ∧
      r.nfields = injections r.log ∧
      List.IsPrefix (r.log.filterMap Event.parsed_index)
        (spec_due ex_c3_state._fields (tokenize ex_c3_state._fields.length (str "x 6"))
          present_ascii ex_c3_state._field_order) ∧
      (ex_env.has_p r.d = true →
        r.log.filterMap Event.parsed_index
          = spec_due ex_c3_state._fields (tokenize ex_c3_state._fields.length (str "x 6"))
              present_ascii ex_c3_state._field_order) ∧
      replay ex_env call_ina ex_c3_state._fields r.log ex_d0 = some r.d) ∧
    (∃ r, assemble_binary ex_env ex_c3_state (str "x 6") ex_d0 = some r ∧
      log_ok ex_c3_state._fields
        (slice_binary (Line.mk ex_env.buf (str "x 6")) ex_c3_state._fields ex_env.buf
          ex_d0).1 (fun a => a = 0) ex_c3_state._field_order r.log ∧
      r.nfields = injections r.log ∧
      List.IsPrefix (r.log.filterMap Event.parsed_index)
        (spec_due ex_c3_state._fields
          (slice_binary (Line.mk ex_env.buf (str "x 6")) ex_c3_state._fields ex_env.buf
            ex_d0).1 present_binary ex_c3_state._field_order) ∧
      (ex_env.has_p r.d = true →
        r.log.filterMap Event.parsed_index
          = spec_due ex_c3_state._fields
              (slice_binary (Line.mk ex_env.buf (str "x 6")) ex_c3_state._fields ex_env.buf
                ex_d0).1 present_binary ex_c3_state._field_order) ∧
      replay ex_env (call_inb (Line.mk ex_env.buf (str "x 6"))) ex_c3_state._fields r.log
        (slice_binary (Line.mk ex_env.buf (str "x 6")) ex_c3_state._fields ex_env.buf
          ex_d0).2.2 = some r.d)) ∧
    ex_c3_state._field_order = [1, 0] ∧
    (assemble_ascii ex_env ex_c3_state (str "x 6") ex_d0).map (fun r => (r.log, r.nfields))
      = some ([Event.parse 1 (str "6") true, Event.inject 1, Event.parse 0 (str "x") false],
          1) ∧
    (assemble_ascii ex_env ex_c3_state (str "x 6") ex_d0).map (fun r => r.d)
      = some { alive := true, slot := 0, stored := [("ip_proto", 6)] } ∧
    (assemble_binary ex_env ex_c3_state (str "x 6") ex_d0).map (fun r => (r.log, r.nfields))
      = some ([Event.parse 1 4098 true, Event.inject 1, Event.parse 0 4096 true,
          Event.inject 0], 2) :=
  ⟨by decide, pass1_calls_follow_field_order ex_env ex_c3_state (str "x 6") ex_d0 (by decide),
    by decide, by decide, by decide, by decide⟩

/-! ## Order invariance of the declaration -/

/-- Equal views stay equal when calls that are equal by reader are put in front. -/
theorem view_after {D A : Type} (F F' : List (FieldReader D)) (dflt : FieldReader D)
    (evs evs' : List (Event A)) (r r' : Option (Pass1 D A))
    (hev : evs.map (Event.call F dflt) = evs'.map (Event.call F' dflt))
    (h : r.map (Pass1.view F dflt) = r'.map (Pass1.view F' dflt)) :
    (r.map (Pass1.after evs)).map (Pass1.view F dflt)
      = (r'.map (Pass1.after evs')).map (Pass1.view F' dflt) := by
  cases r with
  | none => cases r' with
    | none => rfl
    | some y => simp at h
  | some x => cases r' with
    | none => simp at h
    | some y =>
      simp only [Option.map_some', Option.some.injEq, Pass1.view, Prod.mk.injEq] at h
      simp only [Option.map_some', Pass1.view, Pass1.after, List.map_append, h.1, h.2.1,
        h.2.2, hev]

/-- Two ASCII inject loops that meet the same (reader, argument) pairs in the
same order do the same. -/
theorem inject_ascii_congr {D : Type} (env : Env D) (F F' : List (FieldReader D))
    (A A' : List Str) :
    ∀ (order order' : List Nat) (d : D) (n : Nat),
      order.map (fun i => (F[i]?, A[i]?)) = order'.map (fun i => (F'[i]?, A'[i]?)) →
      (inject_ascii env F A order d n).map (Pass1.view F env.null_reader)
        = (inject_ascii env F' A' order' d n).map (Pass1.view F' env.null_reader) := by
  intro order
  induction order with
  | nil =>
    intro order' d n h
    cases order' with
    | nil => simp [inject_ascii, Pass1.view]
    | cons j rest' => simp at h
  | cons i rest ih =>
    intro order' d n h
    cases order' with
    | nil => simp at h
    | cons j rest' =>
      simp only [List.map_cons, List.cons.injEq, Prod.mk.injEq] at h
      obtain ⟨⟨hF, hA⟩, hrest⟩ := h
      unfold inject_ascii
      by_cases hp : env.has_p d = false
      · simp [hp, Pass1.view]
      · rw [if_neg hp, if_neg hp, ← hF, ← hA]
        cases hf : F[i]? with
        | none => rfl
        | some f =>
          cases ha : A[i]? with
          | none => rfl
          | some a =>
            simp only
            by_cases hab : a = [] ∨ a = str "-"
            · rw [if_pos hab, if_pos hab]; exact ih _ _ _ hrest
            · rw [if_neg hab, if_neg hab]
              cases hj : f.inject with
              | none => exact ih _ _ _ hrest
              | some inj =>
                simp only
                by_cases hok : (f.ina (env.clear_values d) a).1 = true
                · rw [if_pos hok, if_pos hok]
                  exact view_after _ _ _ _ _ _ _
                    (by simp [Event.call, hF]) (ih _ _ _ hrest)
                · rw [if_neg hok, if_neg hok]
                  exact view_after _ _ _ _ _ _ _
                    (by simp [Event.call, hF]) (ih _ _ _ hrest)

/-- Two lists sorted by a key are equal when, for every key, they hold the same
elements of that key in the same order. -/
theorem eq_of_sorted_of_filter_eq {α : Type} (key : α → Int) :
    ∀ L L' : List α, L.Pairwise (fun x y => key x ≤ key y) →
      L'.Pairwise (fun x y => key x ≤ key y) →
      (∀ k : Int, L.filter (fun x => decide (key x = k))
        = L'.filter (fun x => decide (key x = k))) → L = L' := by
  intro L
  induction L with
  | nil =>
    intro L' _ _ h
    cases L' with
    | nil => rfl
    | cons y ys => have := h (key y); simp at this
  | cons x xs ih =>
    intro L' hs hs' h
    cases L' with
    | nil => have := h (key x); simp at this
    | cons y ys =>
      rw [List.pairwise_cons] at hs hs'
      have hxy : key x ≤ key y := by
        have hy : y ∈ (x :: xs).filter (fun z => decide (key z = key y)) := by
          rw [h (key y)]; simp
        rcases List.mem_cons.mp (List.mem_of_mem_filter hy) with rfl | hm
        · exact le_refl _
        · exact hs.1 y hm
      have hyx : key y ≤ key x := by
        have hx : x ∈ (y :: ys).filter (fun z => decide (key z = key x)) := by
          rw [← h (key x)]; simp
        rcases List.mem_cons.mp (List.mem_of_mem_filter hx) with rfl | hm
        · exact le_refl _
        · exact hs'.1 x hm
      have hk : key y = key x := le_antisymm hyx hxy
      have h0 := h (key x)
      simp only [List.filter_cons, hk, decide_True, if_true, List.cons.injEq] at h0
      obtain ⟨hxy', _⟩ := h0
      subst hxy'
      congr 1
      apply ih ys hs.2 hs'.2
      intro k
      have hk' := h k
      simp only [List.filter_cons] at hk'
      split at hk'
      · exact (List.cons.inj hk').2
      · exact hk'

/-- Looking up every index of a list gives the list. -/
theorem map_getElem?_range {α : Type} (P : List α) :
    (List.range P.length).map (fun i => P[i]?) = P.map some := by
  apply List.ext_getElem?
  intro i
  by_cases hi : i < P.length
  · simp [List.getElem?_map, List.getElem?_range hi, hi]
  · have : P.length ≤ i := Nat.le_of_not_lt hi
    simp [List.getElem?_map, List.getElem?_eq_none, this]

/-- The sort is stable: the elements of one key are met in declared order. -/
theorem visited_filter {α : Type} (P : List α) (keyO : Option α → Int) (order : List Nat)
    (hperm : order.Perm (List.range P.length))
    (hstrict : order.Pairwise (fun a b => keyO P[a]? < keyO P[b]? ∨
      (keyO P[a]? = keyO P[b]? ∧ a < b))) (k : Int) :
    (order.map (fun i => P[i]?)).filter (fun o => decide (keyO o = k))
      = (P.map some).filter (fun o => decide (keyO o = k)) := by
  rw [← map_getElem?_range, List.filter_map, List.filter_map]
  congr 1
  haveI : IsAntisymm Nat (fun a b => a < b) := ⟨fun a b h1 h2 => absurd h1 (Nat.lt_asymm h2)⟩
  apply List.eq_of_perm_of_sorted (r := fun a b => a < b) (hperm.filter _)
  · refine (hstrict.filter _).imp_of_mem ?_
    intro a b ha hb h
    simp only [List.mem_filter, Function.comp_apply, decide_eq_true_eq] at ha hb
    omega
  · exact (List.sorted_lt_range _).filter _

/-- The elements are met in ascending key order. -/
theorem visited_sorted {α : Type} (P : List α) (keyO : Option α → Int) (order : List Nat)
    (hstrict : order.Pairwise (fun a b => keyO P[a]? < keyO P[b]? ∨
      (keyO P[a]? = keyO P[b]? ∧ a < b))) :
    (order.map (fun i => P[i]?)).Pairwise (fun x y => keyO x ≤ keyO y) := by
  rw [List.pairwise_map]
  refine hstrict.imp ?_
  intro a b h
  omega

/-- The order key of a field of a list of pairs. -/
theorem field_order_key_map {D : Type} (P : List (FieldReader D × Str)) (a : Nat) :
    field_order_key (P.map Prod.fst) a = pair_key P[a]? := by
  simp only [field_order_key, List.getElem?_map]
  cases P[a]? <;> rfl

/-- Two declarations that hold the fields of each order key, with their tokens,
in the same relative order are met in the same order by pass 1. -/
theorem visited_pairs_eq {D : Type} (P P' : List (FieldReader D × Str))
    (hstable : ∀ k : Int, P'.filter (fun p => decide (p.1.order = k))
      = P.filter (fun p => decide (p.1.order = k))) :
    (click_qsort (sort_fields_compare (P.map Prod.fst)) (List.range P.length)).map
        (fun i => P[i]?)
      = (click_qsort (sort_fields_compare (P'.map Prod.fst)) (List.range P'.length)).map
        (fun i => P'[i]?) := by
  have hst : ∀ Q : List (FieldReader D × Str),
      (click_qsort (sort_fields_compare (Q.map Prod.fst)) (List.range Q.length)).Pairwise
        (fun a b => pair_key Q[a]? < pair_key Q[b]? ∨
          (pair_key Q[a]? = pair_key Q[b]? ∧ a < b)) := by
    intro Q
    have h := click_qsort_range_strict (Q.map Prod.fst) Q.length
    simpa only [field_order_key_map] using h
  apply eq_of_sorted_of_filter_eq pair_key
  · exact visited_sorted P pair_key _ (hst P)
  · exact visited_sorted P' pair_key _ (hst P')
  · intro k
    rw [visited_filter P pair_key _ (click_qsort_perm _ _) (hst P) k,
      visited_filter P' pair_key _ (click_qsort_perm _ _) (hst P') k,
      List.filter_map, List.filter_map]
    have : ((fun o => decide (pair_key o = k)) ∘ (some : FieldReader D × Str → _))
        = (fun p => decide (p.1.order = k)) := rfl
    rw [this, hstable k]

/-- Pass 1 does the same under two such declarations. -/
theorem inject_ascii_stable {D : Type} (env : Env D) (F F' : List (FieldReader D))
    (A A' : List Str) (hA : A.length = F.length) (hA' : A'.length = F'.length)
    (hstable : ∀ k : Int, (F'.zip A').filter (fun p => decide (p.1.order = k))
      = (F.zip A).filter (fun p => decide (p.1.order = k))) (d : D) (n : Nat) :
    ∃ r r',
      inject_ascii env F A (click_qsort (sort_fields_compare F) (List.range F.length)) d n
        = some r ∧
      inject_ascii env F' A' (click_qsort (sort_fields_compare F') (List.range F'.length)) d n
        = some r' ∧
      Pass1.view F env.null_reader r = Pass1.view F' env.null_reader r' := by
  have hmem : ∀ G : List (FieldReader D),
      ∀ i ∈ click_qsort (sort_fields_compare G) (List.range G.length), i < G.length := by
    intro G i hi
    exact List.mem_range.mp ((click_qsort_perm _ _).mem_iff.mp hi)
  obtain ⟨r, hr, -, -⟩ := inject_ascii_log env F A hA _ d n (hmem F)
  obtain ⟨r', hr', -, -⟩ := inject_ascii_log env F' A' hA' _ d n (hmem F')
  refine ⟨r, r', hr, hr', ?_⟩
  have hF : F = (F.zip A).map Prod.fst := (List.map_fst_zip _ _ (by omega)).symm
  have hAz : A = (F.zip A).map Prod.snd := (List.map_snd_zip _ _ (by omega)).symm
  have hF' : F' = (F'.zip A').map Prod.fst := (List.map_fst_zip _ _ (by omega)).symm
  have hAz' : A' = (F'.zip A').map Prod.snd := (List.map_snd_zip _ _ (by omega)).symm
  have hlen : (F.zip A).length = F.length := by simp [hA]
  have hlen' : (F'.zip A').length = F'.length := by simp [hA']
  have hv := visited_pairs_eq (F.zip A) (F'.zip A') hstable
  rw [← hF, ← hF', hlen, hlen'] at hv
  have hcongr := inject_ascii_congr env F F' A A'
    (click_qsort (sort_fields_compare F) (List.range F.length))
    (click_qsort (sort_fields_compare F') (List.range F'.length)) d n (by
      have h2 := congrArg (List.map (fun o : Option (FieldReader D × Str) =>
        (o.map Prod.fst, o.map Prod.snd))) hv
      simp only [List.map_map] at h2
      have e1 : ((fun o : Option (FieldReader D × Str) => (o.map Prod.fst, o.map Prod.snd))
          ∘ fun i : Nat => (F.zip A)[i]?) = fun i : Nat => (F[i]?, A[i]?) := by
        funext i
        simp only [Function.comp_apply, ← List.getElem?_map, ← hF, ← hAz]
      have e2 : ((fun o : Option (FieldReader D × Str) => (o.map Prod.fst, o.map Prod.snd))
          ∘ fun i : Nat => (F'.zip A')[i]?) = fun i : Nat => (F'[i]?, A'[i]?) := by
        funext i
        simp only [Function.comp_apply, ← List.getElem?_map, ← hF', ← hAz']
      rw [e1, e2] at h2
      exact h2)
  rw [hr, hr'] at hcongr
  simpa using hcongr

/-- When the keys are pairwise distinct, every permutation keeps the elements of
each key in the same relative order. -/
theorem filter_eq_of_perm_of_distinct {α : Type} (key : α → Int) (P P' : List α)
    (hperm : P'.Perm P) (hd : P.Pairwise (fun x y => key x ≠ key y)) (k : Int) :
    P'.filter (fun x => decide (key x = k)) = P.filter (fun x => decide (key x = k)) := by
  have hp := hperm.filter (fun x => decide (key x = k))
  have hpw := hd.filter (fun x => decide (key x = k))
  generalize hQ : P.filter (fun x => decide (key x = k)) = Q at hp hpw
  have hmem : ∀ x ∈ Q, key x = k := by
    intro x hx
    rw [← hQ] at hx
    simpa using (List.mem_filter.mp hx).2
  match Q, hp, hpw, hmem with
  | [], hp, _, _ => exact List.perm_nil.mp hp
  | [x], hp, _, _ => exact List.perm_singleton.mp hp
  | x :: y :: rest, _, hpw, hmem =>
    exfalso
    have h1 := hmem x (by simp)
    have h2 := hmem y (by simp)
    exact (List.pairwise_cons.mp hpw).1 y (by simp) (h1.trans h2.symm)

/-- C3, amended. For two engines whose `_field_order` is what `bang_data`
computes, and two ASCII records, such that the (field, token) pairs of each
order key come in the same relative order in both (which every permutation of
a field list with pairwise distinct order keys satisfies): pass 1 returns for
both, with the same sequence of parser and injector calls by (reader, argument),
the same descriptor and the same `nfields`. -/
theorem declaration_order_invariance {D : Type} (env : Env D) (s s' : State D)
    (line line' : Str) (d : D)
    (hs : s._field_order
      = click_qsort (sort_fields_compare s._fields) (List.range s._fields.length))
    (hs' : s'._field_order
      = click_qsort (sort_fields_compare s'._fields) (List.range s'._fields.length))
    (hstable : ∀ k : Int,
      (s'._fields.zip (tokenize s'._fields.length line')).filter
          (fun p => decide (p.1.order = k))
        = (s._fields.zip (tokenize s._fields.length line)).filter
          (fun p => decide (p.1.order = k))) :
    ∃ r r', assemble_ascii env s line d = some r ∧ assemble_ascii env s' line' d = some r' ∧
      r.d = r'.d ∧ r.nfields = r'.nfields ∧
      r.log.map (Event.call s._fields env.null_reader)
        = r'.log.map (Event.call s'._fields env.null_reader) := by
  obtain ⟨r, r', hr, hr', hv⟩ := inject_ascii_stable env s._fields s'._fields
    (tokenize s._fields.length line) (tokenize s'._fields.length line')
    (tokenize_length _ _) (tokenize_length _ _) hstable d 0
  simp only [Pass1.view, Prod.mk.injEq] at hv
  exact ⟨r, r', by rw [assemble_ascii, hs, hr], by rw [assemble_ascii, hs', hr'], hv⟩

/-- C3, amended, at `!data sport ip_proto` with record `80 6` against
`!data ip_proto sport` with record `6 80`. -/
theorem declaration_order_invariance_witness :
    ∃ r r', assemble_ascii ex_env ex_c3_state (str "80 6") ex_d0 = some r ∧
      assemble_ascii ex_env ex_c3_state' (str "6 80") ex_d0 = some r' ∧
      r.d = r'.d ∧ r.nfields = r'.nfields ∧
      r.log.map (Event.call ex_c3_state._fields ex_env.null_reader)
        = r'.log.map (Event.call ex_c3_state'._fields ex_env.null_reader) :=
  declaration_order_invariance ex_env ex_c3_state ex_c3_state' (str "80 6") (str "6 80") ex_d0
    (bang_data_field_order_eq _ _ _) (bang_data_field_order_eq _ _ _)
    (filter_eq_of_perm_of_distinct (fun p : FieldReader Desc × Str => p.1.order) _ _ (List.Perm.swap _ _ _) (by decide))

/-- C3 as stated fails: `sport` and `dport` have the same order key, so under
`!data sport dport` with record `80 443` the injectors run in the order sport,
dport, and under the permuted `!data dport sport` with the permuted record
`443 80` in the order dport, sport; the descriptors differ. -/
theorem order_invariance_fails_on_equal_keys :
    List.Perm (ex_c3_tie'._fields.zip (tokenize ex_c3_tie'._fields.length (str "443 80")))
      (ex_c3_tie._fields.zip (tokenize ex_c3_tie._fields.length (str "80 443"))) ∧
    (assemble_ascii ex_env ex_c3_tie (str "80 443") ex_d0).map (fun r => r.d.stored)
      = some [("sport", 80), ("dport", 443)] ∧
    (assemble_ascii ex_env ex_c3_tie' (str "443 80") ex_d0).map (fun r => r.d.stored)
      = some [("dport", 443), ("sport", 80)] ∧
    (assemble_ascii ex_env ex_c3_tie (str "80 443") ex_d0).map (fun r => r.d)
      ≠ (assemble_ascii ex_env ex_c3_tie' (str "443 80") ex_d0).map (fun r => r.d) :=
  ⟨List.Perm.swap _ _ _, by decide, by decide, by decide⟩

/-- The packet that `read_packet` returns for a text record is the same under
two declarations that hold the fields of each order key, with their tokens, in
the same relative order. -/
theorem read_packet_line_stable {D : Type} (env : Env D) (s : State D)
    (F' : List (FieldReader D)) (line line' : Str)
    (hb : s._binary = false)
    (hs : s._field_order
      = click_qsort (sort_fields_compare s._fields) (List.range s._fields.length))
    (hstable : ∀ k : Int,
      (F'.zip (tokenize F'.length line')).filter (fun p => decide (p.1.order = k))
        = (s._fields.zip (tokenize s._fields.length line)).filter
          (fun p => decide (p.1.order = k))) :
    (read_packet_line env
        { s with
          _fields := F'
          _field_order := click_qsort (sort_fields_compare F') (List.range F'.length) }
        line' false).map Prod.snd
      = (read_packet_line env s line false).map Prod.snd := by
  unfold read_packet_line
  dsimp only
  cases env.make_desc s._zero s._default_proto (if s._have_flowid then some s._flowid else none)
    with
  | none => rfl
  | some d0 =>
    obtain ⟨r, r', hr, hr', hv⟩ := inject_ascii_stable env s._fields F'
      (tokenize s._fields.length line) (tokenize F'.length line')
      (tokenize_length _ _) (tokenize_length _ _) hstable d0 0
    simp only [Pass1.view, Prod.mk.injEq] at hv
    simp only [hb, Bool.false_eq_true, if_false, assemble_ascii, hs, hr, hr', Option.map_some',
      hv.1, hv.2.1]
    by_cases hn : r'.nfields = 0
    · simp only [hn, if_true]
      rw [apply_ite (Option.map Prod.snd), apply_ite (Option.map Prod.snd)]
      simp only [Option.map_some', ite_self]
    · simp only [hn, if_false, Option.map_some']

/-! ## `!data` replaces the field list -/

/-- The reader that `bang_data` stores for a word is the specification's. -/
theorem bang_data_reader_eq {D : Type} (env : Env D) (ff : FromFile) (w : Str) :
    (bang_data_reader env ff (env.cp_unquote w)).1 = spec_reader_for env w := by
  unfold bang_data_reader spec_reader_for
  cases env.find (env.cp_unquote w) with
  | none => rfl
  | some f => simp only; cases hj : f.inject <;> simp [hj]

/-- Past the first word, the loop of `bang_data` appends one reader per word. -/
theorem bang_data_loop_fields_succ {D : Type} (env : Env D) (ws : List Str) :
    ∀ (i : Nat) (fields : List (FieldReader D)) (order : List Nat) (ff : FromFile),
      (bang_data_loop env ws (i + 1) fields order ff).1
        = fields ++ ws.map (spec_reader_for env) := by
  induction ws with
  | nil => intro i fields order ff; simp [bang_data_loop]
  | cons w ws ih =>
    intro i fields order ff
    unfold bang_data_loop
    simp only [Nat.add_one_ne_zero, false_and, if_false]
    rw [ih, bang_data_reader_eq]
    simp

/-- After `bang_data`, `_fields` is the field list that the line declares. -/
theorem bang_data_fields_eq {D : Type} (env : Env D) (s : State D) (line : Str) :
    (bang_data env s line)._fields = spec_data_fields env line := by
  simp only [bang_data, spec_data_fields, spec_data_words]
  cases env.cp_spacevec line with
  | nil => simp [bang_data_loop]
  | cons w ws =>
    unfold bang_data_loop
    simp only [true_and]
    split
    · rw [bang_data_loop_fields_succ]; simp
    · rw [bang_data_loop_fields_succ, bang_data_reader_eq]; simp

/-- C4. `bang_data` replaces the field list: afterwards `_fields` holds one reader
per word of the line after a leading `!data` or `!contents` word (the null
reader for a name that is unknown or has no injector) and `_field_order` is the
sorted index list of those fields; both are the same from any two previous
states, and applying the same line twice leaves what applying it once leaves. -/
theorem bang_data_replaces_field_list {D : Type} (env : Env D) (s s' : State D) (line : Str) :
    (bang_data env s line)._fields = spec_data_fields env line ∧
    (bang_data env s line)._field_order
      = click_qsort (sort_fields_compare (spec_data_fields env line))
          (List.range (spec_data_fields env line).length) ∧
    (bang_data env s' line)._fields = (bang_data env s line)._fields ∧
    (bang_data env s' line)._field_order = (bang_data env s line)._field_order ∧
    (bang_data env (bang_data env s line) line)._fields = (bang_data env s line)._fields ∧
    (bang_data env (bang_data env s line) line)._field_order
      = (bang_data env s line)._field_order := by
  have h1 : ∀ t : State D, (bang_data env t line)._fields = spec_data_fields env line :=
    fun t => bang_data_fields_eq env t line
  have h2 : ∀ t : State D, (bang_data env t line)._field_order
      = click_qsort (sort_fields_compare (spec_data_fields env line))
          (List.range (spec_data_fields env line).length) := by
    intro t
    rw [bang_data_field_order_eq, h1]
  exact ⟨h1 s, h2 s, by rw [h1, h1], by rw [h2, h2], by rw [h1, h1], by rw [h2, h2]⟩

/-! ## The ASCII tokenizer -/

/-- Without double quotes, and with fuel for every byte, the inner loop of the
tokenizer stops at the first whitespace byte or at the end of the line. -/
theorem scan_token_no_quote : ∀ (fuel : Nat) (data : Str), data.length ≤ fuel → 34 ∉ data →
    scan_token fuel data = data.dropWhile (fun c => !isspace c) := by
  intro fuel
  induction fuel with
  | zero =>
    intro data h _
    have : data = [] := List.length_eq_zero.mp (Nat.le_zero.mp h)
    subst this; rfl
  | succ fuel ih =>
    intro data h hq
    cases data with
    | nil => rfl
    | cons c rest =>
      have hc : c ≠ 34 := fun e => hq (by simp [e])
      have hrest : 34 ∉ rest := fun e => hq (List.mem_cons_of_mem _ e)
      simp only [List.length_cons, Nat.add_le_add_iff_right] at h
      unfold scan_token
      by_cases hs : isspace c = true
      · simp [hs, List.dropWhile_cons]
      · simp only [hs, if_false, hc, Bool.false_eq_true]
        rw [ih rest h hrest]
        simp [List.dropWhile_cons, hs]

/-- The substring from the start to where `dropWhile` stops is `takeWhile`. -/
theorem take_length_sub_dropWhile (p : Byte → Bool) (data : Str) :
    data.take (data.length - (data.dropWhile p).length) = data.takeWhile p := by
  have h := List.takeWhile_append_dropWhile p data
  have hl := congrArg List.length h
  rw [List.length_append] at hl
  have h2 : data.length - (data.dropWhile p).length = (data.takeWhile p).length := by omega
  have h3 : List.take (data.takeWhile p).length (data.takeWhile p ++ data.dropWhile p)
      = data.takeWhile p := List.take_left' rfl
  rw [h] at h3
  rw [h2, h3]

/-- One trip through the tokenizer on a line without double quotes. -/
theorem tokenize_succ_no_quote (k : Nat) (data : Str) (hq : 34 ∉ data) :
    tokenize (k + 1) data
      = data.takeWhile (fun c => !isspace c)
        :: tokenize k ((data.dropWhile (fun c => !isspace c)).dropWhile isspace) := by
  simp only [tokenize]
  rw [scan_token_no_quote _ _ (le_refl _) hq, take_length_sub_dropWhile]

/-- Splitting at a byte class: the first piece and the rest. -/
theorem splitOnP_eq (p : Byte → Bool) : ∀ data : Str,
    data.splitOnP p = data.takeWhile (fun c => !p c)
      :: (match data.dropWhile (fun c => !p c) with
          | [] => []
          | _ :: r => r.splitOnP p) := by
  intro data
  induction data with
  | nil => simp [List.splitOnP_nil]
  | cons x xs ih =>
    rw [List.splitOnP_cons]
    by_cases hx : p x = true
    · simp [hx, List.takeWhile_cons, List.dropWhile_cons]
    · simp only [hx, if_false, Bool.false_eq_true]
      rw [ih]
      simp [List.modifyHead, List.takeWhile_cons, List.dropWhile_cons, hx]

/-- The empty line has no run. -/
theorem spec_runs_nil : spec_runs [] = [] := by
  simp [spec_runs, List.splitOnP_nil]

/-- A leading whitespace byte adds no run. -/
theorem spec_runs_space (c : Byte) (rest : Str) (hc : isspace c = true) :
    spec_runs (c :: rest) = spec_runs rest := by
  simp [spec_runs, List.splitOnP_cons, hc]

/-- Leading whitespace adds no run. -/
theorem spec_runs_dropWhile : ∀ data : Str,
    spec_runs (data.dropWhile isspace) = spec_runs data := by
  intro data
  induction data with
  | nil => rfl
  | cons c rest ih =>
    by_cases hc : isspace c = true
    · rw [List.dropWhile_cons_of_pos hc, ih, spec_runs_space c rest hc]
    · rw [List.dropWhile_cons_of_neg hc]

/-- The first run of a line that starts with a non-whitespace byte. -/
theorem spec_runs_token (c : Byte) (rest : Str) (hc : isspace c = false) :
    spec_runs (c :: rest)
      = (c :: rest).takeWhile (fun b => !isspace b)
        :: spec_runs ((c :: rest).dropWhile (fun b => !isspace b)) := by
  have hne : ((c :: rest).takeWhile (fun b => !isspace b)).isEmpty = false := by
    simp [List.takeWhile_cons, hc]
  conv_lhs => rw [spec_runs, splitOnP_eq, List.filter_cons]
  simp only [hne, Bool.not_false, if_true]
  congr 1
  cases hd : (c :: rest).dropWhile (fun b => !isspace b) with
  | nil => simp [spec_runs_nil]
  | cons b r =>
    have hb : isspace b = true := by
      have := List.head_dropWhile_not (fun b => !isspace b) (c :: rest) (by simp [hd])
      simpa [hd] using this
    rw [spec_runs_space b r hb]
    rfl

/-- After its leading whitespace a line does not start with whitespace. -/
theorem head_dropWhile_isspace (data : Str) :
    ∀ c, (data.dropWhile isspace).head? = some c → isspace c = false := by
  intro c h
  cases hd : data.dropWhile isspace with
  | nil => simp [hd] at h
  | cons b r =>
    have := List.head_dropWhile_not isspace data (by simp [hd])
    simp only [hd, List.head?_cons, Option.some.injEq] at h
    subst h
    simpa [hd] using this

/-- On a line without double quotes that does not start with whitespace, the
tokenizer collects the runs in order, then empty strings. -/
theorem tokenize_eq_runs : ∀ (n : Nat) (data : Str), 34 ∉ data →
    (∀ c, data.head? = some c → isspace c = false) →
    tokenize n data
      = (spec_runs data).take n ++ List.replicate (n - (spec_runs data).length) [] := by
  intro n
  induction n with
  | zero => intro data _ _; simp [tokenize]
  | succ n ih =>
    intro data hq hh
    rw [tokenize_succ_no_quote n data hq]
    have hq' : 34 ∉ (data.dropWhile (fun c => !isspace c)).dropWhile isspace :=
      fun e => hq ((List.dropWhile_sublist _).subset ((List.dropWhile_sublist _).subset e))
    rw [ih _ hq' (head_dropWhile_isspace _), spec_runs_dropWhile]
    cases data with
    | nil => simp [spec_runs_nil, List.replicate_succ]
    | cons c rest =>
      have hc : isspace c = false := hh c rfl
      rw [spec_runs_token c rest hc]
      simp

/-- C5, amended. For every text line that holds no double quote and does not
begin with a whitespace byte, with maximal runs of non-whitespace `t_0..t_{k-1}`,
and every number `n` of fields: the argument collected for field `i` is `t_i`,
for every `i < min k n`. -/
theorem tokens_map_to_fields (line : Str) (n i : Nat) (hq : 34 ∉ line)
    (hlead : ∀ c, line.head? = some c → isspace c = false)
    (hi : i < min (spec_runs line).length n) :
    (tokenize n line)[i]? = (spec_runs line)[i]? := by
  rw [tokenize_eq_runs n line hq hlead]
  have h1 : i < ((spec_runs line).take n).length := by
    simp only [List.length_take]; omega
  rw [List.getElem?_append_left h1, List.getElem?_take]
  have : i < n := by omega
  simp [this]

/-- C5, amended, on the line `80  6 \t3` with three fields, at field 1. -/
theorem tokens_map_to_fields_witness :
    34 ∉ str "80  6 \t3" ∧
    (∀ c, (str "80  6 \t3").head? = some c → isspace c = false) ∧
    1 < min (spec_runs (str "80  6 \t3")).length 3 ∧
    (tokenize 3 (str "80  6 \t3"))[1]? = (spec_runs (str "80  6 \t3"))[1]? :=
  ⟨by decide, by decide, by decide,
    tokens_map_to_fields (str "80  6 \t3") 3 1 (by decide) (by decide) (by decide)⟩

/-- C5 as stated fails: the tokenizer does not skip whitespace before the first
token, so on the line ` 80 6` with two fields the argument of field 0 is the
empty string, not the first run `80`. -/
theorem leading_whitespace_shifts_tokens :
    34 ∉ str " 80 6" ∧ spec_runs (str " 80 6") = [str "80", str "6"] ∧
    tokenize 2 (str " 80 6") = [[], str "80"] ∧
    (0 < min (spec_runs (str " 80 6")).length 2 ∧
      (tokenize 2 (str " 80 6"))[0]? ≠ (spec_runs (str " 80 6"))[0]?) := by
  decide

/-! ## The binary slicer -/

/-- Over fixed-width fields with binary parsers and enough bytes, the slicer
hands field `i` the cursor advanced by the widths of the fields before it. -/
theorem slice_binary_fixed {D : Type} (l : Line) (F : List (FieldReader D))
    (hfix : ∀ f ∈ F, f.inb.isSome = true ∧ (nbytes_of f.type).isSome = true) :
    ∀ (data : Nat) (d : D) (i : Nat), data + (F.map wire_width).sum ≤ l.end_ →
      i < F.length →
      (slice_binary l F data d).1[i]? = some (data + ((F.take i).map wire_width).sum) := by
  induction F with
  | nil => intro data d i _ hi; simp at hi
  | cons f fs ih =>
    intro data d i hsum hi
    obtain ⟨hb, hn⟩ := hfix f (List.mem_cons_self _ _)
    obtain ⟨inb, hinb⟩ := Option.isSome_iff_exists.mp hb
    obtain ⟨w, hw⟩ := Option.isSome_iff_exists.mp hn
    have hww : wire_width f = w := by simp [wire_width, hw]
    simp only [List.map_cons, List.sum_cons, hww] at hsum
    unfold slice_binary
    simp only [hinb, hw]
    rw [if_pos (by omega)]
    cases i with
    | zero => simp
    | succ i =>
      simp only [List.getElem?_cons_succ, List.take_succ_cons, List.map_cons, List.sum_cons, hww]
      rw [ih (fun g hg => hfix g (List.mem_cons_of_mem _ hg)) (data + w) d i (by omega)
        (by simpa using hi)]
      congr 1
      omega

/-- C6. For every field list made only of fixed-width classes with a binary
parser, and every record (at a non-null address) at least as long as the sum
of the widths, the argument of field `i` is the pointer at offset the sum of
the widths of fields `0..i-1` in declared order, and it is not null: the field
is present. -/
theorem binary_slices_in_declared_order {D : Type} (l : Line) (F : List (FieldReader D))
    (d : D) (i : Nat) (hbase : 0 < l.base)
    (hfix : ∀ f ∈ F, f.inb.isSome = true ∧ (nbytes_of f.type).isSome = true)
    (hlen : (F.map wire_width).sum ≤ l.bytes.length) (hi : i < F.length) :
    (slice_binary l F l.base d).1[i]? = some (l.base + ((F.take i).map wire_width).sum) ∧
    l.base + ((F.take i).map wire_width).sum ≠ 0 := by
  refine ⟨slice_binary_fixed l F hfix l.base d i ?_ hi, by omega⟩
  simp only [Line.end_]
  omega

/-- C6 on the sample frame under `!data ip_proto sport`, at field 1. -/
theorem binary_slices_in_declared_order_witness :
    0 < ex_frame.base ∧
    (∀ f ∈ ex_c3_state'._fields, f.inb.isSome = true ∧ (nbytes_of f.type).isSome = true) ∧
    (ex_c3_state'._fields.map wire_width).sum ≤ ex_frame.bytes.length ∧
    1 < ex_c3_state'._fields.length ∧
    (slice_binary ex_frame ex_c3_state'._fields ex_frame.base ex_d0).1[1]?
      = some (ex_frame.base + ((ex_c3_state'._fields.take 1).map wire_width).sum) ∧
    ex_frame.base + ((ex_c3_state'._fields.take 1).map wire_width).sum ≠ 0 :=
  ⟨by decide, by decide, by decide, by decide,
    binary_slices_in_declared_order ex_frame ex_c3_state'._fields ex_d0 1 (by decide)
      (by decide) (by decide) (by decide)⟩

/-- One trip through the loop of the slicer. -/
theorem slice_binary_cons {D : Type} (l : Line) (f : FieldReader D)
    (fs : List (FieldReader D)) (data : Nat) (d : D) :
    slice_binary l (f :: fs) data d
      = match f.inb with
        | none => (0 :: (slice_binary l fs l.end_ d).1, (slice_binary l fs l.end_ d).2)
        | some inb =>
          match nbytes_of f.type with
          | some nbytes =>
            if data + nbytes ≤ l.end_ then
              (data :: (slice_binary l fs (data + nbytes) d).1,
                (slice_binary l fs (data + nbytes) d).2)
            else (0 :: (slice_binary l fs l.end_ d).1, (slice_binary l fs l.end_ d).2)
          | none =>
            if f.type = WireType.B_SPECIAL then
              (data :: (slice_binary l fs (inb d l data).1 (inb d l data).2).1,
                (slice_binary l fs (inb d l data).1 (inb d l data).2).2)
            else (0 :: (slice_binary l fs l.end_ d).1, (slice_binary l fs l.end_ d).2) := by
  rw [slice_binary]

/-- Slicing a list of fields is slicing its first part, then the rest from where
the first part left the cursor and the descriptor. -/
theorem slice_binary_append {D : Type} (l : Line) (pre rest : List (FieldReader D)) :
    ∀ (data : Nat) (d : D),
      slice_binary l (pre ++ rest) data d
        = ((slice_binary l pre data d).1
            ++ (slice_binary l rest (slice_binary l pre data d).2.1
                (slice_binary l pre data d).2.2).1,
          (slice_binary l rest (slice_binary l pre data d).2.1
            (slice_binary l pre data d).2.2).2) := by
  induction pre with
  | nil => intro data d; simp [slice_binary]
  | cons f fs ih =>
    intro data d
    simp only [List.cons_append]
    rw [slice_binary_cons l f (fs ++ rest), slice_binary_cons l f fs]
    cases hinb : f.inb with
    | none => simp [ih]
    | some inb =>
      cases hw : nbytes_of f.type with
      | some w => by_cases h : data + w ≤ l.end_ <;> simp [h, ih]
      | none => by_cases h : f.type = WireType.B_SPECIAL <;> simp [h, ih]

/-- From a cursor at or past the end of the record, every field of non-zero fixed
width gets a null argument, when no `B_SPECIAL` parser moves the cursor back
before the end. -/
theorem slice_binary_past_end {D : Type} (l : Line) (post : List (FieldReader D))
    (hspecial : ∀ g ∈ post, g.type = WireType.B_SPECIAL → ∀ inb, g.inb = some inb →
      ∀ (d : D) (c : Nat), l.end_ ≤ c → l.end_ ≤ (inb d l c).1) :
    ∀ (c : Nat) (d : D) (j : Nat) (g : FieldReader D) (w : Nat), l.end_ ≤ c →
      post[j]? = some g → nbytes_of g.type = some w → 0 < w →
      (slice_binary l post c d).1[j]? = some 0 := by
  induction post with
  | nil => intro c d j g w _ hg; simp at hg
  | cons f fs ih =>
    intro c d j g w hc hg hw hpos
    have hsp := fun g hg => hspecial g (List.mem_cons_of_mem _ hg)
    cases j with
    | zero =>
      simp only [List.getElem?_cons_zero, Option.some.injEq] at hg
      subst hg
      rw [slice_binary_cons]
      split
      · simp
      · simp only [hw]
        rw [if_neg (by omega)]
        simp
    | succ j =>
      simp only [List.getElem?_cons_succ] at hg
      rw [slice_binary_cons]
      split
      · simp only [List.getElem?_cons_succ]
        exact ih hsp _ _ j g w (le_refl _) hg hw hpos
      · rename_i inb hinb
        split
        · split
          · simp only [List.getElem?_cons_succ]
            exact ih hsp _ _ j g w (by omega) hg hw hpos
          · simp only [List.getElem?_cons_succ]
            exact ih hsp _ _ j g w (le_refl _) hg hw hpos
        · split
          · rename_i hty
            simp only [List.getElem?_cons_succ]
            exact ih hsp _ _ j g w
              (hspecial f (List.mem_cons_self _ _) hty inb hinb d c hc) hg hw hpos
          · simp only [List.getElem?_cons_succ]
            exact ih hsp _ _ j g w (le_refl _) hg hw hpos

/-- The `bad_field` label: a null argument, and the cursor at the end of the
record. -/
theorem slice_binary_bad_field {D : Type} (l : Line) (f : FieldReader D) (c : Nat) (d : D)
    (hbad : f.inb = none ∨ (∃ w, nbytes_of f.type = some w ∧ l.end_ < c + w) ∨
      (nbytes_of f.type = none ∧ f.type ≠ WireType.B_SPECIAL)) (post : List (FieldReader D)) :
    slice_binary l (f :: post) c d
      = (0 :: (slice_binary l post l.end_ d).1, (slice_binary l post l.end_ d).2) := by
  rw [slice_binary_cons]
  split
  · rfl
  · rename_i inb hinb
    rcases hbad with h | ⟨w, hw, hlt⟩ | ⟨hn, hty⟩
    · simp [hinb] at h
    · simp only [hw]
      rw [if_neg (by omega)]
    · simp only [hn]
      rw [if_neg hty]

/-- C7. When the slicer reaches field `i` (after the fields `pre`) and the field
has no binary parser, or has a fixed width that exceeds the bytes left, or has
an unknown wire class, then: the argument vector still has one entry per field;
the argument of field `i` is null; the cursor after field `i` is the end of the
record; and every later field with a non-zero fixed width has a null argument.
The registry is assumed not to hold a `B_SPECIAL` parser that moves a cursor
at or past the end of the record back before the end. -/
theorem short_frame_marks_fields_absent {D : Type} (l : Line)
    (pre post : List (FieldReader D)) (f : FieldReader D) (data : Nat) (d : D)
    (hbad : f.inb = none ∨
      (∃ w, nbytes_of f.type = some w ∧ l.end_ < (slice_binary l pre data d).2.1 + w) ∨
      (nbytes_of f.type = none ∧ f.type ≠ WireType.B_SPECIAL))
    (hspecial : ∀ g ∈ post, g.type = WireType.B_SPECIAL → ∀ inb, g.inb = some inb →
      ∀ (d : D) (c : Nat), l.end_ ≤ c → l.end_ ≤ (inb d l c).1) :
    (slice_binary l (pre ++ f :: post) data d).1.length = (pre ++ f :: post).length ∧
    (slice_binary l (pre ++ f :: post) data d).1[pre.length]? = some 0 ∧
    (slice_binary l (pre ++ [f]) data d).2.1 = l.end_ ∧
    ∀ (j : Nat) (g : FieldReader D) (w : Nat), post[j]? = some g →
      nbytes_of g.type = some w → 0 < w →
      (slice_binary l (pre ++ f :: post) data d).1[pre.length + 1 + j]? = some 0 := by
  have hlenpre := slice_binary_length l pre data d
  refine ⟨slice_binary_length _ _ _ _, ?_, ?_, ?_⟩
  · rw [slice_binary_append, slice_binary_bad_field l f _ _ hbad]
    simp only
    rw [List.getElem?_append_right (by omega)]
    simp [hlenpre]
  · rw [slice_binary_append, slice_binary_bad_field l f _ _ hbad]
    simp [slice_binary]
  · intro j g w hg hw hpos
    rw [slice_binary_append, slice_binary_bad_field l f _ _ hbad]
    simp only
    rw [List.getElem?_append_right (by omega)]
    have : pre.length + 1 + j - (slice_binary l pre data d).1.length = j + 1 := by omega
    rw [this, List.getElem?_cons_succ]
    exact slice_binary_past_end l post hspecial _ _ j g w (le_refl _) hg hw hpos

/-- C7 on the three-byte sample frame under the fields ip_proto, ip_len, payload,
sport: ip_len is short. -/
theorem short_frame_marks_fields_absent_witness :
    (ex_c7_short.inb = none ∨
      (∃ w, nbytes_of ex_c7_short.type = some w ∧
        ex_frame.end_
          < (slice_binary ex_frame ex_c7_pre ex_frame.base
              ex_d0).2.1 + w) ∨
      (nbytes_of ex_c7_short.type = none ∧
        ex_c7_short.type ≠ WireType.B_SPECIAL)) ∧
    (∀ g ∈ ex_c7_post,
      g.type = WireType.B_SPECIAL → ∀ inb, g.inb = some inb →
        ∀ (d : Desc) (c : Nat), ex_frame.end_ ≤ c → ex_frame.end_ ≤ (inb d ex_frame c).1) ∧
    ((slice_binary ex_frame
        (ex_c7_pre ++ ex_c7_short
          :: ex_c7_post)
        ex_frame.base ex_d0).1.length
      = (ex_c7_pre ++ ex_c7_short
          :: ex_c7_post).length ∧
    (slice_binary ex_frame
        (ex_c7_pre ++ ex_c7_short
          :: ex_c7_post)
        ex_frame.base ex_d0).1[ex_c7_pre.length]? = some 0 ∧
    (slice_binary ex_frame
        (ex_c7_pre ++ [ex_c7_short])
        ex_frame.base ex_d0).2.1 = ex_frame.end_ ∧
    ∀ (j : Nat) (g : FieldReader Desc) (w : Nat),
      ex_c7_post[j]? = some g →
      nbytes_of g.type = some w → 0 < w →
      (slice_binary ex_frame
        (ex_c7_pre ++ ex_c7_short
          :: ex_c7_post)
        ex_frame.base ex_d0).1[ex_c7_pre.length + 1 + j]?
        = some 0) := by
  have hbad : ex_c7_short.inb = none ∨
      (∃ w, nbytes_of ex_c7_short.type = some w ∧
        ex_frame.end_
          < (slice_binary ex_frame ex_c7_pre ex_frame.base
              ex_d0).2.1 + w) ∨
      (nbytes_of ex_c7_short.type = none ∧
        ex_c7_short.type ≠ WireType.B_SPECIAL) :=
    Or.inr (Or.inl ⟨4, rfl, by decide⟩)
  have hsp : ∀ g ∈ ex_c7_post,
      g.type = WireType.B_SPECIAL → ∀ inb, g.inb = some inb →
        ∀ (d : Desc) (c : Nat), ex_frame.end_ ≤ c → ex_frame.end_ ≤ (inb d ex_frame c).1 := by
    intro g hg hty inb hinb d c hc
    simp only [ex_c7_post, List.mem_cons, List.mem_singleton, List.not_mem_nil, or_false] at hg
    rcases hg with rfl | rfl
    · simp only [ex_special_reader, Option.some.injEq] at hinb
      subst hinb
      exact le_max_right _ _
    · simp [ex_reader] at hty
  exact ⟨hbad, hsp,
    short_frame_marks_fields_absent ex_frame ex_c7_pre
      ex_c7_post
      ex_c7_short ex_frame.base ex_d0 hbad hsp⟩

/-! ## Binary framing -/

/-- The mask `0x7FFFFFFF` keeps the low 31 bits. -/
theorem record_length_eq (hdr : Str) : GET4 hdr &&& 0x7FFFFFFF = GET4 hdr % 2 ^ 31 :=
  Nat.and_pow_two_sub_one_eq_mod (GET4 hdr) 31

/-- Reading a four-byte header that is there. -/
theorem get_unaligned_header (ff : FromFile) (hdr rest : Str) (hhdr : hdr.length = 4)
    (hin : ff.input = hdr ++ rest) :
    ff.get_unaligned 4 = ({ ff with input := rest }, some hdr) := by
  unfold FromFile.get_unaligned
  rw [if_pos (by simp [hin, hhdr]), hin, ← hhdr]
  simp

/-- Reading a payload that is there. -/
theorem get_string_payload (ff : FromFile) (payload rest : Str)
    (hin : ff.input = payload ++ rest) :
    ff.get_string payload.length = ({ ff with input := rest }, payload) := by
  unfold FromFile.get_string
  rw [if_pos (by simp [hin]), hin]
  simp

/-- A frame whose header has length value at least 5 and whose payload is there:
`read_binary` returns 2 for a textual frame and 1 otherwise, yields the payload
(a textual one without its trailing NUL bytes), and counts one record. -/
theorem read_binary_frame {D : Type} (s : State D) (result hdr payload rest : Str)
    (hhdr : hdr.length = 4) (hin : s._ff.input = hdr ++ (payload ++ rest))
    (hlen : GET4 hdr % 2 ^ 31 = payload.length + 4) (hne : payload ≠ []) :
    read_binary s result
      = ({ s with _ff := { s._ff with input := rest, lineno := s._ff.lineno + 1 } },
          (if (hdr.getD 0 0 &&& 0x80) != 0 then payload.rdropWhile (fun b => b == 0)
            else payload),
          if (hdr.getD 0 0 &&& 0x80) != 0 then 2 else 1) := by
  unfold read_binary
  rw [get_unaligned_header s._ff hdr (payload ++ rest) hhdr hin]
  simp only [record_length_eq, hlen]
  rw [if_neg (by omega)]
  have h4 : payload.length + 4 - 4 = payload.length := by omega
  rw [h4, get_string_payload _ payload rest rfl]
  simp only [hne, if_false]

/-- A frame whose header has length value exactly 4: `read_binary` takes the
empty payload for a failed read, returns 0 and does not count the record. -/
theorem read_binary_empty {D : Type} (s : State D) (result hdr rest : Str)
    (hhdr : hdr.length = 4) (hin : s._ff.input = hdr ++ rest)
    (hlen : GET4 hdr % 2 ^ 31 = 4) :
    read_binary s result = ({ s with _ff := { s._ff with input := rest } }, [], 0) := by
  unfold read_binary
  rw [get_unaligned_header s._ff hdr rest hhdr hin]
  simp only [record_length_eq, hlen]
  rw [if_neg (by omega)]
  simp [FromFile.get_string]

/-- C8, failing input. The header `00 00 00 04` announces a record of no payload
bytes, which the length test accepts; `read_binary` then returns 0 instead of
1 and leaves the record counter as it was, and `read_packet` closes the source
with the next frame unread. -/
theorem read_binary_empty_record_is_eof :
    GET4 [0, 0, 0, 4] % 2 ^ 31 = 4 ∧
    (read_binary (ex_bin_state [0, 0, 0, 4, 0, 0, 0, 5, 6]) []).2.2 = 0 ∧
    (read_binary (ex_bin_state [0, 0, 0, 4, 0, 0, 0, 5, 6]) []).1._ff.lineno
      = (ex_bin_state [0, 0, 0, 4, 0, 0, 0, 5, 6])._ff.lineno ∧
    (read_packet ex_env (ex_bin_state [0, 0, 0, 4, 0, 0, 0, 5, 6])).map
        (fun r => (r.1._ff.initialized, r.1._ff.input, r.2))
      = some (false, [0, 0, 0, 5, 6], none) := by
  decide

/-- A header with length value below 4: `read_binary` reports the error and
returns what `FromFile::error` returns. -/
theorem read_binary_too_short {D : Type} (s : State D) (result hdr rest : Str)
    (hhdr : hdr.length = 4) (hin : s._ff.input = hdr ++ rest)
    (hlen : GET4 hdr % 2 ^ 31 < 4) :
    read_binary s result
      = ({ s with _ff := { s._ff with
            input := rest, messages := s._ff.messages ++ ["binary record too short"] } },
          result, -1) := by
  unfold read_binary
  rw [get_unaligned_header s._ff hdr rest hhdr hin]
  simp only [record_length_eq]
  rw [if_pos hlen]
  rfl

/-- A header with length value below 4 sends `read_packet` to its `eof` label. -/
theorem read_packet_too_short {D : Type} (env : Env D) (s : State D) (hdr rest : Str)
    (hb : s._binary = true) (hhdr : hdr.length = 4) (hin : s._ff.input = hdr ++ rest)
    (hlen : GET4 hdr % 2 ^ 31 < 4) :
    read_packet env s
      = some ({ s with _ff := { s._ff with
                input := rest, initialized := false,
                messages := s._ff.messages ++ ["binary record too short"] } }, none) := by
  unfold read_packet read_packet_fuel read_record
  dsimp only
  rw [if_pos hb, read_binary_too_short s [] hdr rest hhdr hin hlen]
  dsimp only
  rw [if_pos (by simp)]
  rfl

/-- C9. In binary mode, when the next four bytes are a header whose length value
(low 31 bits) is below 4: `read_binary` reports "binary record too short" and
returns a non-positive result; `read_packet` returns no packet, and leaves the
source closed (no longer initialized) with that one message added. -/
theorem short_length_is_fatal {D : Type} (env : Env D) (s : State D) (hdr rest : Str)
    (hb : s._binary = true) (hhdr : hdr.length = 4) (hin : s._ff.input = hdr ++ rest)
    (hlen : GET4 hdr % 2 ^ 31 < 4) :
    (∀ result, (read_binary s result).2.2 ≤ 0 ∧
      (read_binary s result).1._ff.messages
        = s._ff.messages ++ ["binary record too short"]) ∧
    ∃ s', read_packet env s = some (s', none) ∧ s'._ff.initialized = false ∧
      s'._ff.messages = s._ff.messages ++ ["binary record too short"] := by
  constructor
  · intro result
    rw [read_binary_too_short s result hdr rest hhdr hin hlen]
    exact ⟨by simp, rfl⟩
  · exact ⟨_, read_packet_too_short env s hdr rest hb hhdr hin hlen, rfl, rfl⟩

/-- C9 on the header `00 00 00 03`. -/
theorem short_length_is_fatal_witness :
    (ex_bin_state [0, 0, 0, 3, 6, 0, 80])._binary = true ∧
    [(0 : Nat), 0, 0, 3].length = 4 ∧
    (ex_bin_state [0, 0, 0, 3, 6, 0, 80])._ff.input = [0, 0, 0, 3] ++ [6, 0, 80] ∧
    GET4 [0, 0, 0, 3] % 2 ^ 31 < 4 ∧
    ((∀ result, (read_binary (ex_bin_state [0, 0, 0, 3, 6, 0, 80]) result).2.2 ≤ 0 ∧
      (read_binary (ex_bin_state [0, 0, 0, 3, 6, 0, 80]) result).1._ff.messages
        = (ex_bin_state [0, 0, 0, 3, 6, 0, 80])._ff.messages ++ ["binary record too short"]) ∧
    ∃ s', read_packet ex_env (ex_bin_state [0, 0, 0, 3, 6, 0, 80]) = some (s', none) ∧
      s'._ff.initialized = false ∧
      s'._ff.messages
        = (ex_bin_state [0, 0, 0, 3, 6, 0, 80])._ff.messages ++ ["binary record too short"]) :=
  ⟨rfl, rfl, rfl, by decide,
    short_length_is_fatal ex_env (ex_bin_state [0, 0, 0, 3, 6, 0, 80]) [0, 0, 0, 3] [6, 0, 80]
      rfl rfl rfl (by decide)⟩

/-- C10, failing input. In binary mode under `!data ip_proto sport`, the textual
frame with payload `6 80` is a packet line with the local flag `binary` false,
yet `read_packet` branches on the member `_binary`: it slices the text by wire
widths and calls the binary parsers (ip_proto gets the byte `'6'` = 54, sport
gets the bytes `" 8"` = 8248).  The same line read in text mode under the same
field list goes through the tokenizer and the ASCII parsers (6 and 80). -/
theorem textual_frame_is_sliced_as_binary :
    (read_packet ex_env (ex_bin_state ([128, 0, 0, 9] ++ str "6 80\n"))).map
        (fun r => r.2.map (fun d => d.stored))
      = some (some [("ip_proto", 54), ("sport", 8248)]) ∧
    (read_packet ex_env (ex_text_state (str "6 80\n"))).map
        (fun r => r.2.map (fun d => d.stored))
      = some (some [("ip_proto", 6), ("sport", 80)]) ∧
    (read_record ex_env 10 (ex_bin_state ([128, 0, 0, 9] ++ str "6 80\n")) []).map
        (fun r => r.2)
      = some (Record.packet (str "6 80\n") false) ∧
    (read_record ex_env 10 (ex_text_state (str "6 80\n")) []).map (fun r => r.2)
      = some (Record.packet (str "6 80\n") false) := by
  decide

/-! ## The loops end -/

/-- The loop of `bang_data` reads nothing from the source. -/
theorem bang_data_loop_input {D : Type} (env : Env D) (ws : List Str) :
    ∀ (i : Nat) (fields : List (FieldReader D)) (order : List Nat) (ff : FromFile),
      (bang_data_loop env ws i fields order ff).2.2.input = ff.input := by
  induction ws with
  | nil => intro i fields order ff; rfl
  | cons w ws ih =>
    intro i fields order ff
    unfold bang_data_loop
    simp only
    split
    · exact ih _ _ _ _
    · rw [ih]
      unfold bang_data_reader
      split
      · rfl
      · split <;> rfl

/-- The handler `bang_data` reads nothing from the source. -/
theorem bang_data_input {D : Type} (env : Env D) (s : State D) (line : Str) :
    (bang_data env s line)._ff.input = s._ff.input := by
  simp only [bang_data]
  split
  · simp [FromFile.error, bang_data_loop_input]
  · exact bang_data_loop_input _ _ _ _ _ _

/-- The handler `bang_flowid` reads nothing from the source. -/
theorem bang_flowid_input {D : Type} (env : Env D) (s : State D) (line : Str) :
    (bang_flowid env s line)._ff.input = s._ff.input := by
  simp only [bang_flowid]
  split
  · rfl
  · split
    · split <;> rfl
    · rfl

/-- The handler `bang_aggregate` reads nothing from the source. -/
theorem bang_aggregate_input {D : Type} (env : Env D) (s : State D) (line : Str) :
    (bang_aggregate env s line)._ff.input = s._ff.input := by
  simp only [bang_aggregate]
  split
  · rfl
  · split <;> rfl

/-- The handler `bang_binary` reads nothing from the source. -/
theorem bang_binary_input {D : Type} (env : Env D) (s : State D) (line : Str) :
    (bang_binary env s line)._ff.input = s._ff.input := by
  simp only [bang_binary]
  split <;> rfl

/-- The directive dispatch reads nothing from the source. -/
theorem parse_bang_input {D : Type} (env : Env D) (s : State D) (line : Str) :
    (parse_bang env s line)._ff.input = s._ff.input := by
  unfold parse_bang
  split
  · exact bang_data_input _ _ _
  · split
    · exact bang_flowid_input _ _ _
    · split
      · exact bang_aggregate_input _ _ _
      · split
        · exact bang_binary_input _ _ _
        · split
          · exact bang_data_input _ _ _
          · rfl

/-- A line that is read takes at least one byte from the source. -/
theorem read_line_consumes (ff : FromFile) (h : ¬ ff.read_line.2.2 ≤ 0) :
    ff.read_line.1.input.length < ff.input.length := by
  unfold FromFile.read_line at h ⊢
  cases hin : ff.input with
  | nil => simp [hin] at h
  | cons c cs =>
    simp only
    have hsub := (List.dropWhile_sublist (fun b => b != 10) (l := c :: cs)).length_le
    cases hd : List.dropWhile (fun b => b != 10) (c :: cs) with
    | nil => simp
    | cons nl rest2 =>
      simp only
      rw [hd] at hsub
      simp only [List.length_cons] at hsub ⊢
      omega

/-- A frame that is read takes at least one byte from the source. -/
theorem read_binary_consumes {D : Type} (s : State D) (line : Str)
    (h : ¬ (read_binary s line).2.2 ≤ 0) :
    (read_binary s line).1._ff.input.length < s._ff.input.length := by
  unfold read_binary at h ⊢
  unfold FromFile.get_unaligned at h ⊢
  by_cases h4 : 4 ≤ s._ff.input.length
  · simp only [h4, if_true] at h ⊢
    split at h
    · simp [FromFile.error] at h
    · rw [if_neg (by assumption)]
      split at h
      · simp at h
      · rw [if_neg (by assumption)]
        simp only [FromFile.get_string]
        split
        · simp only [List.length_drop]; omega
        · simp only [List.length_nil]; omega
  · simp [h4] at h

/-- The record loop ends within one more trip than there are unread bytes. -/
theorem read_record_returns {D : Type} (env : Env D) :
    ∀ (fuel : Nat) (s : State D) (line : Str), s._ff.input.length < fuel →
      (read_record env fuel s line).isSome = true := by
  intro fuel
  induction fuel with
  | zero => intro s line h; omega
  | succ fuel ih =>
    intro s line h
    unfold read_record
    dsimp only
    split
    · split
      · rfl
      · rename_i hrc
        have hc := read_binary_consumes s line hrc
        split
        · exact ih _ _ (by omega)
        · split
          · rfl
          · split
            · exact ih _ _ (by rw [parse_bang_input]; omega)
            · exact ih _ _ (by omega)
    · split
      · rfl
      · rename_i hrc
        have hc := read_line_consumes s._ff hrc
        split
        · exact ih _ _ (by simp only; omega)
        · split
          · rfl
          · split
            · exact ih _ _ (by rw [parse_bang_input]; simp only; omega)
            · exact ih _ _ (by simp only; omega)

/-- The fuel that `read_packet` gives its record loop is enough. -/
theorem read_packet_fuel_suffices {D : Type} (env : Env D) (s : State D) (line : Str) :
    (read_record env (s._ff.input.length + 1) s line).isSome = true :=
  read_record_returns env _ s line (Nat.lt_succ_self _)

/-- Skipping a quoted span does not lengthen the input. -/
theorem skip_quoted_length : ∀ (data : Str) (escaped : Bool),
    (skip_quoted escaped data).length ≤ data.length := by
  intro data
  induction data with
  | nil => intro escaped; cases escaped <;> simp [skip_quoted]
  | cons c rest ih =>
    intro escaped
    cases escaped with
    | true =>
      simp only [skip_quoted, List.length_cons]
      exact Nat.le_succ_of_le (ih false)
    | false =>
      simp only [skip_quoted, List.length_cons]
      split
      · exact Nat.le_succ_of_le (ih true)
      · split
        · exact Nat.le_succ _
        · exact Nat.le_succ_of_le (ih false)

/-- The inner loop of the tokenizer ends within one trip per byte: more fuel
changes nothing. -/
theorem scan_token_fuel : ∀ (fuel fuel' : Nat) (data : Str), data.length ≤ fuel →
    data.length ≤ fuel' → scan_token fuel data = scan_token fuel' data := by
  intro fuel
  induction fuel with
  | zero =>
    intro fuel' data h _
    have : data = [] := List.length_eq_zero.mp (Nat.le_zero.mp h)
    subst this
    cases fuel' <;> rfl
  | succ fuel ih =>
    intro fuel' data h h'
    cases data with
    | nil => cases fuel' <;> rfl
    | cons c rest =>
      cases fuel' with
      | zero => simp at h'
      | succ fuel' =>
        simp only [List.length_cons, Nat.add_le_add_iff_right] at h h'
        simp only [scan_token]
        split
        · rfl
        · split
          · have hl := skip_quoted_length rest false
            exact ih fuel' _ (by simp only [cp_skip_double_quote, List.tail_cons]; omega)
              (by simp only [cp_skip_double_quote, List.tail_cons]; omega)
          · exact ih fuel' rest h h'

/-! ## The post-pass: lengths -/

/-- The byte swap yields a 16-bit value. -/
theorem htons_lt (x : Nat) : htons x < 65536 := by
  unfold htons; omega

/-- Swapping the bytes of a 16-bit value twice gives it back. -/
theorem ntohs_htons (x : Nat) (h : x < 65536) : ntohs (htons x) = x := by
  unfold ntohs htons
  have h1 : x / 256 % 256 = x / 256 := Nat.mod_eq_of_lt (by omega)
  rw [h1]
  have h2 : (x % 256 * 256 + x / 256) % 256 = x / 256 := by omega
  have h3 : (x % 256 * 256 + x / 256) / 256 = x % 256 := by omega
  rw [h2, h3]
  omega

/-- The conversion to `uint16_t` yields a 16-bit value. -/
theorem to_uint16_lt (x : Int) : to_uint16 x < 65536 := by
  unfold to_uint16; omega

/-- The conversion to `uint16_t` keeps a 16-bit value. -/
theorem to_uint16_natCast (n : Nat) (h : n < 65536) : to_uint16 (n : Int) = n := by
  unfold to_uint16; omega

/-- The conversion to `int` keeps a value below `2^31`. -/
theorem to_int32_small (x : Nat) (h : x < 2 ^ 31) : to_int32 x = (x : Int) := by
  unfold to_int32
  have h1 : x % 2 ^ 32 = x := Nat.mod_eq_of_lt (by omega)
  rw [h1, if_pos h]

/-- The IP header after `set_checksums`: only `ip_sum` has changed. -/
theorem set_checksums_ip (pe : PacketEnv) (q : Packet) :
    (set_checksums pe q).ip
      = { q.ip with
          ip_sum := (click_in_cksum (iph_memory pe { q with ip := { q.ip with ip_sum := 0 } })
            (q.ip.ip_hl <<< 2)) } := by
  unfold set_checksums
  dsimp only
  split
  · rfl
  · split
    · rfl
    · split <;> rfl

/-- What `set_checksums` leaves as it was. -/
theorem set_checksums_frame (pe : PacketEnv) (q : Packet) :
    (set_checksums pe q).udp.uh_ulen = q.udp.uh_ulen ∧
    (set_checksums pe q).extra_length_anno = q.extra_length_anno ∧
    (set_checksums pe q).length = q.length ∧
    (set_checksums pe q).ip_opts = q.ip_opts ∧
    (set_checksums pe q).dst_ip_anno = q.dst_ip_anno := by
  unfold set_checksums
  dsimp only
  split
  · simp
  · split
    · simp
    · split <;> simp

/-- What the UDP length step leaves as it was. -/
theorem fixup_udp_len_frame (p : Packet) :
    (fixup_udp_len p).ip = p.ip ∧ (fixup_udp_len p).length = p.length ∧
    (fixup_udp_len p).ip_opts = p.ip_opts := by
  unfold fixup_udp_len
  split <;> simp

/-- What the IP length step leaves as it was. -/
theorem fixup_ip_len_frame (p : Packet) :
    (fixup_ip_len p).udp = p.udp ∧ (fixup_ip_len p).length = p.length ∧
    (fixup_ip_len p).network_header_length = p.network_header_length ∧
    (fixup_ip_len p).ip.ip_p = p.ip.ip_p ∧ (fixup_ip_len p).ip.ip_off = p.ip.ip_off ∧
    (fixup_ip_len p).ip.ip_hl = p.ip.ip_hl ∧ (fixup_ip_len p).ip_opts = p.ip_opts := by
  unfold fixup_ip_len
  split <;> simp

/-- After the whole block, `ip_len` is what the IP length step stored; `ip_hl` and
the buffer length are as before. -/
theorem fixup_ip_ip_len (pe : PacketEnv) (checksum : Bool) (p : Packet) :
    (fixup_ip pe checksum p).ip.ip_len = (fixup_ip_len p).ip.ip_len ∧
    (fixup_ip pe checksum p).ip.ip_hl = p.ip.ip_hl ∧
    (fixup_ip pe checksum p).length = p.length := by
  unfold fixup_ip
  dsimp only
  have h1 := fixup_udp_len_frame (fixup_ip_len p)
  have h2 := fixup_ip_len_frame p
  cases checksum with
  | false => simp [fixup_extra_length, h1.1, h1.2.1, h2.2.2.2.2.2.1, h2.2.1]
  | true =>
    simp only [if_true, set_checksums_ip, (set_checksums_frame _ _).2.2.1]
    simp [fixup_extra_length, h1.1, h1.2.1, h2.2.2.2.2.2.1, h2.2.1]

/-- When `ip_len` is zero and the network length plus the extra-length annotation
stays below `2^31`, the block sets `ip_len` to the smaller of that sum and
`0xFFFF`. -/
theorem fixup_ip_len_clamps (pe : PacketEnv) (checksum : Bool) (p : Packet)
    (hz : p.ip.ip_len = 0) (hs : p.network_length + p.extra_length_anno < 2 ^ 31) :
    ntohs (fixup_ip pe checksum p).ip.ip_len
      = min (p.network_length + p.extra_length_anno) 0xFFFF := by
  rw [(fixup_ip_ip_len pe checksum p).1]
  unfold fixup_ip_len
  rw [if_pos hz]
  dsimp only
  rw [to_int32_small _ hs]
  by_cases h : p.network_length + p.extra_length_anno > 0xFFFF
  · have h' : ((p.network_length + p.extra_length_anno : Nat) : Int) > 0xFFFF := by omega
    rw [if_pos h']
    have : to_uint16 0xFFFF = 0xFFFF := by decide
    rw [this, ntohs_htons _ (by omega)]
    omega
  · have h' : ¬ ((p.network_length + p.extra_length_anno : Nat) : Int) > 0xFFFF := by omega
    rw [if_neg h', to_uint16_natCast _ (by omega), ntohs_htons _ (by omega)]
    omega

/-- A non-zero `ip_len` is left as it was. -/
theorem fixup_ip_len_nonzero (pe : PacketEnv) (checksum : Bool) (p : Packet)
    (hz : p.ip.ip_len ≠ 0) : (fixup_ip pe checksum p).ip.ip_len = p.ip.ip_len := by
  rw [(fixup_ip_ip_len pe checksum p).1]
  unfold fixup_ip_len
  rw [if_neg hz]

/-! ## The post-pass: the IP header checksum -/

/-- The two folds of a 32-bit sum: the result differs from the sum by a multiple
of 65535, fits 16 bits, and is zero only for the sum zero. -/
theorem fold_spec (S : Nat) (hS : S < 2 ^ 32) :
    ((S % 65536 + S / 65536) + (S % 65536 + S / 65536) / 65536) % 65536
        + 65535 * (S / 65536 + (S % 65536 + S / 65536) / 65536) = S ∧
    ((S % 65536 + S / 65536) + (S % 65536 + S / 65536) / 65536) % 65536 ≤ 65535 ∧
    (0 < S → 0 < ((S % 65536 + S / 65536) + (S % 65536 + S / 65536) / 65536) % 65536) := by
  have hd : (S % 65536 + S / 65536) / 65536 = 0 ∨ (S % 65536 + S / 65536) / 65536 = 1 := by
    omega
  rcases hd with hd | hd
  · rw [hd]; omega
  · rw [hd]; omega

/-- Adding the complement of its folded sum to a sum makes the folded sum
`0xFFFF`. -/
theorem cksum_fold_zero (S c : Nat) (hS : S ≤ 65535 * 60)
    (hc : c = 65535 - ((S % 65536 + S / 65536) + (S % 65536 + S / 65536) / 65536) % 65536) :
    65535 - (((S + c) % 65536 + (S + c) / 65536)
      + ((S + c) % 65536 + (S + c) / 65536) / 65536) % 65536 = 0 := by
  have h0 := fold_spec S (by omega)
  have h1 := fold_spec (S + c) (by omega)
  generalize ((S % 65536 + S / 65536) + (S % 65536 + S / 65536) / 65536) % 65536 = z at h0 hc
  generalize (S / 65536 + (S % 65536 + S / 65536) / 65536) = k at h0
  generalize (((S + c) % 65536 + (S + c) / 65536)
      + ((S + c) % 65536 + (S + c) / 65536) / 65536) % 65536 = z' at h1 ⊢
  generalize ((S + c) / 65536 + ((S + c) % 65536 + (S + c) / 65536) / 65536) = k' at h1
  omega

/-- A bound on the word sum of a byte string. -/
theorem word_sum_le : ∀ (n : Nat) (L : List Nat), L.length ≤ n → (∀ b ∈ L, b < 256) →
    word_sum L ≤ 65535 * L.length := by
  intro n
  induction n using Nat.strong_induction_on with
  | _ n ih =>
    intro L hn hb
    match L, hn, hb with
    | [], _, _ => simp [word_sum]
    | [a], _, hb =>
      have ha : a < 256 := hb a (by simp)
      simp only [word_sum, List.length_singleton]
      omega
    | a :: b :: rest, hn, hb =>
      have ha : a < 256 := hb a (by simp)
      have hb' : b < 256 := hb b (by simp)
      simp only [List.length_cons] at hn
      have hr := ih (n - 2) (by omega) rest (by omega) (fun x hx => hb x (by simp [hx]))
      simp only [word_sum, List.length_cons]
      omega

/-- The bytes of a header are bytes. -/
theorem click_ip_bytes_lt (h : click_ip) : ∀ b ∈ h.bytes, b < 256 := by
  simp only [click_ip.bytes, List.mem_cons, List.mem_singleton, List.not_mem_nil, or_false,
    forall_eq_or_imp, forall_eq]
  omega

/-- A `struct click_ip` takes 20 bytes. -/
theorem click_ip_bytes_length (h : click_ip) : h.bytes.length = 20 := rfl

/-- The first `n` bytes of a header, for `n` at least 12: the twelve bytes up to
and with `ip_sum`, then the rest. -/
theorem header_region (h : click_ip) (opts : List Nat) (n : Nat) (hn : 12 ≤ n) :
    (h.bytes ++ opts).take n
      = h.bytes.take 12 ++ (h.bytes.drop 12 ++ opts).take (n - 12) := by
  have e : n = 12 + (n - 12) := by omega
  conv_lhs => rw [e, List.take_add]
  rw [List.take_append_of_le_length (by simp [click_ip_bytes_length]),
    List.drop_append_of_le_length (by simp [click_ip_bytes_length])]

/-- Storing `c` in a zeroed `ip_sum` adds `c` to the word sum of the header. -/
theorem header_word_sum (h : click_ip) (opts : List Nat) (n c : Nat) (hn : 12 ≤ n)
    (hc : c < 65536) :
    word_sum ((({ h with ip_sum := c } : click_ip).bytes ++ opts).take n)
      = word_sum ((({ h with ip_sum := 0 } : click_ip).bytes ++ opts).take n) + c := by
  rw [header_region _ _ _ hn, header_region _ _ _ hn]
  have e : ({ h with ip_sum := c } : click_ip).bytes.drop 12
      = ({ h with ip_sum := 0 } : click_ip).bytes.drop 12 := rfl
  rw [e]
  generalize List.take (n - 12) (List.drop 12 ({ h with ip_sum := 0 } : click_ip).bytes ++ opts)
    = X
  simp only [click_ip.bytes, List.take, List.cons_append, List.nil_append, word_sum]
  omega

/-- A checksum that stays within the network header does not read the memory
from the transport header on. -/
theorem click_in_cksum_iph_memory (pe : PacketEnv) (q : Packet) (n : Nat)
    (h : n ≤ 20 + q.ip_opts.length) :
    click_in_cksum (iph_memory pe q) n = click_in_cksum (q.ip.bytes ++ q.ip_opts) n := by
  unfold click_in_cksum iph_memory ip_header_bytes
  rw [List.take_append_of_le_length (by
    rw [List.length_append, click_ip_bytes_length]; exact h)]

/-- After `set_checksums`, the checksum over the first `ip_hl * 4` bytes of the
memory at `iph` is zero, when `ip_sum` lies within those bytes and they end
within the network header. -/
theorem set_checksums_valid (pe : PacketEnv) (q : Packet) (h3 : 3 ≤ q.ip.ip_hl)
    (h15 : q.ip.ip_hl < 16) (hopts : ∀ b ∈ q.ip_opts, b < 256)
    (hgeo : q.ip.ip_hl * 4 ≤ 20 + q.ip_opts.length) :
    click_in_cksum (iph_memory pe (set_checksums pe q)) ((set_checksums pe q).ip.ip_hl <<< 2)
      = 0 := by
  have hn : q.ip.ip_hl <<< 2 = 4 * q.ip.ip_hl := by
    rw [Nat.shiftLeft_eq]; omega
  have hhl : (set_checksums pe q).ip.ip_hl = q.ip.ip_hl := by rw [set_checksums_ip]
  rw [click_in_cksum_iph_memory pe _ _ (by
    rw [hhl, (set_checksums_frame pe q).2.2.2.1, hn]; omega)]
  rw [set_checksums_ip, (set_checksums_frame pe q).2.2.2.1]
  dsimp only
  rw [click_in_cksum_iph_memory pe _ _ (by
    show q.ip.ip_hl <<< 2 ≤ 20 + q.ip_opts.length
    rw [hn]; omega)]
  dsimp only
  generalize hc : click_in_cksum (({ q.ip with ip_sum := 0 } : click_ip).bytes ++ q.ip_opts)
    (q.ip.ip_hl <<< 2) = c
  have hclt : c < 65536 := by
    rw [← hc]; unfold click_in_cksum; dsimp only; omega
  unfold click_in_cksum at hc ⊢
  dsimp only at hc ⊢
  rw [header_word_sum q.ip q.ip_opts _ c (by omega) hclt]
  have hS : word_sum ((({ q.ip with ip_sum := 0 } : click_ip).bytes ++ q.ip_opts).take
      (q.ip.ip_hl <<< 2)) ≤ 65535 * 60 := by
    have hl : ((({ q.ip with ip_sum := 0 } : click_ip).bytes ++ q.ip_opts).take
        (q.ip.ip_hl <<< 2)).length ≤ 60 := by
      rw [List.length_take]; omega
    have hw := word_sum_le _
      ((({ q.ip with ip_sum := 0 } : click_ip).bytes ++ q.ip_opts).take (q.ip.ip_hl <<< 2))
      (le_refl _) (fun b hb => by
        have hb' := List.mem_of_mem_take hb
        rcases List.mem_append.mp hb' with hb' | hb'
        · exact click_ip_bytes_lt _ b hb'
        · exact hopts b hb')
    generalize word_sum ((({ q.ip with ip_sum := 0 } : click_ip).bytes ++ q.ip_opts).take
      (q.ip.ip_hl <<< 2)) = S at hw ⊢
    generalize ((({ q.ip with ip_sum := 0 } : click_ip).bytes ++ q.ip_opts).take
      (q.ip.ip_hl <<< 2)).length = m at hw hl
    omega
  generalize word_sum ((({ q.ip with ip_sum := 0 } : click_ip).bytes ++ q.ip_opts).take
      (q.ip.ip_hl <<< 2)) = S at hc hS ⊢
  have e0 : S % 2 ^ 32 = S := Nat.mod_eq_of_lt (by omega)
  have e1 : (S + c) % 2 ^ 32 = S + c := Nat.mod_eq_of_lt (by omega)
  rw [e0] at hc
  rw [e1]
  exact cksum_fold_zero S c hS hc.symm

/-! ## Lines that the record loop skips -/

/-- The string that `read_binary` is handed does not matter: it is overwritten
when a record is read and not looked at otherwise. -/
theorem read_binary_result_irrelevant {D : Type} (s : State D) (l l' : Str) :
    (read_binary s l).1 = (read_binary s l').1 ∧
    (read_binary s l).2.2 = (read_binary s l').2.2 ∧
    (¬ (read_binary s l).2.2 ≤ 0 → (read_binary s l).2.1 = (read_binary s l').2.1) := by
  unfold read_binary
  dsimp only
  split
  · simp
  · split
    · simp [FromFile.error]
    · split
      · simp
      · simp

/-- The record loop does not depend on the initial value of `line`. -/
theorem read_record_line_irrelevant {D : Type} (env : Env D) (fuel : Nat) (s : State D)
    (l l' : Str) : read_record env fuel s l = read_record env fuel s l' := by
  cases fuel with
  | zero => rfl
  | succ fuel =>
    unfold read_record
    dsimp only
    split
    · obtain ⟨h1, h2, h3⟩ := read_binary_result_irrelevant s l l'
      generalize read_binary s l = a at h1 h2 h3
      generalize read_binary s l' = b at h1 h2 h3
      obtain ⟨a1, a2, a3⟩ := a
      obtain ⟨b1, b2, b3⟩ := b
      simp only at h1 h2 h3
      subst h1 h2
      by_cases hrc : a3 ≤ 0
      · simp only [hrc, if_true]
      · rw [h3 hrc]
    · rfl

/-- With fuel for every unread byte, more fuel changes nothing. -/
theorem read_record_fuel {D : Type} (env : Env D) :
    ∀ (fuel fuel' : Nat) (s : State D) (l : Str), s._ff.input.length < fuel →
      s._ff.input.length < fuel' → read_record env fuel s l = read_record env fuel' s l := by
  intro fuel
  induction fuel with
  | zero => intro fuel' s l h; omega
  | succ fuel ih =>
    intro fuel' s l h h'
    cases fuel' with
    | zero => omega
    | succ fuel' =>
      unfold read_record
      dsimp only
      split
      · split
        · rfl
        · rename_i hrc
          have hc := read_binary_consumes s l hrc
          split
          · exact ih _ _ _ (by omega) (by omega)
          · split
            · rfl
            · split
              · exact ih _ _ _ (by rw [parse_bang_input]; omega)
                  (by rw [parse_bang_input]; omega)
              · exact ih _ _ _ (by omega) (by omega)
      · split
        · rfl
        · rename_i hrc
          have hc := read_line_consumes s._ff hrc
          split
          · exact ih _ _ _ (by simp only; omega) (by simp only; omega)
          · split
            · rfl
            · split
              · exact ih _ _ _ (by rw [parse_bang_input]; simp only; omega)
                  (by rw [parse_bang_input]; simp only; omega)
              · exact ih _ _ _ (by simp only; omega) (by simp only; omega)

/-- One trip through the record loop for a text line that is empty, a comment, or
an unknown directive: the loop goes on from the same state, the line taken
from the source. -/
theorem read_record_skip {D : Type} (env : Env D) (s : State D) (ff1 : FromFile)
    (line : Str) (rc : Int) (hb : s._binary = false) (hr : s._ff.read_line = (ff1, line, rc))
    (hrc : 0 < rc)
    (hline : line = [] ∨ line.head? = some 35 ∨
      (line.head? = some 33 ∧ is_bang line "!data" = false ∧ is_bang line "!contents" = false ∧
        is_bang line "!flowid" = false ∧ is_bang line "!aggregate" = false ∧
        is_bang line "!binary" = false)) (fuel : Nat) (l0 : Str) :
    read_record env (fuel + 1) s l0 = read_record env fuel { s with _ff := ff1 } line := by
  rw [read_record]
  dsimp only
  rw [if_neg (by simp [hb]), hr]
  dsimp only
  rw [if_neg (by omega)]
  rcases hline with h | h | ⟨h, h1, h2, h3, h4, h5⟩
  · rw [if_pos h]
  · have hne : line ≠ [] := by intro e; simp [e] at h
    rw [if_neg hne, if_neg (by simp [h]), if_neg (by simp [h])]
  · have hne : line ≠ [] := by intro e; simp [e] at h
    rw [if_neg hne, if_neg (by simp [h]), if_pos h]
    simp [parse_bang, h1, h2, h3, h4, h5]

/-! ## The default flow ID -/

theorem bang_data_keeps_flowid {D : Type} (env : Env D) (s : State D) (line : Str) :
    (bang_data env s line)._flowid = s._flowid := rfl

theorem bang_flowid_keeps_flowid {D : Type} (env : Env D) (s : State D) (line : Str) :
    (bang_flowid env s line)._flowid = s._flowid := by
  simp only [bang_flowid]
  split
  · rfl
  · split
    · split <;> rfl
    · rfl

theorem bang_aggregate_keeps_flowid {D : Type} (env : Env D) (s : State D) (line : Str) :
    (bang_aggregate env s line)._flowid = s._flowid := by
  simp only [bang_aggregate]
  split
  · rfl
  · split <;> rfl

theorem parse_bang_keeps_flowid {D : Type} (env : Env D) (s : State D) (line : Str) :
    (parse_bang env s line)._flowid = s._flowid := by
  unfold parse_bang
  split
  · rfl
  · split
    · exact bang_flowid_keeps_flowid _ _ _
    · split
      · exact bang_aggregate_keeps_flowid _ _ _
      · split
        · rfl
        · split <;> rfl

theorem read_binary_keeps_flowid {D : Type} (s : State D) (line : Str) :
    (read_binary s line).1._flowid = s._flowid := by
  unfold read_binary
  dsimp only
  split
  · rfl
  · split
    · rfl
    · split <;> rfl

theorem read_record_keeps_flowid {D : Type} (env : Env D) :
    ∀ (fuel : Nat) (s : State D) (line : Str) (r : State D × Record),
      read_record env fuel s line = some r → r.1._flowid = s._flowid := by
  intro fuel
  induction fuel with
  | zero => intro s line r h; simp [read_record] at h
  | succ fuel ih =>
    intro s line r h
    unfold read_record at h
    dsimp only at h
    split at h
    · split at h
      · cases h; exact read_binary_keeps_flowid _ _
      · split at h
        · rw [ih _ _ _ h, read_binary_keeps_flowid]
        · split at h
          · cases h; exact read_binary_keeps_flowid _ _
          · split at h
            · rw [ih _ _ _ h, parse_bang_keeps_flowid, read_binary_keeps_flowid]
            · rw [ih _ _ _ h, read_binary_keeps_flowid]
    · split at h
      · cases h; rfl
      · split at h
        · rw [ih _ _ _ h]
        · split at h
          · cases h; rfl
          · split at h
            · rw [ih _ _ _ h, parse_bang_keeps_flowid]
            · rw [ih _ _ _ h]

theorem bang_flowid_well_formed {D : Type} (env : Env D) (s : State D) (line : Str)
    (hn : 5 ≤ (env.cp_spacevec line).length)
    (h1 : env.cp_ip_address ((env.cp_spacevec line).getD 1 []) ≠ none ∨
      (env.cp_spacevec line).getD 1 [] = str "-")
    (h2 : env.cp_integer ((env.cp_spacevec line).getD 2 []) ≠ none ∨
      (env.cp_spacevec line).getD 2 [] = str "-")
    (h3 : env.cp_ip_address ((env.cp_spacevec line).getD 3 []) ≠ none ∨
      (env.cp_spacevec line).getD 3 [] = str "-")
    (h4 : env.cp_integer ((env.cp_spacevec line).getD 4 []) ≠ none ∨
      (env.cp_spacevec line).getD 4 [] = str "-")
    (hs : (env.cp_integer ((env.cp_spacevec line).getD 2 [])).getD 0 ≤ 65535)
    (hd : (env.cp_integer ((env.cp_spacevec line).getD 4 [])).getD 0 ≤ 65535) :
    (bang_flowid env s line)._have_flowid = true ∧
    (bang_flowid env s line)._given_flowid
      = IPFlowID.mk ((env.cp_ip_address ((env.cp_spacevec line).getD 1 [])).getD 0)
          (htons ((env.cp_integer ((env.cp_spacevec line).getD 2 [])).getD 0))
          ((env.cp_ip_address ((env.cp_spacevec line).getD 3 [])).getD 0)
          (htons ((env.cp_integer ((env.cp_spacevec line).getD 4 [])).getD 0)) := by
  simp only [bang_flowid]
  rw [if_neg]
  · exact ⟨rfl, rfl⟩
  · intro h
    rcases h with h | h | h | h | h | h | h
    · omega
    · rcases h1 with h1 | h1
      · exact h1 h.1
      · exact h.2 h1
    · rcases h2 with h2 | h2
      · exact h2 h.1
      · exact h.2 h2
    · rcases h3 with h3 | h3
      · exact h3 h.1
      · exact h.2 h3
    · rcases h4 with h4 | h4
      · exact h4 h.1
      · exact h.2 h4
    · omega
    · omega

/-- C12. On the source `!flowid 1.2.3.4 5000 5.6.7.8 6000` followed by the record
`6 80`, the directive is accepted (`_have_flowid` is true and `_given_flowid` is the
tuple of the directive, ports in network byte order), but the flow ID that
`read_packet` hands to the packet descriptor is `_flowid`, which no directive
assigns: the descriptor of the record is built with the all-zero flow ID. -/
theorem flowid_directive_does_not_reach_descriptor :
    (read_packet ex_flow_env ex_c12_state).map
        (fun r => (r.1._have_flowid, r.1._given_flowid, r.1._flowid))
      = some (true, IPFlowID.mk 16909060 (htons 5000) 84281096 (htons 6000),
          IPFlowID.mk 0 0 0 0) ∧
    (read_packet ex_flow_env ex_c12_state).map (fun r => r.2.map (fun d => d.stored))
      = some (some [("flowid.saddr", 0), ("flowid.sport", 0), ("flowid.daddr", 0),
          ("flowid.dport", 0), ("ip_proto", 6), ("sport", 80)]) := by
  decide

/-! ## The format complaint -/

theorem diagnostics_snoc (msgs : List String) (m : String) :
    diagnostics (msgs ++ [m]) = diagnostics msgs + (if is_diagnostic m then 1 else 0) := by
  simp [diagnostics, List.countP_append, List.countP_cons]

theorem bang_data_reader_quiet {D : Type} (env : Env D) (ff : FromFile) (word : Str) :
    diagnostics (bang_data_reader env ff word).2.messages = diagnostics ff.messages := by
  unfold bang_data_reader
  split
  · simp only [FromFile.warning]
    rw [diagnostics_snoc]; rfl
  · split
    · simp only [FromFile.warning]
      rw [diagnostics_snoc]; rfl
    · rfl

theorem bang_data_loop_quiet {D : Type} (env : Env D) :
    ∀ (ws : List Str) (i : Nat) (fields : List (FieldReader D)) (order : List Nat)
      (ff : FromFile),
      diagnostics (bang_data_loop env ws i fields order ff).2.2.messages
        = diagnostics ff.messages := by
  intro ws
  induction ws with
  | nil => intro i fields order ff; rfl
  | cons w ws ih =>
    intro i fields order ff
    unfold bang_data_loop
    dsimp only
    split
    · exact ih _ _ _ _
    · rw [ih, bang_data_reader_quiet]

theorem bang_data_quiet {D : Type} (env : Env D) (s : State D) (line : Str) :
    diagnostics (bang_data env s line)._ff.messages = diagnostics s._ff.messages ∧
    (bang_data env s line)._format_complaint = s._format_complaint := by
  refine ⟨?_, rfl⟩
  simp only [bang_data]
  split
  · simp only [FromFile.error]
    rw [diagnostics_snoc, bang_data_loop_quiet]; rfl
  · exact bang_data_loop_quiet _ _ _ _ _ _

theorem bang_flowid_quiet {D : Type} (env : Env D) (s : State D) (line : Str) :
    diagnostics (bang_flowid env s line)._ff.messages = diagnostics s._ff.messages ∧
    (bang_flowid env s line)._format_complaint = s._format_complaint := by
  simp only [bang_flowid]
  split
  · simp only [FromFile.error]
    rw [diagnostics_snoc]; exact ⟨rfl, trivial⟩
  · split
    · split
      · exact ⟨rfl, rfl⟩
      · simp only [FromFile.error]
        rw [diagnostics_snoc]; exact ⟨rfl, trivial⟩
    · exact ⟨rfl, rfl⟩

theorem bang_aggregate_quiet {D : Type} (env : Env D) (s : State D) (line : Str) :
    diagnostics (bang_aggregate env s line)._ff.messages = diagnostics s._ff.messages ∧
    (bang_aggregate env s line)._format_complaint = s._format_complaint := by
  simp only [bang_aggregate]
  split
  · simp only [FromFile.error]
    rw [diagnostics_snoc]; exact ⟨rfl, trivial⟩
  · split
    · simp only [FromFile.error]
      rw [diagnostics_snoc]; exact ⟨rfl, trivial⟩
    · exact ⟨rfl, rfl⟩

theorem bang_binary_quiet {D : Type} (env : Env D) (s : State D) (line : Str) :
    diagnostics (bang_binary env s line)._ff.messages = diagnostics s._ff.messages ∧
    (bang_binary env s line)._format_complaint = s._format_complaint := by
  simp only [bang_binary]
  split
  · simp only [FromFile.error]
    rw [diagnostics_snoc]; exact ⟨rfl, trivial⟩
  · exact ⟨rfl, trivial⟩

theorem parse_bang_quiet {D : Type} (env : Env D) (s : State D) (line : Str) :
    diagnostics (parse_bang env s line)._ff.messages = diagnostics s._ff.messages ∧
    (parse_bang env s line)._format_complaint = s._format_complaint := by
  unfold parse_bang
  split
  · exact bang_data_quiet _ _ _
  · split
    · exact bang_flowid_quiet _ _ _
    · split
      · exact bang_aggregate_quiet _ _ _
      · split
        · exact bang_binary_quiet _ _ _
        · split
          · exact bang_data_quiet _ _ _
          · exact ⟨rfl, rfl⟩

theorem get_unaligned_messages (ff : FromFile) (n : Nat) :
    (ff.get_unaligned n).1.messages = ff.messages := by
  unfold FromFile.get_unaligned
  split <;> rfl

theorem get_string_messages (ff : FromFile) (n : Nat) :
    (ff.get_string n).1.messages = ff.messages := by
  unfold FromFile.get_string
  split <;> rfl

theorem read_line_messages (ff : FromFile) : ff.read_line.1.messages = ff.messages := by
  unfold FromFile.read_line
  split
  · rfl
  · dsimp only
    split <;> rfl

theorem read_binary_quiet {D : Type} (s : State D) (line : Str) :
    diagnostics (read_binary s line).1._ff.messages = diagnostics s._ff.messages ∧
    (read_binary s line).1._format_complaint = s._format_complaint := by
  unfold read_binary
  dsimp only
  split
  · exact ⟨by rw [get_unaligned_messages], rfl⟩
  · split
    · simp only [FromFile.error]
      rw [diagnostics_snoc, get_unaligned_messages]; exact ⟨rfl, trivial⟩
    · split
      · exact ⟨by rw [get_string_messages, get_unaligned_messages], rfl⟩
      · exact ⟨by rw [get_string_messages, get_unaligned_messages], rfl⟩

theorem read_record_quiet {D : Type} (env : Env D) :
    ∀ (fuel : Nat) (s : State D) (line : Str) (r : State D × Record),
      read_record env fuel s line = some r →
      diagnostics r.1._ff.messages = diagnostics s._ff.messages ∧
      r.1._format_complaint = s._format_complaint := by
  intro fuel
  induction fuel with
  | zero => intro s line r h; simp [read_record] at h
  | succ fuel ih =>
    intro s line r h
    have hb := read_binary_quiet s line
    have hl := read_line_messages s._ff
    unfold read_record at h
    dsimp only at h
    split at h
    · split at h
      · cases h; exact hb
      · split at h
        · have := ih _ _ _ h
          exact ⟨this.1.trans hb.1, this.2.trans hb.2⟩
        · split at h
          · cases h; exact hb
          · split at h
            · have := ih _ _ _ h
              have hp := parse_bang_quiet env (read_binary s line).1 (read_binary s line).2.1
              exact ⟨this.1.trans (hp.1.trans hb.1), this.2.trans (hp.2.trans hb.2)⟩
            · have := ih _ _ _ h
              exact ⟨this.1.trans hb.1, this.2.trans hb.2⟩
    · split at h
      · cases h; exact ⟨by rw [hl], rfl⟩
      · split at h
        · have := ih _ _ _ h
          exact ⟨this.1.trans (by rw [hl]), this.2⟩
        · split at h
          · cases h; exact ⟨by rw [hl], rfl⟩
          · split at h
            · have := ih _ _ _ h
              have hp := parse_bang_quiet env { s with _ff := s._ff.read_line.1 }
                s._ff.read_line.2.1
              exact ⟨this.1.trans (hp.1.trans (by rw [hl])), this.2.trans hp.2⟩
            · have := ih _ _ _ h
              exact ⟨this.1.trans (by rw [hl]), this.2⟩

theorem read_packet_line_potential {D : Type} (env : Env D) (s : State D) (line : Str)
    (binary : Bool) (r : State D × Option D)
    (h : read_packet_line env s line binary = some r) :
    diagnostics r.1._ff.messages + (if r.1._format_complaint then 0 else 1)
      ≤ diagnostics s._ff.messages + (if s._format_complaint then 0 else 1) := by
  unfold read_packet_line at h
  split at h
  · cases h
    simp only [FromFile.error]
    rw [diagnostics_snoc]
    simp [is_diagnostic]
  · dsimp only at h
    split at h
    · cases h
    · split at h
      · split at h
        · rename_i hc
          cases h
          simp only [FromFile.error]
          rw [diagnostics_snoc, hc.1]
          split <;> simp [is_diagnostic]
        · cases h; exact le_refl _
      · cases h; exact le_refl _

theorem read_packet_potential {D : Type} (env : Env D) (s : State D)
    (r : State D × Option D) (h : read_packet env s = some r) :
    diagnostics r.1._ff.messages + (if r.1._format_complaint then 0 else 1)
      ≤ diagnostics s._ff.messages + (if s._format_complaint then 0 else 1) := by
  unfold read_packet read_packet_fuel at h
  split at h
  · cases h
  · rename_i s1 hr
    cases h
    have := read_record_quiet env _ _ _ _ hr
    simp only [FromFile.cleanup]
    rw [← this.1, ← this.2]
  · rename_i s1 line binary hr
    have := read_record_quiet env _ _ _ _ hr
    have hp := read_packet_line_potential env _ _ _ _ h
    rw [← this.1, ← this.2]
    exact hp

theorem read_packets_potential {D : Type} (env : Env D) :
    ∀ (n : Nat) (s : State D),
      diagnostics (read_packets env n s)._ff.messages
          + (if (read_packets env n s)._format_complaint then 0 else 1)
        ≤ diagnostics s._ff.messages + (if s._format_complaint then 0 else 1) := by
  intro n
  induction n with
  | zero => intro s; exact le_refl _
  | succ n ih =>
    intro s
    unfold read_packets
    split
    · exact le_refl _
    · rename_i r hr
      exact le_trans (ih r.1) (read_packet_potential env s r hr)

/-- C15. However many calls of `read_packet` follow one another, and whatever
the records are, the number of "packet parse error" / "no '!data' provided"
diagnostics grows by at most one, and by none when the latch is already
set: from the state that `initialize` leaves (latch clear) at most one is
emitted. -/
theorem at_most_one_format_complaint {D : Type} (env : Env D) (n : Nat) (s : State D) :
    diagnostics (read_packets env n s)._ff.messages
      ≤ diagnostics s._ff.messages + (if s._format_complaint then 0 else 1) := by
  have h := read_packets_potential env n s
  omega

/-! ## Errors of `!flowid` and `!aggregate` -/

theorem messages_ne_snoc (msgs : List String) (m : String) : msgs ≠ msgs ++ [m] := by
  intro h
  have := congrArg List.length h
  simp at this

theorem snoc_ne_snoc (msgs : List String) (a b : String) (h : a ≠ b) :
    msgs ++ [a] ≠ msgs ++ [b] := by
  intro e
  exact h (by simpa using e)

/-- C13, as stated, fails: a `!flowid` directive whose four components are
well formed and whose protocol word is bad reports "bad protocol in !flowid",
and `_have_flowid` is true afterwards. -/
theorem bad_flowid_protocol_keeps_flowid :
    (bang_flowid ex_flow_env (ex_state []) (str "!flowid 1.2.3.4 5000 5.6.7.8 6000 X"))._ff.messages
      = ["bad protocol in !flowid"] ∧
    (bang_flowid ex_flow_env (ex_state []) (str "!flowid 1.2.3.4 5000 5.6.7.8 6000 X"))._have_flowid
      = true := by
  decide

/-- C13, amended. `bang_flowid` emits nothing, or "bad !flowid specification",
or "bad protocol in !flowid"; `_have_flowid` is false afterwards exactly when
it emitted "bad !flowid specification" (a bad protocol word leaves it true).
`bang_aggregate` emits nothing or "bad !aggregate specification", and
`_have_aggregate` is false afterwards exactly when it emitted it.  Neither
closes the source or takes input from it. -/
theorem directive_errors_clear_have_flags {D : Type} (env : Env D) (s : State D) (line : Str) :
    ((bang_flowid env s line)._ff.messages = s._ff.messages ∨
      (bang_flowid env s line)._ff.messages = s._ff.messages ++ ["bad !flowid specification"] ∨
      (bang_flowid env s line)._ff.messages = s._ff.messages ++ ["bad protocol in !flowid"]) ∧
    ((bang_flowid env s line)._have_flowid = false ↔
      (bang_flowid env s line)._ff.messages = s._ff.messages ++ ["bad !flowid specification"]) ∧
    (bang_flowid env s line)._ff.initialized = s._ff.initialized ∧
    (bang_flowid env s line)._ff.input = s._ff.input ∧
    ((bang_aggregate env s line)._ff.messages = s._ff.messages ∨
      (bang_aggregate env s line)._ff.messages
        = s._ff.messages ++ ["bad !aggregate specification"]) ∧
    ((bang_aggregate env s line)._have_aggregate = false ↔
      (bang_aggregate env s line)._ff.messages
        = s._ff.messages ++ ["bad !aggregate specification"]) ∧
    (bang_aggregate env s line)._ff.initialized = s._ff.initialized ∧
    (bang_aggregate env s line)._ff.input = s._ff.input := by
  have hf : ((bang_flowid env s line)._ff.messages = s._ff.messages ∧
        (bang_flowid env s line)._have_flowid = true ∨
      (bang_flowid env s line)._ff.messages = s._ff.messages ++ ["bad !flowid specification"] ∧
        (bang_flowid env s line)._have_flowid = false ∨
      (bang_flowid env s line)._ff.messages = s._ff.messages ++ ["bad protocol in !flowid"] ∧
        (bang_flowid env s line)._have_flowid = true) ∧
      (bang_flowid env s line)._ff.initialized = s._ff.initialized ∧
      (bang_flowid env s line)._ff.input = s._ff.input := by
    simp only [bang_flowid]
    split
    · exact ⟨Or.inr (Or.inl ⟨rfl, rfl⟩), rfl, rfl⟩
    · split
      · split
        · exact ⟨Or.inl ⟨rfl, rfl⟩, rfl, rfl⟩
        · exact ⟨Or.inr (Or.inr ⟨rfl, rfl⟩), rfl, rfl⟩
      · exact ⟨Or.inl ⟨rfl, rfl⟩, rfl, rfl⟩
  have ha : ((bang_aggregate env s line)._ff.messages = s._ff.messages ∧
        (bang_aggregate env s line)._have_aggregate = true ∨
      (bang_aggregate env s line)._ff.messages
          = s._ff.messages ++ ["bad !aggregate specification"] ∧
        (bang_aggregate env s line)._have_aggregate = false) ∧
      (bang_aggregate env s line)._ff.initialized = s._ff.initialized ∧
      (bang_aggregate env s line)._ff.input = s._ff.input := by
    simp only [bang_aggregate]
    split
    · exact ⟨Or.inr ⟨rfl, rfl⟩, rfl, rfl⟩
    · split
      · exact ⟨Or.inr ⟨rfl, rfl⟩, rfl, rfl⟩
      · exact ⟨Or.inl ⟨rfl, rfl⟩, rfl, rfl⟩
  refine ⟨?_, ?_, hf.2.1, hf.2.2, ?_, ?_, ha.2.1, ha.2.2⟩
  · rcases hf.1 with h | h | h
    · exact Or.inl h.1
    · exact Or.inr (Or.inl h.1)
    · exact Or.inr (Or.inr h.1)
  · rcases hf.1 with h | h | h
    · rw [h.1, h.2]
      exact ⟨fun e => (by cases e), fun e => absurd e (messages_ne_snoc _ _)⟩
    · rw [h.1, h.2]
      exact ⟨fun _ => rfl, fun _ => rfl⟩
    · rw [h.1, h.2]
      exact ⟨fun e => (by cases e), fun e => absurd e (snoc_ne_snoc _ _ _ (by decide))⟩
  · rcases ha.1 with h | h
    · exact Or.inl h.1
    · exact Or.inr h.1
  · rcases ha.1 with h | h
    · rw [h.1, h.2]
      exact ⟨fun e => (by cases e), fun e => absurd e (messages_ne_snoc _ _)⟩
    · rw [h.1, h.2]
      exact ⟨fun _ => rfl, fun _ => rfl⟩

/-! ## The latch across `!data` -/

theorem read_packet_latched {D : Type} (env : Env D) (s : State D) (r : State D × Option D)
    (hl : s._format_complaint = true) (h : read_packet env s = some r) :
    r.1._format_complaint = true ∧ diagnostics r.1._ff.messages = diagnostics s._ff.messages := by
  have hle := read_packet_potential env s r h
  have hmono : diagnostics s._ff.messages ≤ diagnostics r.1._ff.messages := by
    unfold read_packet read_packet_fuel at h
    split at h
    · cases h
    · rename_i s1 hr
      cases h
      have := read_record_quiet env _ _ _ _ hr
      simp only [FromFile.cleanup]
      rw [this.1]
    · rename_i s1 line binary hr
      have hq := read_record_quiet env _ _ _ _ hr
      rw [← hq.1]
      unfold read_packet_line at h
      split at h
      · cases h
        simp only [FromFile.error]
        rw [diagnostics_snoc]
        omega
      · dsimp only at h
        split at h
        · cases h
        · split at h
          · split at h
            · cases h
              simp only [FromFile.error]
              rw [diagnostics_snoc]
              omega
            · cases h; exact le_refl _
          · cases h; exact le_refl _
  rw [hl] at hle
  simp only [if_true] at hle
  cases hc : r.1._format_complaint
  · rw [hc] at hle
    simp at hle
    omega
  · rw [hc] at hle
    simp at hle
    exact ⟨rfl, by omega⟩

/-- C14, as stated, fails: after an unparseable record has set the latch, a
`!data` directive and a second unparseable record raise nothing; two calls of
`read_packet` consume the whole input with the single diagnostic of the first
record. -/
theorem data_directive_keeps_latch :
    (read_packet ex_env ex_c14_state).map (fun r => (r.1._format_complaint, r.1._ff.messages))
      = some (true, ["packet parse error"]) ∧
    (read_packet ex_env ex_c14_state).map (fun r => (r.1._ff.input, r.2))
      = some (str "!data ip_proto sport\nzz ww\n", none) ∧
    ((read_packet ex_env ex_c14_state).bind (fun r => read_packet ex_env r.1)).map
        (fun r => (r.1._format_complaint, r.1._ff.messages))
      = some (true, ["packet parse error"]) ∧
    ((read_packet ex_env ex_c14_state).bind (fun r => read_packet ex_env r.1)).map
        (fun r => (r.1._ff.input, r.2))
      = some ([], none) := by
  decide

/-- C14, amended. `bang_data` leaves the format-complaint latch as it was, and
emits no format complaint itself; with the latch set, a call of `read_packet`
(whatever directives and records it reads) leaves it set and emits no format
complaint. -/
theorem data_directive_leaves_latch {D : Type} (env : Env D) (s : State D) (line : Str)
    (r : State D × Option D)
    (hl : s._format_complaint = true)
    (h : read_packet env (bang_data env s line) = some r) :
    (bang_data env s line)._format_complaint = s._format_complaint ∧
    diagnostics (bang_data env s line)._ff.messages = diagnostics s._ff.messages ∧
    r.1._format_complaint = true ∧
    diagnostics r.1._ff.messages = diagnostics s._ff.messages := by
  have hb := bang_data_quiet env s line
  have hr := read_packet_latched env (bang_data env s line) r (hb.2.trans hl) h
  exact ⟨hb.2, hb.1, hr.1, hr.2.trans hb.1⟩

theorem data_directive_leaves_latch_witness :
    ({ ex_text_state (str "zz ww\n") with _format_complaint := true } : State Desc)._format_complaint
      = true ∧
    (read_packet ex_env
        (bang_data ex_env { ex_text_state (str "zz ww\n") with _format_complaint := true }
          (str "!data ip_proto sport"))).isSome = true ∧
    diagnostics
        (bang_data ex_env { ex_text_state (str "zz ww\n") with _format_complaint := true }
          (str "!data ip_proto sport"))._ff.messages = 0 :=
  ⟨rfl, by decide,
    (data_directive_leaves_latch ex_env
      { ex_text_state (str "zz ww\n") with _format_complaint := true }
      (str "!data ip_proto sport")
      ((read_packet ex_env
        (bang_data ex_env { ex_text_state (str "zz ww\n") with _format_complaint := true }
          (str "!data ip_proto sport"))).get (by decide))
      rfl (by simp)).2.1⟩

/-! ## Records that inject nothing -/

theorem takeWhile_length_eq_iff_all (p : Nat → Bool) :
    ∀ l : List Nat, (l.takeWhile p).length = l.length ↔ l.all p = true := by
  intro l
  induction l with
  | nil => simp
  | cons c cs ih =>
    cases hp : p c
    · simp [List.takeWhile, hp]
    · simp [List.takeWhile, hp, ih]

/-- C16. A record from which pass 1 injects no field: `read_packet` returns no
packet, leaves the source open and unread beyond the record, and leaves the
field list and the field order as they are.  When the latch is clear and the
record is binary or has a byte other than space, tab, newline and carriage
return, it emits one message, "no '!data' provided" if the field list is empty
and "packet parse error" otherwise, and sets the latch; in every other case it
changes nothing at all. -/
theorem zero_field_record_is_discarded {D : Type} (env : Env D) (s : State D) (line : Str)
    (binary : Bool) (d0 d : D)
    (hd : env.make_desc s._zero s._default_proto
      (if s._have_flowid then some s._flowid else none) = some d0)
    (hp : (if s._binary then (assemble_binary env s line d0).map (fun r => (r.d, r.nfields))
      else (assemble_ascii env s line d0).map (fun r => (r.d, r.nfields))) = some (d, 0)) :
    ∃ s1 : State D,
      read_packet_line env s line binary = some (s1, none) ∧
      s1._ff.initialized = s._ff.initialized ∧
      s1._ff.input = s._ff.input ∧
      s1._fields = s._fields ∧
      s1._field_order = s._field_order ∧
      (s._format_complaint = false ∧
          (binary = true ∨ line.all (fun c => c == 32 || c == 9 || c == 10 || c == 13) = false) →
        s1._ff.messages = s._ff.messages ++
          [if s._fields.length = 0 then "no '!data' provided" else "packet parse error"] ∧
        s1._format_complaint = true) ∧
      (¬ (s._format_complaint = false ∧
          (binary = true ∨ line.all (fun c => c == 32 || c == 9 || c == 10 || c == 13) = false)) →
        s1 = s) := by
  have hw := takeWhile_length_eq_iff_all (fun c => c == 32 || c == 9 || c == 10 || c == 13) line
  unfold read_packet_line
  rw [hd]
  dsimp only
  rw [hp]
  dsimp only
  rw [if_pos rfl]
  by_cases hc : s._format_complaint = false ∧
      (binary = true ∨ (line.takeWhile (fun c => c == 32 || c == 9 || c == 10 || c == 13)).length
        ≠ line.length)
  · rw [if_pos hc]
    refine ⟨_, rfl, rfl, rfl, rfl, rfl, ?_, ?_⟩
    · intro _
      refine ⟨?_, rfl⟩
      rfl
    · intro hn
      exfalso
      apply hn
      refine ⟨hc.1, ?_⟩
      rcases hc.2 with h | h
      · exact Or.inl h
      · right
        cases ha : line.all (fun c => c == 32 || c == 9 || c == 10 || c == 13)
        · rfl
        · exact absurd (hw.mpr ha) h
  · rw [if_neg hc]
    refine ⟨s, rfl, rfl, rfl, rfl, rfl, ?_, ?_⟩
    · intro h
      exfalso
      apply hc
      refine ⟨h.1, ?_⟩
      rcases h.2 with h2 | h2
      · exact Or.inl h2
      · right
        intro hl
        rw [hw.mp hl] at h2
        cases h2
    · intro _; rfl

theorem zero_field_record_is_discarded_witness :
    ex_env.make_desc (ex_text_state [])._zero (ex_text_state [])._default_proto
        (if (ex_text_state [])._have_flowid then some (ex_text_state [])._flowid else none)
      = some ex_d0 ∧
    (if (ex_text_state [])._binary then
        (assemble_binary ex_env (ex_text_state []) (str "xx yy\n") ex_d0).map
          (fun r => (r.d, r.nfields))
      else (assemble_ascii ex_env (ex_text_state []) (str "xx yy\n") ex_d0).map
          (fun r => (r.d, r.nfields))) = some (ex_d0, 0) ∧
    ∃ s1 : State Desc,
      read_packet_line ex_env (ex_text_state []) (str "xx yy\n") false = some (s1, none) ∧
      s1._ff.initialized = (ex_text_state [])._ff.initialized ∧
      s1._ff.input = (ex_text_state [])._ff.input ∧
      s1._fields = (ex_text_state [])._fields ∧
      s1._field_order = (ex_text_state [])._field_order ∧
      ((ex_text_state [])._format_complaint = false ∧
          (false = true ∨
            (str "xx yy\n").all (fun c => c == 32 || c == 9 || c == 10 || c == 13) = false) →
        s1._ff.messages = (ex_text_state [])._ff.messages ++
          [if (ex_text_state [])._fields.length = 0 then "no '!data' provided"
            else "packet parse error"] ∧
        s1._format_complaint = true) ∧
      (¬ ((ex_text_state [])._format_complaint = false ∧
          (false = true ∨
            (str "xx yy\n").all (fun c => c == 32 || c == 9 || c == 10 || c == 13) = false)) →
        s1 = ex_text_state []) :=
  ⟨by decide, by decide,
    zero_field_record_is_discarded ex_env (ex_text_state []) (str "xx yy\n") false ex_d0 ex_d0
      (by decide) (by decide)⟩

/-- Scenario 6 of the design notes: a malformed record between two well-formed
ones yields two packets and one diagnostic. -/
theorem bad_record_recovery :
    (read_packet ex_env (ex_text_state (str "6 80\nxx yy\n7 81\n"))).map
        (fun r => r.1._ff.messages) = some [] ∧
    (read_packet ex_env (ex_text_state (str "6 80\nxx yy\n7 81\n"))).map
        (fun r => r.2.map (fun d => d.stored))
      = some (some [("ip_proto", 6), ("sport", 80)]) ∧
    ((read_packet ex_env (ex_text_state (str "6 80\nxx yy\n7 81\n"))).bind
        (fun r => read_packet ex_env r.1)).map (fun r => r.1._ff.messages)
      = some ["packet parse error"] ∧
    ((read_packet ex_env (ex_text_state (str "6 80\nxx yy\n7 81\n"))).bind
        (fun r => read_packet ex_env r.1)).map (fun r => r.2.map (fun d => d.stored))
      = some none ∧
    (((read_packet ex_env (ex_text_state (str "6 80\nxx yy\n7 81\n"))).bind
        (fun r => read_packet ex_env r.1)).bind (fun r => read_packet ex_env r.1)).map
        (fun r => r.1._ff.messages)
      = some ["packet parse error"] ∧
    (((read_packet ex_env (ex_text_state (str "6 80\nxx yy\n7 81\n"))).bind
        (fun r => read_packet ex_env r.1)).bind (fun r => read_packet ex_env r.1)).map
        (fun r => r.2.map (fun d => d.stored))
      = some (some [("ip_proto", 7), ("sport", 81)]) ∧
    (((read_packet ex_env (ex_text_state (str "6 80\nxx yy\n7 81\n"))).bind
        (fun r => read_packet ex_env r.1)).bind (fun r => read_packet ex_env r.1)).map
        (fun r => (r.1._ff.initialized, r.1._ff.input))
      = some (true, []) := by
  decide

/-! ## The post-pass: the claims about lengths -/

/-- When the network length plus the extra-length annotation, added in unsigned 32
bits, is `2^31` or more, `int len` is negative, the test `len > 0xFFFF` fails,
and `ip_len` gets the low 16 bits of the sum. -/
theorem fixup_ip_len_wraps (pe : PacketEnv) (checksum : Bool) (p : Packet)
    (hz : p.ip.ip_len = 0) (hs : 2 ^ 31 ≤ p.network_length + p.extra_length_anno)
    (hs2 : p.network_length + p.extra_length_anno < 2 ^ 32) :
    ntohs (fixup_ip pe checksum p).ip.ip_len
      = (p.network_length + p.extra_length_anno) % 65536 := by
  rw [(fixup_ip_ip_len pe checksum p).1]
  unfold fixup_ip_len
  rw [if_pos hz]
  dsimp only
  have h32 : to_int32 (p.network_length + p.extra_length_anno)
      = ((p.network_length + p.extra_length_anno : Nat) : Int) - 2 ^ 32 := by
    unfold to_int32
    have h1 : (p.network_length + p.extra_length_anno) % 2 ^ 32
        = p.network_length + p.extra_length_anno := Nat.mod_eq_of_lt hs2
    rw [h1, if_neg (by omega)]
  rw [h32]
  generalize p.network_length + p.extra_length_anno = x at hs hs2
  have hlt : ¬ ((x : Int) - 2 ^ 32 > 0xFFFF) := by omega
  rw [if_neg hlt]
  have hu : to_uint16 ((x : Int) - 2 ^ 32) = x % 65536 := by
    unfold to_uint16; omega
  rw [hu, ntohs_htons _ (by omega)]

/-- C17, failing input. For the sample packet with `ip_len` zero, network length
40 and the extra-length annotation `2^31`, the post-pass stores `ip_len` 40,
while the smaller of `40 + 2^31` and `0xFFFF` is 65535. -/
theorem ip_len_clamp_missed_for_large_annotation :
    (read_packet_fixup ex_packet_env false
        { p := some { ex_packet with extra_length_anno := 2 ^ 31 }
          is_ip := true
          default_ip_flowid := none }).p.map (fun q => ntohs q.ip.ip_len) = some 40 ∧
    ({ ex_packet with extra_length_anno := 2 ^ 31 } : Packet).ip.ip_len = 0 ∧
    min (({ ex_packet with extra_length_anno := 2 ^ 31 } : Packet).network_length
        + ({ ex_packet with extra_length_anno := 2 ^ 31 } : Packet).extra_length_anno) 0xFFFF
      = 65535 := by
  decide

/-- C18. With `network_header_length()` equal to `ip_hl * 4`: when the protocol is
UDP, the fragment offset is zero and `uh_ulen` is zero after pass 1, the
post-pass sets `uh_ulen` (read in host order) to `ip_len - ip_hl * 4` as a
16-bit value, `ip_len` being the host-order value after its own fix-up; in
every other case `uh_ulen` is as it was. -/
theorem udp_length_fixup (pe : PacketEnv) (checksum : Bool) (p : Packet)
    (hnh : p.network_header_length = p.ip.ip_hl * 4) :
    (p.ip.ip_p = IP_PROTO_UDP ∧ IP_FIRSTFRAG p.ip = true ∧ p.udp.uh_ulen = 0 →
      ntohs (fixup_ip pe checksum p).udp.uh_ulen
        = to_uint16 ((ntohs (fixup_ip pe checksum p).ip.ip_len : Int)
            - ((p.ip.ip_hl * 4 : Nat) : Int))) ∧
    (¬ (p.ip.ip_p = IP_PROTO_UDP ∧ IP_FIRSTFRAG p.ip = true ∧ p.udp.uh_ulen = 0) →
      (fixup_ip pe checksum p).udp.uh_ulen = p.udp.uh_ulen) := by
  have hf := fixup_ip_len_frame p
  have hu : (fixup_ip pe checksum p).udp.uh_ulen = (fixup_udp_len (fixup_ip_len p)).udp.uh_ulen := by
    unfold fixup_ip
    dsimp only
    cases checksum with
    | false => simp [fixup_extra_length]
    | true =>
      simp only [if_true, (set_checksums_frame _ _).1]
      simp [fixup_extra_length]
  have hcond : (fixup_ip_len p).ip.ip_p = IP_PROTO_UDP ∧ IP_FIRSTFRAG (fixup_ip_len p).ip = true ∧
      (fixup_ip_len p).udp.uh_ulen = 0 ↔
      p.ip.ip_p = IP_PROTO_UDP ∧ IP_FIRSTFRAG p.ip = true ∧ p.udp.uh_ulen = 0 := by
    unfold IP_FIRSTFRAG
    rw [hf.2.2.2.1, hf.2.2.2.2.1, hf.1]
  constructor
  · intro hc
    rw [hu, (fixup_ip_ip_len pe checksum p).1]
    unfold fixup_udp_len
    rw [if_pos (hcond.mpr hc)]
    dsimp only
    rw [ntohs_htons _ (to_uint16_lt _), hf.2.2.1, hnh]
    rfl
  · intro hc
    rw [hu]
    unfold fixup_udp_len
    rw [if_neg (fun h => hc (hcond.mp h)), hf.1]

theorem udp_length_fixup_witness :
    ex_packet.network_header_length = ex_packet.ip.ip_hl * 4 ∧
    (ex_packet.ip.ip_p = IP_PROTO_UDP ∧ IP_FIRSTFRAG ex_packet.ip = true ∧
      ex_packet.udp.uh_ulen = 0) ∧
    ntohs (fixup_ip ex_packet_env true ex_packet).udp.uh_ulen
      = to_uint16 ((ntohs (fixup_ip ex_packet_env true ex_packet).ip.ip_len : Int)
          - ((ex_packet.ip.ip_hl * 4 : Nat) : Int)) ∧
    ntohs (fixup_ip ex_packet_env true ex_packet).udp.uh_ulen = 120 :=
  ⟨by decide, by decide,
    (udp_length_fixup ex_packet_env true ex_packet (by decide)).1 (by decide), by decide⟩

/-- C19, as stated, fails: for the sample packet with `ip_len` 20 and a buffer of
40 bytes, the post-pass stores the annotation `2^32 - 20`, not zero. -/
theorem extra_length_wraps_below_buffer :
    ntohs ({ ex_packet with ip := { ex_packet.ip with ip_len := htons 20 } } : Packet).ip.ip_len
      = 20 ∧
    ({ ex_packet with ip := { ex_packet.ip with ip_len := htons 20 } } : Packet).length = 40 ∧
    (fixup_ip ex_packet_env false
        { ex_packet with ip := { ex_packet.ip with ip_len := htons 20 } }).extra_length_anno
      = 4294967276 := by
  decide

/-- C19, amended. For a buffer shorter than `2^32` bytes, after the post-pass the
extra-length annotation is `ip_len - length()` when `ip_len` (host order, after
its own fix-up) is at least the buffer length, and `2^32 - (length() - ip_len)`
otherwise: the difference wraps in unsigned 32 bits, it is not clamped. -/
theorem extra_length_after_fixup (pe : PacketEnv) (checksum : Bool) (p : Packet)
    (hl : p.length < 2 ^ 32) :
    (fixup_ip pe checksum p).extra_length_anno
      = if p.length ≤ ntohs (fixup_ip pe checksum p).ip.ip_len then
          ntohs (fixup_ip pe checksum p).ip.ip_len - p.length
        else 2 ^ 32 - (p.length - ntohs (fixup_ip pe checksum p).ip.ip_len) := by
  have hf := fixup_ip_len_frame p
  have hu := fixup_udp_len_frame (fixup_ip_len p)
  have he : (fixup_ip pe checksum p).extra_length_anno
      = to_uint32 ((ntohs (fixup_ip_len p).ip.ip_len : Int) - (p.length : Int)) := by
    unfold fixup_ip
    dsimp only
    cases checksum with
    | false => simp [fixup_extra_length, hu.1, hu.2.1, hf.2.1]
    | true =>
      simp only [if_true, (set_checksums_frame _ _).2.1]
      simp [fixup_extra_length, hu.1, hu.2.1, hf.2.1]
  rw [he, (fixup_ip_ip_len pe checksum p).1]
  have hn : ntohs (fixup_ip_len p).ip.ip_len < 65536 := htons_lt _
  generalize ntohs (fixup_ip_len p).ip.ip_len = n at hn
  generalize p.length = m at hl
  unfold to_uint32
  split <;> omega

theorem extra_length_after_fixup_witness :
    ex_packet.length < 2 ^ 32 ∧
    (fixup_ip ex_packet_env true ex_packet).extra_length_anno
      = (if ex_packet.length ≤ ntohs (fixup_ip ex_packet_env true ex_packet).ip.ip_len then
          ntohs (fixup_ip ex_packet_env true ex_packet).ip.ip_len - ex_packet.length
        else 2 ^ 32 - (ex_packet.length
          - ntohs (fixup_ip ex_packet_env true ex_packet).ip.ip_len)) ∧
    (fixup_ip ex_packet_env true ex_packet).extra_length_anno = 100 :=
  ⟨by decide, extra_length_after_fixup ex_packet_env true ex_packet (by decide), by decide⟩

/-- Where `ip_hl * 4` reaches past the network header, the sum of `set_checksums`
takes in the transport header as it stood, and the transport checksum written
afterwards leaves the IP checksum over the same bytes wrong: here `ip_hl` is 7,
the network header has the 20 bytes of the struct, and the 28 bytes summed end
with the UDP header. -/
theorem set_checksums_reads_transport_header :
    ex_overlap_packet.ip.ip_hl * 4 = 28 ∧ ex_overlap_packet.network_header_length = 20 ∧
    (iph_memory ex_overlap_env (fixup_ip ex_overlap_env true ex_overlap_packet)).length = 28 ∧
    (fixup_ip ex_overlap_env true ex_overlap_packet).ip.ip_sum
      = click_in_cksum
          (({ (fixup_ip ex_overlap_env true ex_overlap_packet).ip with ip_sum := 0 } :
              click_ip).bytes
            ++ ({ (fixup_ip ex_overlap_env true ex_overlap_packet).udp with uh_sum := 0 } :
              click_udp).bytes) 28 ∧
    (fixup_ip ex_overlap_env true ex_overlap_packet).udp.uh_sum = 0x1234 ∧
    click_in_cksum (iph_memory ex_overlap_env (fixup_ip ex_overlap_env true ex_overlap_packet))
        ((fixup_ip ex_overlap_env true ex_overlap_packet).ip.ip_hl * 4) ≠ 0 := by
  decide

/-- C20. With `CHECKSUM` on, for a packet whose network header is the struct and
the bytes `ip_opts` (`network_header_length()` is 20 plus their number), whose
`ip_hl * 4` bytes hold `ip_sum` (`ip_hl` at least 3) and end within the network
header, with `ip_hl` below 16, the Internet checksum over the first `ip_hl * 4`
bytes of the memory at `iph` that the post-pass leaves, `ip_sum` as
`set_checksums` stored it, is 0, whatever the transport header holds. -/
theorem ip_header_checksum_valid (pe : PacketEnv) (p : Packet)
    (hlen : p.network_header_length = 20 + p.ip_opts.length)
    (hgeo : p.ip.ip_hl * 4 ≤ p.network_header_length)
    (h3 : 3 ≤ p.ip.ip_hl) (h15 : p.ip.ip_hl < 16) (hopts : ∀ b ∈ p.ip_opts, b < 256) :
    click_in_cksum (iph_memory pe (fixup_ip pe true p)) ((fixup_ip pe true p).ip.ip_hl * 4)
      = 0 := by
  have hf := fixup_ip_len_frame p
  have hu := fixup_udp_len_frame (fixup_ip_len p)
  have hs : ∀ n : Nat, n * 4 = n <<< 2 := by
    intro n; rw [Nat.shiftLeft_eq]
  rw [hs]
  unfold fixup_ip
  dsimp only
  rw [if_pos rfl]
  apply set_checksums_valid
  · show 3 ≤ (fixup_udp_len (fixup_ip_len p)).ip.ip_hl
    rw [hu.1, hf.2.2.2.2.2.1]; exact h3
  · show (fixup_udp_len (fixup_ip_len p)).ip.ip_hl < 16
    rw [hu.1, hf.2.2.2.2.2.1]; exact h15
  · show ∀ b ∈ (fixup_udp_len (fixup_ip_len p)).ip_opts, b < 256
    rw [hu.2.2, hf.2.2.2.2.2.2]; exact hopts
  · show (fixup_udp_len (fixup_ip_len p)).ip.ip_hl * 4
      ≤ 20 + (fixup_udp_len (fixup_ip_len p)).ip_opts.length
    rw [hu.1, hf.2.2.2.2.2.1, hu.2.2, hf.2.2.2.2.2.2]; omega

theorem ip_header_checksum_valid_witness :
    ex_packet.network_header_length = 20 + ex_packet.ip_opts.length ∧
    ex_packet.ip.ip_hl * 4 ≤ ex_packet.network_header_length ∧
    3 ≤ ex_packet.ip.ip_hl ∧ ex_packet.ip.ip_hl < 16 ∧ (∀ b ∈ ex_packet.ip_opts, b < 256) ∧
    click_in_cksum (iph_memory ex_packet_env (fixup_ip ex_packet_env true ex_packet))
        ((fixup_ip ex_packet_env true ex_packet).ip.ip_hl * 4) = 0 ∧
    (fixup_ip ex_packet_env true ex_packet).ip.ip_sum ≠ 0 :=
  ⟨by decide, by decide, by decide, by decide, by decide,
    ip_header_checksum_valid ex_packet_env ex_packet (by decide) (by decide) (by decide)
      (by decide) (by decide),
    by decide⟩

/-! ## The length helper -/

/-- The low 16 bits survive the byte swap twice. -/
theorem ntohs_htons_mod (x : Nat) : ntohs (htons (x % 65536)) = x % 65536 :=
  ntohs_htons _ (Nat.mod_lt _ (by decide))

/-- C30, as stated, fails: the sample UDP packet whose `ip_len` already is the
buffer length 40 and whose `uh_ulen` is 999 comes back unmodified from
`set_packet_lengths(p, 0)`, with `uh_ulen` 999 and not `40 - 5*4`. -/
theorem lengths_helper_keeps_stale_udp_length :
    set_packet_lengths (fun _ => true) ex_c30_packet 0 = some ex_c30_packet ∧
    ex_c30_packet.ip.ip_p = IP_PROTO_UDP ∧
    ntohs ex_c30_packet.ip.ip_len = 40 ∧
    ex_c30_packet.ip.ip_hl * 4 = 20 ∧
    ntohs ex_c30_packet.udp.uh_ulen = 999 := by
  decide

/-- C30, amended. When `ip_len` already is `length() + x` as a 16-bit value,
`set_packet_lengths(p, x)` returns `p` itself, `uh_ulen` as it was.  Otherwise it
returns null exactly when `uniqueify` fails, and else a packet with the buffer
length and annotations of `p`, `ip_len` equal to `length() + x` as a 16-bit value
and, when the protocol is UDP, `uh_ulen` equal to `ip_len - ip_hl * 4` as a 16-bit
value (`uh_ulen` as it was for another protocol). -/
theorem set_packet_lengths_coherent (ok : Packet → Bool) (p : Packet) (x : Nat) :
    (htons ((p.length + x) % 65536) = p.ip.ip_len → set_packet_lengths ok p x = some p) ∧
    (htons ((p.length + x) % 65536) ≠ p.ip.ip_len → ok p = false →
      set_packet_lengths ok p x = none) ∧
    (htons ((p.length + x) % 65536) ≠ p.ip.ip_len → ok p = true →
      ∃ q, set_packet_lengths ok p x = some q ∧
        ntohs q.ip.ip_len = (p.length + x) % 65536 ∧
        (q.ip.ip_p = IP_PROTO_UDP →
          ntohs q.udp.uh_ulen
            = to_uint16 ((ntohs q.ip.ip_len : Int) - ((q.ip.ip_hl * 4 : Nat) : Int))) ∧
        (q.ip.ip_p ≠ IP_PROTO_UDP → q.udp = p.udp) ∧
        q.ip.ip_p = p.ip.ip_p ∧ q.ip.ip_hl = p.ip.ip_hl ∧
        q.length = p.length ∧ q.extra_length_anno = p.extra_length_anno ∧
        q.extra_packets_anno = p.extra_packets_anno ∧
        q.timestamp_anno = p.timestamp_anno) := by
  have hm : (p.length + x) % 2 ^ 32 % 65536 = (p.length + x) % 65536 := by omega
  refine ⟨?_, ?_, ?_⟩
  · intro h
    unfold set_packet_lengths
    dsimp only
    rw [hm, if_neg (by simpa using h)]
  · intro h hok
    unfold set_packet_lengths
    dsimp only
    rw [hm, if_pos h, if_neg (by simp [hok])]
  · intro h hok
    unfold set_packet_lengths
    dsimp only
    rw [hm, if_pos h, if_pos hok]
    by_cases hu : p.ip.ip_p = IP_PROTO_UDP
    · rw [if_pos hu]
      refine ⟨_, rfl, ntohs_htons_mod _, ?_, ?_, rfl, rfl, rfl, rfl, rfl, rfl⟩
      · intro _
        dsimp only
        rw [ntohs_htons_mod, ntohs_htons_mod]
        have hs : p.ip.ip_hl <<< 2 = p.ip.ip_hl * 4 := by rw [Nat.shiftLeft_eq]
        rw [hs]
        generalize p.ip.ip_hl * 4 = c
        generalize p.length + x = l
        unfold to_uint32 to_uint16
        omega
      · intro hne
        exact absurd hu hne
    · rw [if_neg hu]
      refine ⟨_, rfl, ntohs_htons_mod _, ?_, ?_, rfl, rfl, rfl, rfl, rfl, rfl⟩
      · intro hq
        exact absurd hq hu
      · intro _; rfl

theorem set_packet_lengths_coherent_witness :
    htons ((ex_packet.length + 60) % 65536) ≠ ex_packet.ip.ip_len ∧
    ∃ q, set_packet_lengths (fun _ => true) ex_packet 60 = some q ∧
      ntohs q.ip.ip_len = 100 ∧ ntohs q.udp.uh_ulen = 80 :=
  ⟨by decide, by
    obtain ⟨q, hq, hlen, hudp, _⟩ :=
      (set_packet_lengths_coherent (fun _ => true) ex_packet 60).2.2 (by decide) rfl
    have hq' : q = (set_packet_lengths (fun _ => true) ex_packet 60).get (by decide) := by
      simp [hq]
    refine ⟨q, hq, hlen, ?_⟩
    rw [hq']
    decide⟩

/-! ## The timing gate -/

/-- C26. Once the timing offset is captured, and for a timer adjustment that is
not negative: with `now` the clock reading of the call and `target` the
packet's timestamp plus the offset, `check_timing` returns true only if
`now >= target`, and then the work slot is empty; it returns false exactly when
`now < target`, and then the packet is in the work slot; and whenever
`now < target - adjustment` it returns false, has the packet in the work slot and
has armed the timer at `target - adjustment` (and put the notifier to sleep on a
pull output). -/
theorem timing_gate_never_early {D : Type} (re : RunEnv D) (e : Engine D) (p : Packet)
    (hh : e._have_timing = true) (ha : 0 ≤ re.adjustment) :
    ((check_timing re e p).2 = true →
      p.timestamp_anno + e._timing_offset ≤ re.now e.clock_reads ∧
      (check_timing re e p).1._work_packet = none) ∧
    ((check_timing re e p).2 = false ↔
      re.now e.clock_reads < p.timestamp_anno + e._timing_offset) ∧
    ((check_timing re e p).2 = false → (check_timing re e p).1._work_packet = some p) ∧
    (re.now e.clock_reads < p.timestamp_anno + e._timing_offset - re.adjustment →
      (check_timing re e p).2 = false ∧
      (check_timing re e p).1._work_packet = some p ∧
      (check_timing re e p).1.effects = e.effects ++
        (Effect.schedule_at (p.timestamp_anno + e._timing_offset - re.adjustment) ::
          (if re.output_is_pull then [Effect.notifier_sleep] else []))) ∧
    (check_timing re e p).1._timing_offset = e._timing_offset := by
  unfold check_timing
  simp only [hh, if_true]
  by_cases h : re.now e.clock_reads < p.timestamp_anno + e._timing_offset
  · rw [if_pos h]
    refine ⟨fun h2 => Bool.noConfusion h2, ⟨fun _ => h, fun _ => rfl⟩, fun _ => rfl, ?_, ?_⟩
    · intro h1
      rw [if_pos h1]
      exact ⟨rfl, rfl, rfl⟩
    · split <;> rfl
  · rw [if_neg h]
    refine ⟨fun _ => ⟨by omega, rfl⟩, ⟨fun h2 => Bool.noConfusion h2, fun h2 => absurd h2 h⟩,
      fun h2 => Bool.noConfusion h2, ?_, rfl⟩
    intro h1
    exfalso
    omega

theorem timing_gate_never_early_witness :
    ({ ex_engine [] with _have_timing := true, _timing_offset := 100 } : Engine Desc)._have_timing
      = true ∧
    (0 : Int) ≤ ex_run_env.adjustment ∧
    ((check_timing ex_run_env { ex_engine [] with _have_timing := true, _timing_offset := 100 }
        { ex_packet with timestamp_anno := 950 }).2 = false ↔
      ex_run_env.now 0 < 950 + 100) :=
  ⟨rfl, by decide,
    (timing_gate_never_early ex_run_env
      { ex_engine [] with _have_timing := true, _timing_offset := 100 }
      { ex_packet with timestamp_anno := 950 } rfl (by decide)).2.1⟩

/-! ## An inactive element -/

/-- C27. While `_active` is false, `run_task` returns false and `pull` returns no
packet, each leaving the whole engine as it was: no record read, no call made,
the work slot untouched.  When the `active` handler then sets `_active`, a
packet parked in the work slot is the packet that the loops take first, without
reading the source. -/
theorem inactive_does_no_work {D : Type} (re : RunEnv D) (fuel : Nat) (e : Engine D)
    (h : e._active = false) :
    run_task re fuel e = some (e, false) ∧
    pull re fuel e = some (e, none) ∧
    (∀ (p : Packet) (scheduled : Bool), e._work_packet = some p →
      (write_active re e true scheduled)._active = true ∧
      (write_active re e true scheduled)._work_packet = some p ∧
      (write_active re e true scheduled).rd._ff = e.rd._ff ∧
      next_packet re (write_active re e true scheduled)
        = some (write_active re e true scheduled, some p)) := by
  refine ⟨?_, ?_, ?_⟩
  · unfold run_task; rw [if_pos h]
  · unfold pull; rw [if_pos h]
  · intro p scheduled hw
    refine ⟨rfl, hw, rfl, ?_⟩
    unfold next_packet
    have : (write_active re e true scheduled)._work_packet = some p := hw
    rw [this]

theorem inactive_does_no_work_witness :
    ({ ex_engine (str "6 80\n") with
        _active := false
        _work_packet := some ex_packet } : Engine Desc)._active = false ∧
    run_task ex_run_env 5
        { ex_engine (str "6 80\n") with _active := false, _work_packet := some ex_packet }
      = some
        ({ ex_engine (str "6 80\n") with _active := false, _work_packet := some ex_packet },
          false) :=
  ⟨rfl,
    (inactive_does_no_work ex_run_env 5
      { ex_engine (str "6 80\n") with _active := false, _work_packet := some ex_packet }
      rfl).1⟩

/-! ## Sampling -/

theorem pushed_append (a b : List Effect) : pushed (a ++ b) = pushed a ++ pushed b := by
  induction a with
  | nil => rfl
  | cons x xs ih => cases x <;> simp [pushed, ih]

/-- The sampling test for a probability of at most `2^28`. -/
theorem sampling_keep_iff (prob r : Nat) (hp : prob ≤ 2 ^ 28) :
    sampling_keep prob r = true ↔ r % 2 ^ 28 < prob := by
  have hs : 1 <<< SAMPLING_SHIFT = 2 ^ 28 := by decide
  have hm : r &&& (2 ^ 28 - 1) = r % 2 ^ 28 := Nat.and_pow_two_sub_one_eq_mod r 28
  unfold sampling_keep
  rw [hs, hm]
  have hlt : r % 2 ^ 28 < 2 ^ 28 := Nat.mod_lt _ (by decide)
  simp only [Bool.or_eq_true, decide_eq_true_eq]
  omega

/-- The test that the loops run is the sampling test on the next draw. -/
theorem sample_eq {D : Type} (re : RunEnv D) (e : Engine D) :
    (sample re e).2 = sampling_keep e._sampling_prob (re.click_random e.random_draws) ∧
    (sample re e).1._sampling_prob = e._sampling_prob ∧
    (sample re e).1.effects = e.effects ∧
    (sample re e).1.rd = e.rd ∧
    (sample re e).1._work_packet = e._work_packet ∧
    (sample re e).1._timing = e._timing ∧
    (sample re e).1._multipacket = e._multipacket := by
  unfold sample
  split
  · rename_i h
    refine ⟨?_, rfl, rfl, rfl, rfl, rfl, rfl⟩
    unfold sampling_keep
    simp [h]
  · exact ⟨rfl, rfl, rfl, rfl, rfl, rfl, rfl⟩

/-! ## The field order indexes the field list, always -/

theorem bang_data_indexed {D : Type} (env : Env D) (s : State D) (line : Str) :
    fields_indexed (bang_data env s line) := by
  intro i hi
  rw [bang_data_field_order_eq] at hi
  have := (click_qsort_perm _ _).mem_iff.mp hi
  exact List.mem_range.mp this

theorem bang_flowid_fields {D : Type} (env : Env D) (s : State D) (line : Str) :
    (bang_flowid env s line)._fields = s._fields ∧
    (bang_flowid env s line)._field_order = s._field_order := by
  simp only [bang_flowid]
  split
  · exact ⟨rfl, rfl⟩
  · split
    · split <;> exact ⟨rfl, rfl⟩
    · exact ⟨rfl, rfl⟩

theorem bang_aggregate_fields {D : Type} (env : Env D) (s : State D) (line : Str) :
    (bang_aggregate env s line)._fields = s._fields ∧
    (bang_aggregate env s line)._field_order = s._field_order := by
  simp only [bang_aggregate]
  split
  · exact ⟨rfl, rfl⟩
  · split <;> exact ⟨rfl, rfl⟩

theorem parse_bang_indexed {D : Type} (env : Env D) (s : State D) (line : Str)
    (h : fields_indexed s) : fields_indexed (parse_bang env s line) := by
  unfold parse_bang
  split
  · exact bang_data_indexed _ _ _
  · split
    · unfold fields_indexed
      rw [(bang_flowid_fields env s line).1, (bang_flowid_fields env s line).2]
      exact h
    · split
      · unfold fields_indexed
        rw [(bang_aggregate_fields env s line).1, (bang_aggregate_fields env s line).2]
        exact h
      · split
        · exact h
        · split
          · exact bang_data_indexed _ _ _
          · exact h

theorem read_binary_fields {D : Type} (s : State D) (line : Str) :
    (read_binary s line).1._fields = s._fields ∧
    (read_binary s line).1._field_order = s._field_order := by
  unfold read_binary
  dsimp only
  split
  · exact ⟨rfl, rfl⟩
  · split
    · exact ⟨rfl, rfl⟩
    · split <;> exact ⟨rfl, rfl⟩

theorem read_binary_indexed {D : Type} (s : State D) (line : Str) (h : fields_indexed s) :
    fields_indexed (read_binary s line).1 := by
  unfold fields_indexed
  rw [(read_binary_fields s line).1, (read_binary_fields s line).2]
  exact h

/-- The record loop keeps the invariant, and a packet line has cost the source
at least one byte. -/
theorem read_record_indexed {D : Type} (env : Env D) :
    ∀ (fuel : Nat) (s : State D) (line : Str) (r : State D × Record),
      fields_indexed s → read_record env fuel s line = some r →
      fields_indexed r.1 ∧
      (r.2 ≠ Record.eof → r.1._ff.input.length < s._ff.input.length) := by
  intro fuel
  induction fuel with
  | zero => intro s line r _ h; simp [read_record] at h
  | succ fuel ih =>
    intro s line r hw h
    have hbw := read_binary_indexed s line hw
    unfold read_record at h
    dsimp only at h
    split at h
    · split at h
      · cases h; exact ⟨hbw, fun hne => absurd rfl hne⟩
      · rename_i hrc
        have hc := read_binary_consumes s line hrc
        split at h
        · have := ih _ _ _ hbw h
          exact ⟨this.1, fun hne => lt_trans (this.2 hne) hc⟩
        · split at h
          · cases h; exact ⟨hbw, fun _ => hc⟩
          · split at h
            · have := ih _ _ _ (parse_bang_indexed env _ _ hbw) h
              refine ⟨this.1, fun hne => ?_⟩
              have h2 := this.2 hne
              rw [parse_bang_input] at h2
              exact lt_trans h2 hc
            · have := ih _ _ _ hbw h
              exact ⟨this.1, fun hne => lt_trans (this.2 hne) hc⟩
    · split at h
      · cases h; exact ⟨hw, fun hne => absurd rfl hne⟩
      · rename_i hrc
        have hc := read_line_consumes s._ff hrc
        have hw1 : fields_indexed ({ s with _ff := s._ff.read_line.1 } : State D) := hw
        split at h
        · have := ih _ _ _ hw1 h
          exact ⟨this.1, fun hne => lt_trans (this.2 hne) hc⟩
        · split at h
          · cases h; exact ⟨hw1, fun _ => hc⟩
          · split at h
            · have := ih _ _ _ (parse_bang_indexed env _ _ hw1) h
              refine ⟨this.1, fun hne => ?_⟩
              have h2 := this.2 hne
              rw [parse_bang_input] at h2
              exact lt_trans h2 hc
            · have := ih _ _ _ hw1 h
              exact ⟨this.1, fun hne => lt_trans (this.2 hne) hc⟩

/-- Under the invariant, pass 1 indexes nothing out of bounds and calls no null
parser: both branches of `read_packet` are defined. -/
theorem pass1_defined {D : Type} (env : Env D) (s : State D) (line : Str) (d : D)
    (h : fields_indexed s) :
    (assemble_ascii env s line d).isSome = true ∧
    (assemble_binary env s line d).isSome = true := by
  constructor
  · obtain ⟨r, hr, _⟩ := inject_ascii_log env s._fields (tokenize s._fields.length line)
      (tokenize_length _ _) s._field_order d 0 h
    unfold assemble_ascii
    rw [hr]; rfl
  · obtain ⟨r, hr, _⟩ := inject_binary_log env s._fields (Line.mk env.buf line)
      (slice_binary (Line.mk env.buf line) s._fields env.buf d).1
      (slice_binary_length _ _ _ _) (slice_binary_inb _ _ _ _) s._field_order
      (slice_binary (Line.mk env.buf line) s._fields env.buf d).2.2 0 h
    unfold assemble_binary
    dsimp only
    rw [hr]; rfl

/-- Under the invariant, the part of `read_packet` after the record loop returns,
keeps the invariant and takes nothing from the source. -/
theorem read_packet_line_indexed {D : Type} (env : Env D) (s : State D) (line : Str)
    (binary : Bool) (h : fields_indexed s) :
    ∃ r, read_packet_line env s line binary = some r ∧ fields_indexed r.1 ∧
      r.1._ff.input = s._ff.input ∧ r.1._ff.initialized = s._ff.initialized := by
  unfold read_packet_line
  split
  · exact ⟨_, rfl, h, rfl, rfl⟩
  · rename_i d0 _
    have hp := pass1_defined env s line d0 h
    dsimp only
    split
    · rename_i hn
      exfalso
      split at hn
      · rw [Option.map_eq_none'] at hn
        rw [hn] at hp
        cases hp.2
      · rw [Option.map_eq_none'] at hn
        rw [hn] at hp
        cases hp.1
    · split
      · split
        · exact ⟨_, rfl, h, rfl, rfl⟩
        · exact ⟨_, rfl, h, rfl, rfl⟩
      · exact ⟨_, rfl, h, rfl, rfl⟩

/-- Under the invariant, `read_packet` returns and keeps the invariant; either it
has taken at least one byte from the source, or it has found the end of the
source, closed it and returned no packet. -/
theorem read_packet_indexed {D : Type} (env : Env D) (s : State D) (h : fields_indexed s) :
    ∃ r, read_packet env s = some r ∧ fields_indexed r.1 ∧
      (r.1._ff.input.length < s._ff.input.length ∨
        (r.2 = none ∧ r.1._ff.initialized = false)) := by
  unfold read_packet read_packet_fuel
  have hsome := read_packet_fuel_suffices env s []
  cases hr : read_record env (s._ff.input.length + 1) s [] with
  | none => rw [hr] at hsome; cases hsome
  | some r =>
    obtain ⟨s1, rec⟩ := r
    have hi := read_record_indexed env _ s [] (s1, rec) h hr
    cases rec with
    | eof => exact ⟨_, rfl, hi.1, Or.inr ⟨rfl, rfl⟩⟩
    | packet line binary =>
      obtain ⟨r2, hr2, hw2, hin, _⟩ := read_packet_line_indexed env s1 line binary hi.1
      refine ⟨r2, hr2, hw2, Or.inl ?_⟩
      rw [hin]
      exact hi.2 (by simp)

/-- On an exhausted line every argument still to collect is the empty string. -/
theorem tokenize_nil (k : Nat) : tokenize k [] = List.replicate k [] := by
  induction k with
  | zero => rfl
  | succ k ih =>
    have h0 : scan_token 0 [] = [] := rfl
    simp [tokenize, h0, ih, List.replicate_succ]

/-! ## The tokenizer ends and pads -/

/-- What `skip_quoted` returns is a tail of its input. -/
theorem skip_quoted_suffix : ∀ (data : Str) (escaped : Bool),
    List.IsSuffix (skip_quoted escaped data) data := by
  intro data
  induction data with
  | nil => intro escaped; cases escaped <;> simp [skip_quoted]
  | cons c rest ih =>
    intro escaped
    cases escaped with
    | true =>
      simp only [skip_quoted]
      exact (ih false).trans (List.suffix_cons c rest)
    | false =>
      simp only [skip_quoted]
      split
      · exact (ih true).trans (List.suffix_cons c rest)
      · split
        · exact List.suffix_cons c rest
        · exact (ih false).trans (List.suffix_cons c rest)

/-- With one unit of fuel per byte the inner loop of the tokenizer leaves through
its exit test: the cursor it returns stands at the end of the line or at a
whitespace byte, and it is a tail of the input; when the input starts with a
byte that is not whitespace, the cursor has moved. -/
theorem scan_token_exit : ∀ (fuel : Nat) (data : Str), data.length ≤ fuel →
    (scan_token fuel data = [] ∨
      ∃ c rest, scan_token fuel data = c :: rest ∧ isspace c = true) ∧
    List.IsSuffix (scan_token fuel data) data ∧
    (∀ c rest, data = c :: rest → isspace c = false →
      (scan_token fuel data).length < data.length) := by
  intro fuel
  induction fuel with
  | zero =>
    intro data h
    have : data = [] := List.length_eq_zero.mp (Nat.le_zero.mp h)
    subst this
    exact ⟨Or.inl rfl, List.suffix_refl _, fun c rest e => by cases e⟩
  | succ fuel ih =>
    intro data h
    cases data with
    | nil => exact ⟨Or.inl rfl, List.suffix_refl _, fun c rest e => by cases e⟩
    | cons c rest =>
      simp only [List.length_cons, Nat.add_le_add_iff_right] at h
      by_cases hs : isspace c = true
      · have e : scan_token (fuel + 1) (c :: rest) = c :: rest := by
          rw [scan_token, if_pos hs]
        rw [e]
        refine ⟨Or.inr ⟨c, rest, rfl, hs⟩, List.suffix_refl _, ?_⟩
        intro c' rest' e' hc'
        cases e'
        rw [hs] at hc'
        exact Bool.noConfusion hc'
      · by_cases hq : c = 34
        · have e : scan_token (fuel + 1) (c :: rest)
              = scan_token fuel (skip_quoted false rest) := by
            rw [scan_token, if_neg hs, if_pos hq]
            rfl
          have hl := skip_quoted_length rest false
          have hsuf := skip_quoted_suffix rest false
          obtain ⟨h1, h2, _⟩ := ih (skip_quoted false rest) (by omega)
          rw [e]
          refine ⟨h1, (h2.trans hsuf).trans (List.suffix_cons c rest), ?_⟩
          intro _ _ _ _
          have := h2.length_le
          simp only [List.length_cons]
          omega
        · have e : scan_token (fuel + 1) (c :: rest) = scan_token fuel rest := by
            rw [scan_token, if_neg hs, if_neg hq]
          obtain ⟨h1, h2, _⟩ := ih rest h
          rw [e]
          refine ⟨h1, h2.trans (List.suffix_cons c rest), ?_⟩
          intro _ _ _ _
          have := h2.length_le
          simp only [List.length_cons]
          omega

/-- From a cursor that does not stand at a whitespace byte, an empty argument
means that the line is exhausted, and every later argument is empty. -/
theorem tokenize_empty_trails : ∀ (k : Nat) (data : Str),
    (∀ c, data.head? = some c → isspace c = false) →
    ∀ i j : Nat, i ≤ j → j < k → (tokenize k data)[i]? = some [] →
      (tokenize k data)[j]? = some [] := by
  intro k
  induction k with
  | zero => intro data _ i j _ hj; omega
  | succ k ih =>
    intro data hh i j hij hj hi
    cases i with
    | zero =>
      simp only [tokenize, List.getElem?_cons_zero, Option.some.injEq] at hi
      have hd : data = [] := by
        cases data with
        | nil => rfl
        | cons c rest =>
          have hc := hh c rfl
          have hlt := (scan_token_exit (c :: rest).length (c :: rest) (le_refl _)).2.2
            c rest rfl hc
          have hlen := congrArg List.length hi
          simp only [List.length_take, List.length_nil] at hlen
          omega
      subst hd
      rw [tokenize_nil, List.getElem?_replicate]
      simp [hj]
    | succ i =>
      cases j with
      | zero => omega
      | succ j =>
        simp only [tokenize, List.getElem?_cons_succ] at hi ⊢
        exact ih _ (head_dropWhile_isspace _) i j (by omega) (by omega) hi

/-- Every empty argument after the first argument is followed by empty arguments
only. -/
theorem tokenize_padding (n : Nat) (line : Str) (i j : Nat) (h1 : 1 ≤ i) (hij : i ≤ j)
    (hj : j < n) (hi : (tokenize n line)[i]? = some []) : (tokenize n line)[j]? = some [] := by
  cases n with
  | zero => omega
  | succ n =>
    cases i with
    | zero => omega
    | succ i =>
      cases j with
      | zero => omega
      | succ j =>
        simp only [tokenize, List.getElem?_cons_succ] at hi ⊢
        exact tokenize_empty_trails n _ (head_dropWhile_isspace _) i j (by omega) (by omega) hi

/-- On a line without double quotes that does not start with whitespace, the
argument of every field past the last run is the empty string. -/
theorem tokenize_missing (n : Nat) (line : Str) (hq : 34 ∉ line)
    (hlead : ∀ c, line.head? = some c → isspace c = false) (i : Nat)
    (hk : (spec_runs line).length ≤ i) (hi : i < n) : (tokenize n line)[i]? = some [] := by
  rw [tokenize_eq_runs n line hq hlead]
  have h1 : ((spec_runs line).take n).length ≤ i := by
    simp only [List.length_take]; omega
  rw [List.getElem?_append_right h1, List.getElem?_replicate]
  simp only [List.length_take]
  rw [if_pos (by omega)]

/-- C28. In a state whose `_field_order` entries index `_fields` (the empty initial
state, every state that `bang_data` leaves, and every state that `read_packet`
leaves from such a state), for every record and both branches of `read_packet`:
the argument vector has exactly `_fields.size()` entries; on a text line
without double quotes that does not start with whitespace, the argument of
every field past the last token of the line is the empty string, and on every
text line an empty argument after the first is followed by empty arguments
only; from every cursor, the inner loop of the tokenizer leaves through its exit
test within one trip per byte, at the end of the line or at a whitespace byte,
the cursor a tail of where it started and moved when it started at a byte that
is not whitespace; every entry of `_field_order` indexes `_fields` and the
argument vector; pass 1 is defined; and `read_packet` returns, in a state with
the same property. -/
theorem argument_vector_bounds {D : Type} (env : Env D) (s : State D) (line : Str) (d : D)
    (h : fields_indexed s) :
    (tokenize s._fields.length line).length = s._fields.length ∧
    (slice_binary (Line.mk env.buf line) s._fields env.buf d).1.length = s._fields.length ∧
    (34 ∉ line → (∀ c, line.head? = some c → isspace c = false) →
      ∀ i : Nat, (spec_runs line).length ≤ i → i < s._fields.length →
        (tokenize s._fields.length line)[i]? = some []) ∧
    (∀ i j : Nat, 1 ≤ i → i ≤ j → j < s._fields.length →
      (tokenize s._fields.length line)[i]? = some [] →
        (tokenize s._fields.length line)[j]? = some []) ∧
    (∀ data : Str,
      (scan_token data.length data = [] ∨
        ∃ c rest, scan_token data.length data = c :: rest ∧ isspace c = true) ∧
      List.IsSuffix (scan_token data.length data) data ∧
      (∀ c rest, data = c :: rest → isspace c = false →
        (scan_token data.length data).length < data.length)) ∧
    (∀ i ∈ s._field_order,
      (s._fields[i]?).isSome = true ∧
      ((tokenize s._fields.length line)[i]?).isSome = true ∧
      ((slice_binary (Line.mk env.buf line) s._fields env.buf d).1[i]?).isSome = true) ∧
    (assemble_ascii env s line d).isSome = true ∧
    (assemble_binary env s line d).isSome = true ∧
    (∃ r, read_packet env s = some r ∧ fields_indexed r.1) := by
  have ht := tokenize_length s._fields.length line
  have hs := slice_binary_length (Line.mk env.buf line) s._fields env.buf d
  have hp := pass1_defined env s line d h
  obtain ⟨r, hr, hw, _⟩ := read_packet_indexed env s h
  refine ⟨ht, hs, ?_, ?_, ?_, ?_, hp.1, hp.2, r, hr, hw⟩
  · intro hq hlead i hk hi
    exact tokenize_missing _ line hq hlead i hk hi
  · intro i j h1 hij hj hi
    exact tokenize_padding _ line i j h1 hij hj hi
  · intro data
    exact scan_token_exit data.length data (le_refl _)
  · intro i hi
    have hlt := h i hi
    refine ⟨?_, ?_, ?_⟩
    · rw [List.getElem?_eq_getElem hlt]; rfl
    · rw [List.getElem?_eq_getElem (by rw [ht]; exact hlt)]; rfl
    · rw [List.getElem?_eq_getElem (by rw [hs]; exact hlt)]; rfl

/-- C28 at the sample state with two fields, for the record `6` with one token:
two arguments, the second empty; the inner loop, started at `6 80`, stops at the
blank. -/
theorem argument_vector_bounds_witness :
    fields_indexed (ex_text_state []) ∧
    (ex_text_state [])._fields.length = 2 ∧
    (tokenize (ex_text_state [])._fields.length (str "6")).length
      = (ex_text_state [])._fields.length ∧
    spec_runs (str "6") = [str "6"] ∧
    (tokenize (ex_text_state [])._fields.length (str "6"))[1]? = some [] ∧
    tokenize (ex_text_state [])._fields.length (str "6") = [str "6", []] ∧
    ((scan_token (str "6 80").length (str "6 80") = [] ∨
        ∃ c rest, scan_token (str "6 80").length (str "6 80") = c :: rest ∧
          isspace c = true) ∧
      List.IsSuffix (scan_token (str "6 80").length (str "6 80")) (str "6 80") ∧
      (∀ c rest, str "6 80" = c :: rest → isspace c = false →
        (scan_token (str "6 80").length (str "6 80")).length < (str "6 80").length)) ∧
    scan_token (str "6 80").length (str "6 80") = str " 80" ∧
    (assemble_ascii ex_env (ex_text_state []) (str "6") ex_d0).isSome = true ∧
    (assemble_binary ex_env (ex_text_state []) (str "6") ex_d0).isSome = true :=
  ⟨bang_data_indexed _ _ _, by decide,
    (argument_vector_bounds ex_env (ex_text_state []) (str "6") ex_d0
      (bang_data_indexed _ _ _)).1,
    by decide,
    (argument_vector_bounds ex_env (ex_text_state []) (str "6") ex_d0
      (bang_data_indexed _ _ _)).2.2.1 (by decide) (by decide) 1 (by decide) (by decide),
    by decide,
    (argument_vector_bounds ex_env (ex_text_state []) (str "6") ex_d0
      (bang_data_indexed _ _ _)).2.2.2.2.1 (str "6 80"),
    by decide,
    (argument_vector_bounds ex_env (ex_text_state []) (str "6") ex_d0
      (bang_data_indexed _ _ _)).2.2.2.2.2.2.1,
    (argument_vector_bounds ex_env (ex_text_state []) (str "6") ex_d0
      (bang_data_indexed _ _ _)).2.2.2.2.2.2.2.1⟩

/-- What `check_timing` leaves as it was; it hands no packet to the output. -/
theorem check_timing_frame {D : Type} (re : RunEnv D) (e : Engine D) (p : Packet) :
    (check_timing re e p).1.rd = e.rd ∧
    (check_timing re e p).1._sampling_prob = e._sampling_prob ∧
    (check_timing re e p).1._timing = e._timing ∧
    (check_timing re e p).1._multipacket = e._multipacket ∧
    pushed (check_timing re e p).1.effects = pushed e.effects := by
  unfold check_timing
  cases hpull : re.output_is_pull <;> by_cases hh : e._have_timing = true <;>
    simp only [hh, if_true, if_false, Bool.false_eq_true] <;>
    (split
     · split <;> refine ⟨rfl, rfl, rfl, rfl, ?_⟩ <;> simp [pushed_append, pushed]
     · exact ⟨rfl, rfl, rfl, rfl, rfl⟩)

/-- What `handle_multipacket` leaves as it was. -/
theorem handle_multipacket_frame {D : Type} (re : RunEnv D) (e : Engine D) (p : Option Packet)
    (r : Engine D × Option Packet) (h : handle_multipacket re e p = some r) :
    r.1.rd = e.rd ∧ r.1._sampling_prob = e._sampling_prob ∧ r.1._timing = e._timing ∧
    r.1._multipacket = e._multipacket ∧ r.1.effects = e.effects := by
  unfold handle_multipacket at h
  split at h
  · cases h; exact ⟨rfl, rfl, rfl, rfl, rfl⟩
  · split at h
    · cases h; exact ⟨rfl, rfl, rfl, rfl, rfl⟩
    · dsimp only at h
      split at h
      · split at h
        · cases h
        · rename_i e1 p1 hs
          have he1 : e1.rd = e.rd ∧ e1._sampling_prob = e._sampling_prob ∧
              e1._timing = e._timing ∧ e1._multipacket = e._multipacket ∧
              e1.effects = e.effects := by
            unfold multipacket_setup at hs
            split at hs
            · cases hs
            · cases hs; exact ⟨rfl, rfl, rfl, rfl, rfl⟩
          split at h
          · cases h; exact he1
          · cases h
            unfold multipacket_emit
            dsimp only
            split <;> exact he1
      · cases h
        unfold multipacket_emit
        dsimp only
        split <;> exact ⟨rfl, rfl, rfl, rfl, rfl⟩

/-- What taking the next packet leaves as it was. -/
theorem next_packet_frame {D : Type} (re : RunEnv D) (e : Engine D)
    (r : Engine D × Option Packet) (h : next_packet re e = some r) :
    r.1._sampling_prob = e._sampling_prob ∧ r.1._timing = e._timing ∧
    r.1._multipacket = e._multipacket ∧ r.1.effects = e.effects ∧
    r.1._work_packet = e._work_packet := by
  unfold next_packet at h
  split at h
  · cases h; exact ⟨rfl, rfl, rfl, rfl, rfl⟩
  · split at h
    · cases h
    · cases h; exact ⟨rfl, rfl, rfl, rfl, rfl⟩

/-- With a sampling probability of zero, the test of the loops fails. -/
theorem sample_zero {D : Type} (re : RunEnv D) (e : Engine D) (h : e._sampling_prob = 0) :
    (sample re e).2 = false := by
  rw [(sample_eq re e).1, h]
  have := (sampling_keep_iff 0 (re.click_random e.random_draws) (by decide))
  cases hk : sampling_keep 0 (re.click_random e.random_draws)
  · rfl
  · have := this.mp hk
    omega

/-- What the timing test of the loops leaves as it was. -/
theorem timing_gate_frame {D : Type} (re : RunEnv D) (e : Engine D) (p : Option Packet) :
    (timing_gate re e p).1.rd = e.rd ∧
    (timing_gate re e p).1._sampling_prob = e._sampling_prob ∧
    (timing_gate re e p).1._timing = e._timing ∧
    (timing_gate re e p).1._multipacket = e._multipacket ∧
    pushed (timing_gate re e p).1.effects = pushed e.effects := by
  unfold timing_gate
  split
  · split
    · exact check_timing_frame re e _
    · exact ⟨rfl, rfl, rfl, rfl, rfl⟩
  · exact ⟨rfl, rfl, rfl, rfl, rfl⟩

/-- What the expansion step of the loops leaves as it was. -/
theorem expand_frame {D : Type} (re : RunEnv D) (e : Engine D) (p : Option Packet)
    (r : Engine D × Option Packet) (h : expand re e p = some r) :
    r.1.rd = e.rd ∧ r.1._sampling_prob = e._sampling_prob ∧ r.1._timing = e._timing ∧
    r.1._multipacket = e._multipacket ∧ r.1.effects = e.effects := by
  unfold expand at h
  split at h
  · exact handle_multipacket_frame re e p r h
  · cases h; exact ⟨rfl, rfl, rfl, rfl, rfl⟩

/-- Dropping a packet hands none to the output. -/
theorem kill_packet_frame {D : Type} (e : Engine D) (p : Option Packet) :
    (kill_packet e p).rd = e.rd ∧ (kill_packet e p)._sampling_prob = e._sampling_prob ∧
    (kill_packet e p)._timing = e._timing ∧ (kill_packet e p)._multipacket = e._multipacket ∧
    (kill_packet e p)._work_packet = e._work_packet ∧
    pushed (kill_packet e p).effects = pushed e.effects := by
  refine ⟨rfl, rfl, rfl, rfl, rfl, ?_⟩
  unfold kill_packet
  dsimp only
  rw [pushed_append]
  split <;> simp [pushed]

/-- With a sampling probability of zero, `pull` returns no packet and hands none
to the output, whenever it returns. -/
theorem pull_loop_sample_zero {D : Type} (re : RunEnv D) :
    ∀ (fuel : Nat) (e : Engine D) (r : Engine D × Option Packet),
      e._sampling_prob = 0 → pull_loop re fuel e = some r →
      r.2 = none ∧ pushed r.1.effects = pushed e.effects := by
  intro fuel
  induction fuel with
  | zero => intro e r _ h; simp [pull_loop] at h
  | succ fuel ih =>
    intro e r hz h
    unfold pull_loop at h
    split at h
    · cases h
    · rename_i e1 p hn
      have hf := next_packet_frame re e (e1, p) hn
      have htc := timing_gate_frame re e1 p
      split at h
      · cases h
        refine ⟨rfl, ?_⟩
        dsimp only
        rw [pushed_append, hf.2.2.2.1]
        split <;> simp [pushed]
      · dsimp only at h
        split at h
        · cases h
          exact ⟨rfl, by rw [htc.2.2.2.2, hf.2.2.2.1]⟩
        · split at h
          · cases h
          · rename_i e2 p1 hm
            have hm2 := expand_frame re _ p (e2, p1) hm
            have hz2 : e2._sampling_prob = 0 := by
              rw [hm2.2.1, htc.2.1, hf.1, hz]
            have hs := sample_zero re e2 hz2
            rw [hs] at h
            simp only [Bool.false_eq_true, if_false] at h
            have hk := kill_packet_frame (sample re e2).1 p1
            have := ih _ r (by rw [hk.2.1, (sample_eq re e2).2.1]; exact hz2) h
            refine ⟨this.1, ?_⟩
            rw [this.2, hk.2.2.2.2.2, (sample_eq re e2).2.2.1, hm2.2.2.2.2, htc.2.2.2.2,
              hf.2.2.2.1]

/-- With a sampling probability of zero, `run_task` hands no packet to the output,
whenever it returns. -/
theorem run_task_loop_sample_zero {D : Type} (re : RunEnv D) :
    ∀ (fuel : Nat) (e : Engine D) (r : Engine D × Bool),
      e._sampling_prob = 0 → run_task_loop re fuel e = some r →
      pushed r.1.effects = pushed e.effects := by
  intro fuel
  induction fuel with
  | zero => intro e r _ h; simp [run_task_loop] at h
  | succ fuel ih =>
    intro e r hz h
    unfold run_task_loop at h
    split at h
    · cases h
    · rename_i e1 p hn
      have hf := next_packet_frame re e (e1, p) hn
      have htc := timing_gate_frame re e1 p
      split at h
      · cases h
        dsimp only
        rw [pushed_append, hf.2.2.2.1]
        split <;> simp [pushed]
      · split at h
        · cases h
          dsimp only
          rw [pushed_append, hf.2.2.2.1]
          simp [pushed]
        · dsimp only at h
          split at h
          · cases h
            rw [htc.2.2.2.2, hf.2.2.2.1]
          · split at h
            · cases h
            · rename_i e2 p1 hm
              have hm2 := expand_frame re _ p (e2, p1) hm
              have hz2 : e2._sampling_prob = 0 := by
                rw [hm2.2.1, htc.2.1, hf.1, hz]
              have hs := sample_zero re e2 hz2
              rw [hs] at h
              simp only [Bool.false_eq_true, if_false] at h
              have hk := kill_packet_frame (sample re e2).1 p1
              have := ih _ r (by rw [hk.2.1, (sample_eq re e2).2.1]; exact hz2) h
              rw [this, hk.2.2.2.2.2, (sample_eq re e2).2.2.1, hm2.2.2.2.2, htc.2.2.2.2,
                hf.2.2.2.1]

/-- With the timing gate and the expansion off and the work slot empty, one trip
of the loops reads one record: the engine after `next_packet`. -/
theorem next_packet_reads {D : Type} (re : RunEnv D) (e : Engine D) (h : fields_indexed e.rd)
    (hw : e._work_packet = none) :
    ∃ r, read_packet re.env e.rd = some r ∧
      next_packet re e = some ({ e with rd := r.1 }, r.2.map re.packet_of) ∧
      fields_indexed r.1 ∧
      (r.1._ff.input.length < e.rd._ff.input.length ∨
        (r.2 = none ∧ r.1._ff.initialized = false)) := by
  obtain ⟨r, hr, hi, hc⟩ := read_packet_indexed re.env e.rd h
  refine ⟨r, hr, ?_, hi, hc⟩
  unfold next_packet
  rw [hw, hr]

/-- With a sampling probability of zero, the timing gate and the expansion off and
the work slot empty, `pull` returns within one trip per unread byte and one
more, with the source closed, after one call of `read_packet` or more, the last
of which gives no packet. -/
theorem pull_loop_reaches_eof {D : Type} (re : RunEnv D) :
    ∀ (fuel : Nat) (e : Engine D), fields_indexed e.rd → e._sampling_prob = 0 →
      e._timing = false → e._multipacket = false → e._work_packet = none →
      e.rd._ff.input.length < fuel →
      ∃ r, pull_loop re fuel e = some r ∧ r.1.rd._ff.initialized = false ∧
        ∃ n : Nat, r.1.rd = read_packets re.env (n + 1) e.rd ∧
          read_packet re.env (read_packets re.env n e.rd) = some (r.1.rd, none) := by
  intro fuel
  induction fuel with
  | zero => intro e _ _ _ _ _ h; omega
  | succ fuel ih =>
    intro e hi hz ht hm hw hlen
    obtain ⟨r0, hr0, hn, hi0, hc⟩ := next_packet_reads re e hi hw
    have hone : ∀ n : Nat, read_packets re.env (n + 1) e.rd = read_packets re.env n r0.1 := by
      intro n
      simp only [read_packets, hr0]
    have hlast : (r0.2.map re.packet_of).isNone = true →
        read_packet re.env (read_packets re.env 0 e.rd) = some (r0.1, none) := by
      intro hnone
      have h2 : r0.2 = none := by
        cases h2 : r0.2 with
        | none => rfl
        | some d => rw [h2] at hnone; exact Bool.noConfusion hnone
      show read_packet re.env e.rd = some (r0.1, none)
      rw [hr0, ← h2]
    unfold pull_loop
    rw [hn]
    dsimp only
    by_cases hend : (r0.2.map re.packet_of).isNone = true ∧ r0.1._ff.initialized = false
    · rw [if_pos hend]
      exact ⟨_, rfl, hend.2, 0, by rw [hone 0]; rfl, hlast hend.1⟩
    · rw [if_neg hend]
      have hlt : r0.1._ff.input.length < e.rd._ff.input.length := by
        rcases hc with hc | hc
        · exact hc
        · exfalso
          apply hend
          rw [hc.1]
          exact ⟨rfl, hc.2⟩
      have htg : timing_gate re { e with rd := r0.1 } (r0.2.map re.packet_of)
          = ({ e with rd := r0.1 }, true) := by
        unfold timing_gate
        split
        · rw [if_neg (by simp [ht])]
        · rfl
      rw [htg]
      dsimp only
      rw [if_neg (by simp)]
      have hex : expand re { e with rd := r0.1 } (r0.2.map re.packet_of)
          = some ({ e with rd := r0.1 }, r0.2.map re.packet_of) := by
        unfold expand
        rw [if_neg (by simp [hm])]
      rw [hex]
      dsimp only
      have hs := sample_zero re { e with rd := r0.1 } hz
      have hse := sample_eq re { e with rd := r0.1 }
      rw [hs]
      simp only [Bool.false_eq_true, if_false]
      have hk := kill_packet_frame (sample re { e with rd := r0.1 }).1 (r0.2.map re.packet_of)
      have hrd : (kill_packet (sample re { e with rd := r0.1 }).1 (r0.2.map re.packet_of)).rd
          = r0.1 := by rw [hk.1, hse.2.2.2.1]
      obtain ⟨r, hr, hinit, n, hn2, hn3⟩ := ih
        (kill_packet (sample re { e with rd := r0.1 }).1 (r0.2.map re.packet_of))
        (by rw [hrd]; exact hi0)
        (by rw [hk.2.1, hse.2.1]; exact hz)
        (by rw [hk.2.2.1, hse.2.2.2.2.2.1]; exact ht)
        (by rw [hk.2.2.2.1, hse.2.2.2.2.2.2]; exact hm)
        (by rw [hk.2.2.2.2.1, hse.2.2.2.2.1]; exact hw)
        (by rw [hrd]; omega)
      rw [hrd] at hn2 hn3
      exact ⟨r, hr, hinit, n + 1, by rw [hone (n + 1)]; exact hn2, by rw [hone n]; exact hn3⟩

/-- With a sampling probability of zero, the timing gate and the expansion off and
the work slot empty, `run_task` returns within one trip per unread byte and one
more, after one call of `read_packet` or more, the last of which gives no
packet; it returns whether the source is still open. -/
theorem run_task_loop_returns {D : Type} (re : RunEnv D) :
    ∀ (fuel : Nat) (e : Engine D), fields_indexed e.rd → e._sampling_prob = 0 →
      e._timing = false → e._multipacket = false → e._work_packet = none →
      e.rd._ff.input.length < fuel →
      ∃ r, run_task_loop re fuel e = some r ∧ r.2 = r.1.rd._ff.initialized ∧
        ∃ n : Nat, r.1.rd = read_packets re.env (n + 1) e.rd ∧
          read_packet re.env (read_packets re.env n e.rd) = some (r.1.rd, none) := by
  intro fuel
  induction fuel with
  | zero => intro e _ _ _ _ _ h; omega
  | succ fuel ih =>
    intro e hi hz ht hm hw hlen
    obtain ⟨r0, hr0, hn, hi0, hc⟩ := next_packet_reads re e hi hw
    have hone : ∀ n : Nat, read_packets re.env (n + 1) e.rd = read_packets re.env n r0.1 := by
      intro n
      simp only [read_packets, hr0]
    have hlast : (r0.2.map re.packet_of).isNone = true →
        read_packet re.env (read_packets re.env 0 e.rd) = some (r0.1, none) := by
      intro hnone
      have h2 : r0.2 = none := by
        cases h2 : r0.2 with
        | none => rfl
        | some d => rw [h2] at hnone; exact Bool.noConfusion hnone
      show read_packet re.env e.rd = some (r0.1, none)
      rw [hr0, ← h2]
    unfold run_task_loop
    rw [hn]
    dsimp only
    by_cases hend : (r0.2.map re.packet_of).isNone = true ∧ r0.1._ff.initialized = false
    · rw [if_pos hend]
      exact ⟨_, rfl, hend.2.symm, 0, by rw [hone 0]; rfl, hlast hend.1⟩
    · rw [if_neg hend]
      by_cases hnone : (r0.2.map re.packet_of).isNone = true
      · rw [if_pos hnone]
        refine ⟨_, rfl, ?_, 0, by rw [hone 0]; rfl, hlast hnone⟩
        show true = r0.1._ff.initialized
        cases hinit : r0.1._ff.initialized
        · exact absurd ⟨hnone, hinit⟩ hend
        · rfl
      · rw [if_neg hnone]
        have hlt : r0.1._ff.input.length < e.rd._ff.input.length := by
          rcases hc with hc | hc
          · exact hc
          · exfalso
            apply hend
            rw [hc.1]
            exact ⟨rfl, hc.2⟩
        have htg : timing_gate re { e with rd := r0.1 } (r0.2.map re.packet_of)
            = ({ e with rd := r0.1 }, true) := by
          unfold timing_gate
          split
          · rw [if_neg (by simp [ht])]
          · rfl
        rw [htg]
        dsimp only
        rw [if_neg (by simp)]
        have hex : expand re { e with rd := r0.1 } (r0.2.map re.packet_of)
            = some ({ e with rd := r0.1 }, r0.2.map re.packet_of) := by
          unfold expand
          rw [if_neg (by simp [hm])]
        rw [hex]
        dsimp only
        have hs := sample_zero re { e with rd := r0.1 } hz
        have hse := sample_eq re { e with rd := r0.1 }
        rw [hs]
        simp only [Bool.false_eq_true, if_false]
        have hk := kill_packet_frame (sample re { e with rd := r0.1 }).1 (r0.2.map re.packet_of)
        have hrd : (kill_packet (sample re { e with rd := r0.1 }).1 (r0.2.map re.packet_of)).rd
            = r0.1 := by rw [hk.1, hse.2.2.2.1]
        obtain ⟨r, hr, hinit, n, hn2, hn3⟩ := ih
          (kill_packet (sample re { e with rd := r0.1 }).1 (r0.2.map re.packet_of))
          (by rw [hrd]; exact hi0)
          (by rw [hk.2.1, hse.2.1]; exact hz)
          (by rw [hk.2.2.1, hse.2.2.2.2.2.1]; exact ht)
          (by rw [hk.2.2.2.1, hse.2.2.2.2.2.2]; exact hm)
          (by rw [hk.2.2.2.2.1, hse.2.2.2.2.1]; exact hw)
          (by rw [hrd]; omega)
        rw [hrd] at hn2 hn3
        exact ⟨r, hr, hinit, n + 1, by rw [hone (n + 1)]; exact hn2, by rw [hone n]; exact hn3⟩

/-- The draws that keep a packet, among the `2^28` values of a 28-bit draw. -/
theorem sampling_keep_card (prob : Nat) (hp : prob ≤ 2 ^ 28) :
    ((Finset.range (2 ^ 28)).filter (fun r => sampling_keep prob r = true)).card = prob := by
  have : (Finset.range (2 ^ 28)).filter (fun r => sampling_keep prob r = true)
      = Finset.range prob := by
    ext r
    simp only [Finset.mem_filter, Finset.mem_range, sampling_keep_iff prob r hp]
    constructor
    · intro h
      have := Nat.mod_eq_of_lt h.1
      omega
    · intro h
      have h1 : r < 2 ^ 28 := by omega
      have := Nat.mod_eq_of_lt h1
      exact ⟨h1, by omega⟩
  rw [this, Finset.card_range]

/-- One trip of the loop of `run_task` with a packet at hand that passes the
timing gate: when the sampling test succeeds the loop ends, the packet is
pushed and the task rescheduled; when it fails the packet is killed and the
loop goes on. -/
theorem run_task_loop_step {D : Type} (re : RunEnv D) (e e1 e2 : Engine D) (p : Packet)
    (p1 : Option Packet) (fuel : Nat) :
    next_packet re e = some (e1, some p) → (timing_gate re e1 (some p)).2 = true →
    expand re (timing_gate re e1 (some p)).1 (some p) = some (e2, p1) →
    run_task_loop re (fuel + 1) e
      = if (sample re e2).2 = true then
          some
            ({ (sample re e2).1 with
                effects := (sample re e2).1.effects ++
                  ((match p1 with
                    | some q => [Effect.push q]
                    | none => []) ++ [Effect.task_fast_reschedule]) },
              true)
        else run_task_loop re fuel (kill_packet (sample re e2).1 p1) := by
  intro hn hg hx
  rw [run_task_loop, hn]
  dsimp only
  rw [if_neg (by simp), if_neg (by simp), if_neg (by simp [hg]), hx]

/-- One trip of the loop of `pull` with a packet at hand that passes the timing
gate: when the sampling test succeeds the loop ends, the notifier is woken and
the packet returned; when it fails the packet is killed and the loop goes
on. -/
theorem pull_loop_step {D : Type} (re : RunEnv D) (e e1 e2 : Engine D) (p : Packet)
    (p1 : Option Packet) (fuel : Nat) :
    next_packet re e = some (e1, some p) → (timing_gate re e1 (some p)).2 = true →
    expand re (timing_gate re e1 (some p)).1 (some p) = some (e2, p1) →
    pull_loop re (fuel + 1) e
      = if (sample re e2).2 = true then
          some ({ (sample re e2).1 with
            effects := (sample re e2).1.effects ++ [Effect.notifier_wake] }, p1)
        else pull_loop re fuel (kill_packet (sample re e2).1 p1) := by
  intro hn hg hx
  rw [pull_loop, hn]
  dsimp only
  rw [if_neg (by simp), if_neg (by simp [hg]), hx]

/-- C25. For a sampling probability of at most `2^28`.  The test that both loops
run succeeds if and only if the draw modulo `2^28` is below the probability,
exactly that many of the `2^28` values of a 28-bit draw keep a packet, and a
probability of `2^28` keeps every packet.  In a trip of either loop with a
packet at hand that passes the timing gate and the expansion, the loop hands
the packet on (`run_task` pushes it and reschedules the task, `pull` wakes the
notifier and returns it) when the draw modulo `2^28` is below the probability,
and otherwise kills it and goes on with the next trip; the calls made are
exactly these.  With a probability of zero neither loop ever hands a packet on,
whatever the configuration; and with the timing gate and the expansion off and
the work slot empty, as soon as the fuel exceeds the number of unread bytes,
`pull` returns no packet with the source closed and `run_task` returns whether
the source is still open, each after one call of `read_packet` or more, the
reader left as these calls leave it and the last of them giving no packet. -/
theorem sampling_rule {D : Type} (re : RunEnv D) (e : Engine D)
    (hp : e._sampling_prob ≤ 2 ^ 28) :
    ((sample re e).2 = true ↔ re.click_random e.random_draws % 2 ^ 28 < e._sampling_prob) ∧
    ((Finset.range (2 ^ 28)).filter (fun r => sampling_keep e._sampling_prob r = true)).card
      = e._sampling_prob ∧
    (e._sampling_prob = 2 ^ 28 → (sample re e).2 = true) ∧
    (∀ (e1 e2 : Engine D) (p : Packet) (p1 : Option Packet) (fuel : Nat),
      next_packet re e = some (e1, some p) → (timing_gate re e1 (some p)).2 = true →
      expand re (timing_gate re e1 (some p)).1 (some p) = some (e2, p1) →
      (re.click_random e2.random_draws % 2 ^ 28 < e._sampling_prob →
        run_task_loop re (fuel + 1) e
          = some
              ({ (sample re e2).1 with
                  effects := e2.effects ++
                    ((match p1 with
                      | some q => [Effect.push q]
                      | none => []) ++ [Effect.task_fast_reschedule]) },
                true) ∧
        pull_loop re (fuel + 1) e
          = some ({ (sample re e2).1 with
              effects := e2.effects ++ [Effect.notifier_wake] }, p1)) ∧
      (¬ re.click_random e2.random_draws % 2 ^ 28 < e._sampling_prob →
        run_task_loop re (fuel + 1) e
          = run_task_loop re fuel (kill_packet (sample re e2).1 p1) ∧
        pull_loop re (fuel + 1) e = pull_loop re fuel (kill_packet (sample re e2).1 p1) ∧
        (kill_packet (sample re e2).1 p1).effects
          = e2.effects ++
              (match p1 with
                | some q => [Effect.kill q]
                | none => []) ∧
        (kill_packet (sample re e2).1 p1).random_draws = e2.random_draws + 1)) ∧
    (e._sampling_prob = 0 →
      (sample re e).2 = false ∧
      (∀ (fuel : Nat) (r : Engine D × Option Packet), pull_loop re fuel e = some r →
        r.2 = none ∧ pushed r.1.effects = pushed e.effects) ∧
      (∀ (fuel : Nat) (r : Engine D × Bool), run_task_loop re fuel e = some r →
        pushed r.1.effects = pushed e.effects) ∧
      (fields_indexed e.rd → e._timing = false → e._multipacket = false →
        e._work_packet = none → ∀ fuel : Nat, e.rd._ff.input.length < fuel →
        (∃ r, pull_loop re fuel e = some r ∧ r.2 = none ∧
          r.1.rd._ff.initialized = false ∧ pushed r.1.effects = pushed e.effects ∧
          ∃ n : Nat, r.1.rd = read_packets re.env (n + 1) e.rd ∧
            read_packet re.env (read_packets re.env n e.rd) = some (r.1.rd, none)) ∧
        (∃ r, run_task_loop re fuel e = some r ∧
          r.2 = r.1.rd._ff.initialized ∧
          pushed r.1.effects = pushed e.effects ∧
          ∃ n : Nat, r.1.rd = read_packets re.env (n + 1) e.rd ∧
            read_packet re.env (read_packets re.env n e.rd) = some (r.1.rd, none)))) := by
  have hk := sampling_keep_iff e._sampling_prob (re.click_random e.random_draws) hp
  refine ⟨?_, sampling_keep_card _ hp, ?_, ?_, ?_⟩
  · rw [(sample_eq re e).1]; exact hk
  · intro h
    rw [(sample_eq re e).1]
    apply hk.mpr
    rw [h]
    exact Nat.mod_lt _ (by decide)
  · intro e1 e2 p p1 fuel hn hg hx
    have hf := next_packet_frame re e (e1, some p) hn
    have htc := timing_gate_frame re e1 (some p)
    have hm2 := expand_frame re _ (some p) (e2, p1) hx
    have hprob : e2._sampling_prob = e._sampling_prob := by
      rw [hm2.2.1, htc.2.1, hf.1]
    have hse := sample_eq re e2
    have hk2 := sampling_keep_iff e2._sampling_prob (re.click_random e2.random_draws)
      (by rw [hprob]; exact hp)
    rw [run_task_loop_step re e e1 e2 p p1 fuel hn hg hx,
      pull_loop_step re e e1 e2 p p1 fuel hn hg hx]
    constructor
    · intro hlt
      have hs : (sample re e2).2 = true := by
        rw [hse.1]; exact hk2.mpr (by rw [hprob]; exact hlt)
      rw [if_pos hs, if_pos hs, hse.2.2.1]
      exact ⟨rfl, rfl⟩
    · intro hge
      have hs : ¬ (sample re e2).2 = true := by
        rw [hse.1]
        intro h
        have hlt := hk2.mp h
        rw [hprob] at hlt
        exact hge hlt
      rw [if_neg hs, if_neg hs]
      refine ⟨rfl, rfl, ?_, ?_⟩
      · unfold kill_packet
        dsimp only
        rw [hse.2.2.1]
      · have hlt28 : ¬ e2._sampling_prob ≥ 1 <<< SAMPLING_SHIFT := by
          intro hge2
          apply hge
          have h28 : 1 <<< SAMPLING_SHIFT = 2 ^ 28 := by decide
          rw [h28, hprob] at hge2
          exact lt_of_lt_of_le (Nat.mod_lt _ (by decide)) hge2
        unfold kill_packet sample
        rw [if_neg hlt28]
  · intro hz
    refine ⟨sample_zero re e hz, fun fuel r h => pull_loop_sample_zero re fuel e r hz h,
      fun fuel r h => run_task_loop_sample_zero re fuel e r hz h, ?_⟩
    intro hi ht hm hw fuel hf
    constructor
    · obtain ⟨r, hr, hinit, hn⟩ := pull_loop_reaches_eof re fuel e hi hz ht hm hw hf
      have := pull_loop_sample_zero re fuel e r hz hr
      exact ⟨r, hr, this.1, hinit, this.2, hn⟩
    · obtain ⟨r, hr, hinit, hn⟩ := run_task_loop_returns re fuel e hi hz ht hm hw hf
      exact ⟨r, hr, hinit, run_task_loop_sample_zero re fuel e r hz hr, hn⟩

/-- C25 on the sample engine with a probability of one half, reading the records
`6 80` and `7 81`, with a first draw of 200000000, which is not below `2^27`,
and a second draw of 5: the packet of the first record is killed and the loop
goes on, the packet of the second record is pushed by `run_task` and returned
by `pull`; with a probability of zero `run_task` kills both packets and returns
false at the end of the source. -/
theorem sampling_rule_witness :
    ex_c25_engine._sampling_prob ≤ 2 ^ 28 ∧
    ¬ ex_c25_env.click_random 0 % 2 ^ 28 < ex_c25_engine._sampling_prob ∧
    (run_task_loop ex_c25_env 12 ex_c25_engine
        = run_task_loop ex_c25_env 11
            (kill_packet
              (sample ex_c25_env
                { ex_c25_engine with rd := read_packets ex_env 1 ex_c25_engine.rd }).1
              (some { ex_packet with timestamp_anno := 6 })) ∧
      pull_loop ex_c25_env 12 ex_c25_engine
        = pull_loop ex_c25_env 11
            (kill_packet
              (sample ex_c25_env
                { ex_c25_engine with rd := read_packets ex_env 1 ex_c25_engine.rd }).1
              (some { ex_packet with timestamp_anno := 6 })) ∧
      (kill_packet
          (sample ex_c25_env
            { ex_c25_engine with rd := read_packets ex_env 1 ex_c25_engine.rd }).1
          (some { ex_packet with timestamp_anno := 6 })).effects
        = ex_c25_engine.effects ++ [Effect.kill { ex_packet with timestamp_anno := 6 }] ∧
      (kill_packet
          (sample ex_c25_env
            { ex_c25_engine with rd := read_packets ex_env 1 ex_c25_engine.rd }).1
          (some { ex_packet with timestamp_anno := 6 })).random_draws
        = ex_c25_engine.random_draws + 1) ∧
    (run_task ex_c25_env 12 ex_c25_engine).map (fun r => (r.1.effects, r.2))
      = some ([Effect.kill { ex_packet with timestamp_anno := 6 },
          Effect.push { ex_packet with timestamp_anno := 7 }, Effect.task_fast_reschedule],
          true) ∧
    (pull ex_c25_env 12 ex_c25_engine).map (fun r => (r.1.effects, r.2))
      = some ([Effect.kill { ex_packet with timestamp_anno := 6 }, Effect.notifier_wake],
          some { ex_packet with timestamp_anno := 7 }) ∧
    (run_task ex_c25_env 12 { ex_c25_engine with _sampling_prob := 0 }).map
        (fun r => (r.1.effects, r.2))
      = some ([Effect.kill { ex_packet with timestamp_anno := 6 },
          Effect.kill { ex_packet with timestamp_anno := 7 }], false) ∧
    (run_task ex_c25_env 12 { ex_c25_engine with _sampling_prob := 0 }).map
        (fun r => (r.1.rd._ff.input, r.1.rd._ff.initialized))
      = some ([], false) ∧
    (pull ex_c25_env 12 { ex_c25_engine with _sampling_prob := 0 }).map
        (fun r => (r.2, r.1.rd._ff.initialized))
      = some (none, false) :=
  ⟨by decide, by decide,
    ((sampling_rule ex_c25_env ex_c25_engine (by decide)).2.2.2.1
      { ex_c25_engine with rd := read_packets ex_env 1 ex_c25_engine.rd }
      { ex_c25_engine with rd := read_packets ex_env 1 ex_c25_engine.rd }
      { ex_packet with timestamp_anno := 6 } (some { ex_packet with timestamp_anno := 6 }) 11
      rfl rfl rfl).2 (by decide),
    by decide, by decide, by decide, by decide, by decide⟩

/-! ## Multi-packet expansion -/

/-- When `uniqueify` succeeds, `set_packet_lengths` returns a packet with the buffer
length and the annotations of its argument. -/
theorem set_packet_lengths_annos (ok : Packet → Bool) (p : Packet) (x : Nat)
    (hok : ok p = true) :
    ∃ q, set_packet_lengths ok p x = some q ∧ q.length = p.length ∧
      q.extra_length_anno = p.extra_length_anno ∧
      q.extra_packets_anno = p.extra_packets_anno ∧
      q.timestamp_anno = p.timestamp_anno := by
  unfold set_packet_lengths
  dsimp only
  split
  · split <;> exact ⟨_, rfl, rfl, rfl, rfl, rfl⟩
  · exact ⟨_, rfl, rfl, rfl, rfl, rfl⟩

/-- Subtracting from a value reduced to 32 bits, then reducing, is reducing the
difference. -/
theorem to_uint32_sub (a b : Int) : to_uint32 ((to_uint32 a : Int) - b) = to_uint32 (a - b) := by
  unfold to_uint32
  omega

/-- The conversion to `uint32_t` keeps a 32-bit value. -/
theorem to_uint32_natCast (n : Nat) (h : n < 2 ^ 32) : to_uint32 (n : Int) = n := by
  unfold to_uint32
  omega

/-- One call of `handle_multipacket` past the set-up block, for a packet that stands
for `k + 2` packets: the clone returned and the packet left in the work slot. -/
theorem multipacket_emit_spec {D : Type} (re : RunEnv D) (hc : ∀ q, re.clone_ok q = true)
    (hu : ∀ q, re.uniqueify_ok q = true) (e : Engine D) (w : Packet) (k : Nat)
    (hk : k + 2 < 2 ^ 32) :
    ∃ w' : Packet,
      multipacket_emit re e w (k + 2)
        = ({ e with _work_packet := some w' },
            some { w with
              extra_packets_anno := 0
              extra_length_anno :=
                to_uint32 ((e._multipacket_length : Int) - (w.length : Int)) }) ∧
      w'.extra_packets_anno = k ∧ w'.length = w.length ∧
      w'.timestamp_anno
        = (if k = 0 then e._multipacket_end_timestamp
          else w.timestamp_anno + e._multipacket_timestamp_delta) ∧
      w'.extra_length_anno
        = to_uint32 ((w.extra_length_anno : Int) - (e._multipacket_length : Int)) := by
  have hcnt : to_uint32 (((k + 2 : Nat) : Int) - 2) = k := by
    unfold to_uint32; omega
  unfold multipacket_emit
  dsimp only
  rw [if_pos (hc w), hcnt]
  by_cases h0 : k = 0
  · subst h0
    rw [if_pos rfl]
    obtain ⟨q, hq, hl, hx, hp, ht⟩ := set_packet_lengths_annos re.uniqueify_ok
      { w with
        extra_packets_anno := 0
        extra_length_anno :=
          to_uint32 ((w.extra_length_anno : Int) - (e._multipacket_length : Int))
        timestamp_anno := e._multipacket_end_timestamp }
      (to_uint32 ((w.extra_length_anno : Int) - (e._multipacket_length : Int))) (hu _)
    refine ⟨q, ?_, hp, hl, ?_, hx⟩
    · rw [hq]
    · rw [ht]; rfl
  · rw [if_neg (by omega)]
    refine ⟨_, rfl, rfl, rfl, ?_, rfl⟩
    rw [if_neg h0]

/-- The call of `handle_multipacket` on a packet that stands for itself alone. -/
theorem handle_multipacket_last {D : Type} (re : RunEnv D) (e : Engine D) (w : Packet)
    (h : w.extra_packets_anno = 0) :
    handle_multipacket re e (some w) = some ({ e with _work_packet := none }, some w) := by
  unfold handle_multipacket
  dsimp only
  rw [if_pos h]

/-- The call of `handle_multipacket` on the packet in the work slot, standing for
`k + 2` packets. -/
theorem handle_multipacket_slot {D : Type} (re : RunEnv D) (e : Engine D) (w : Packet)
    (k : Nat) (hs : e._work_packet.isSome = true) (hw : w.extra_packets_anno = k + 1)
    (hk : k + 2 < 2 ^ 32) :
    handle_multipacket re e (some w) = some (multipacket_emit re e w (k + 2)) := by
  unfold handle_multipacket
  dsimp only
  rw [if_neg (by omega), hw]
  have : (1 + (k + 1)) % 2 ^ 32 = k + 2 := by omega
  have hne : ¬ (e._work_packet.isNone = true) := by
    cases hh : e._work_packet with
    | none => rw [hh] at hs; cases hs
    | some _ => simp
  rw [this, if_neg hne]

/-- The calls of `handle_multipacket` from a packet in the work slot that stands
for `k + 1` packets: `k + 1` calls, each returning a packet; the timestamps step
by the stored delta and end with the stored end timestamp; the first `k`
packets carry the stored per-packet length, the last one what is left. -/
theorem multipacket_calls_slot {D : Type} (re : RunEnv D) (hc : ∀ q, re.clone_ok q = true)
    (hu : ∀ q, re.uniqueify_ok q = true) :
    ∀ (k fuel : Nat) (e : Engine D) (w : Packet),
      e._work_packet.isSome = true → w.extra_packets_anno = k → k + 1 < 2 ^ 32 → k < fuel →
      ∃ (tr : List (Option Packet × Bool)) (pk : List Packet),
        multipacket_calls re fuel e w = some tr ∧
        tr.map Prod.fst = pk.map some ∧
        tr.map Prod.snd = List.replicate k true ++ [false] ∧
        pk.map (fun q => q.extra_packets_anno) = List.replicate (k + 1) 0 ∧
        pk.map (fun q => q.length) = List.replicate (k + 1) w.length ∧
        pk.map (fun q => q.timestamp_anno)
          = (List.range k).map
              (fun j : Nat => w.timestamp_anno + (j : Int) * e._multipacket_timestamp_delta)
            ++ [if k = 0 then w.timestamp_anno else e._multipacket_end_timestamp] ∧
        pk.map (fun q => q.extra_length_anno)
          = List.replicate k (to_uint32 ((e._multipacket_length : Int) - (w.length : Int)))
            ++ [if k = 0 then w.extra_length_anno
              else to_uint32 ((w.extra_length_anno : Int)
                - (k : Int) * (e._multipacket_length : Int))] := by
  intro k
  induction k with
  | zero =>
    intro fuel e w _ hw _ hf
    obtain ⟨f, rfl⟩ : ∃ f, fuel = f + 1 := ⟨fuel - 1, by omega⟩
    refine ⟨[(some w, false)], [w], ?_, rfl, rfl, ?_, rfl, rfl, rfl⟩
    · unfold multipacket_calls
      rw [handle_multipacket_last re e w hw]
    · simp [hw]
  | succ k ih =>
    intro fuel e w hs hw hk hf
    obtain ⟨f, rfl⟩ : ∃ f, fuel = f + 1 := ⟨fuel - 1, by omega⟩
    obtain ⟨w', hem, hep, hlen, hts, hx⟩ := multipacket_emit_spec re hc hu e w k (by omega)
    obtain ⟨tr', pk', htr, hfst, hsnd, hp, hl, ht, he⟩ :=
      ih f { e with _work_packet := some w' } w' rfl hep (by omega) (by omega)
    refine ⟨(some { w with
        extra_packets_anno := 0
        extra_length_anno := to_uint32 ((e._multipacket_length : Int) - (w.length : Int)) },
        true) :: tr',
      { w with
        extra_packets_anno := 0
        extra_length_anno := to_uint32 ((e._multipacket_length : Int) - (w.length : Int)) }
        :: pk', ?_, ?_, ?_, ?_, ?_, ?_, ?_⟩
    · unfold multipacket_calls
      rw [handle_multipacket_slot re e w k hs hw (by omega), hem]
      dsimp only
      rw [htr]
      rfl
    · simp [hfst]
    · simp [hsnd, List.replicate_succ]
    · simp [hp, List.replicate_succ]
    · simp [hl, hlen, List.replicate_succ]
    · rw [List.map_cons, ht, hts]
      dsimp only
      by_cases h0 : k = 0
      · subst h0
        simp [List.range_succ]
      · rw [if_neg h0, if_neg h0, if_neg (by omega), List.range_succ_eq_map, List.map_cons,
          List.map_map, List.cons_append]
        congr 1
        · simp
        · congr 1
          apply List.map_congr_left
          intro j _
          simp only [Function.comp, Nat.succ_eq_add_one]
          push_cast
          ring
    · rw [List.map_cons, he, hx, hlen]
      dsimp only
      rw [List.replicate_succ, List.cons_append]
      congr 2
      by_cases h0 : k = 0
      · subst h0
        simp
      · rw [if_neg h0, if_neg (by omega), to_uint32_sub]
        congr 1
        push_cast
        ring_nf

/-- What the set-up block computes for a packet that stands for `n + 2` packets. -/
theorem multipacket_setup_values {D : Type} (re : RunEnv D) (e : Engine D) (p : Packet)
    (n : Nat) :
    ∃ (e1 : Engine D) (p2 : Packet),
      multipacket_setup re e p (n + 2) = some (e1, p2) ∧
      e1._multipacket_length
        = (if (p.length + p.extra_length_anno) % 2 ^ 32 / (n + 2) < p.length then p.length
          else (p.length + p.extra_length_anno) % 2 ^ 32 / (n + 2)) ∧
      e1._multipacket_end_timestamp = p.timestamp_anno ∧
      e1._multipacket_timestamp_delta
        = (if p.first_timestamp_anno ≠ 0 then
            re.ts_div (p.timestamp_anno - p.first_timestamp_anno) (n + 1)
          else 0) ∧
      p2.length = p.length ∧
      p2.extra_packets_anno = p.extra_packets_anno ∧
      p2.extra_length_anno
        = (if (p.length + p.extra_length_anno) % 2 ^ 32 / (n + 2) < p.length then
            p.length * (n + 1) % 2 ^ 32
          else p.extra_length_anno) ∧
      p2.timestamp_anno
        = (if p.first_timestamp_anno ≠ 0 then p.first_timestamp_anno else p.timestamp_anno) := by
  have hc1 : n + 2 - 1 = n + 1 := by omega
  unfold multipacket_setup
  rw [if_neg (by omega), hc1]
  by_cases h1 : (p.length + p.extra_length_anno) % 2 ^ 32 / (n + 2) < p.length <;>
    by_cases h2 : p.first_timestamp_anno ≠ 0 <;>
    simp only [h1, if_true, if_false, ne_eq, not_false_eq_true, not_true_eq_false] <;>
    simp only [h2, if_true, if_false, ne_eq, not_false_eq_true, not_true_eq_false] <;>
    exact ⟨_, _, rfl, rfl, rfl, rfl, rfl, rfl, rfl, rfl⟩

/-- The calls of `handle_multipacket` from a new packet that stands for `n + 2`
packets, with the work slot empty: after the set-up block they are the calls
from the work slot. -/
theorem multipacket_calls_source {D : Type} (re : RunEnv D)
    (hc : ∀ q, re.clone_ok q = true) (hu : ∀ q, re.uniqueify_ok q = true)
    (e : Engine D) (p : Packet) (n fuel : Nat) (he : e._work_packet = none)
    (hp : p.extra_packets_anno = n + 1) (hn : n + 2 < 2 ^ 32) (hf : n + 1 < fuel) :
    ∃ (e1 : Engine D) (p2 : Packet) (tr : List (Option Packet × Bool)) (pk : List Packet),
      multipacket_setup re e p (n + 2) = some (e1, p2) ∧
      multipacket_calls re fuel e p = some tr ∧
      tr.map Prod.fst = pk.map some ∧
      tr.map Prod.snd = List.replicate (n + 1) true ++ [false] ∧
      pk.map (fun q => q.extra_packets_anno) = List.replicate (n + 2) 0 ∧
      pk.map (fun q => q.length) = List.replicate (n + 2) p.length ∧
      pk.map (fun q => q.timestamp_anno)
        = (List.range (n + 1)).map
            (fun j : Nat => p2.timestamp_anno + (j : Int) * e1._multipacket_timestamp_delta)
          ++ [e1._multipacket_end_timestamp] ∧
      pk.map (fun q => q.extra_length_anno)
        = List.replicate (n + 1) (to_uint32 ((e1._multipacket_length : Int) - (p.length : Int)))
          ++ [to_uint32 ((p2.extra_length_anno : Int)
            - ((n + 1 : Nat) : Int) * (e1._multipacket_length : Int))] := by
  obtain ⟨e1, p2, hs, _, _, _, hl2, hp2, _, _⟩ := multipacket_setup_values re e p n
  obtain ⟨w, hw, hwl, hwx, hwp, hwt⟩ := set_packet_lengths_annos re.uniqueify_ok p2
    (to_uint32 ((e1._multipacket_length : Int) - (p2.length : Int))) (hu p2)
  obtain ⟨f, rfl⟩ : ∃ f, fuel = f + 1 := ⟨fuel - 1, by omega⟩
  have hcnt : (1 + p.extra_packets_anno) % 2 ^ 32 = n + 2 := by rw [hp]; omega
  have h1 : handle_multipacket re e (some p) = some (multipacket_emit re e1 w (n + 2)) := by
    unfold handle_multipacket
    dsimp only
    rw [if_neg (by omega), hcnt, he]
    simp only [Option.isNone_none, if_true]
    rw [hs]
    dsimp only
    rw [hw]
  have hwp' : w.extra_packets_anno = n + 1 := by rw [hwp, hp2, hp]
  have h2 : handle_multipacket re { e1 with _work_packet := some w } (some w)
      = some (multipacket_emit re e1 w (n + 2)) := by
    rw [handle_multipacket_slot re { e1 with _work_packet := some w } w n rfl hwp' hn]
    rfl
  have hcalls : multipacket_calls re (f + 1) e p
      = multipacket_calls re (f + 1) { e1 with _work_packet := some w } w := by
    unfold multipacket_calls
    rw [h1, h2]
  obtain ⟨tr, pk, htr, hfst, hsnd, hpk, hlen, hts, hx⟩ :=
    multipacket_calls_slot re hc hu (n + 1) (f + 1) { e1 with _work_packet := some w } w rfl
      hwp' (by omega) hf
  refine ⟨e1, p2, tr, pk, hs, by rw [hcalls, htr], hfst, hsnd, hpk, ?_, ?_, ?_⟩
  · rw [hlen, hwl, hl2]
  · rw [hts, hwt, if_neg (by omega)]
  · rw [hx, hwl, hl2, hwx, if_neg (by omega)]

/-- The sums of two projections along a list whose projections are constant up
to the last element. -/
theorem map_add_of_maps (f g : Packet → Nat) (b c r : Nat) :
    ∀ (m : Nat) (pk : List Packet), pk.map f = List.replicate (m + 1) b →
      pk.map g = List.replicate m c ++ [r] →
      pk.map (fun q => f q + g q) = List.replicate m (b + c) ++ [b + r] := by
  intro m
  induction m with
  | zero =>
    intro pk hf hg
    cases pk with
    | nil => simp at hf
    | cons q pk' =>
      cases pk' with
      | nil =>
        simp only [List.map_cons, List.map_nil, List.replicate_succ, List.replicate_zero,
          List.nil_append, List.cons.injEq, and_true] at hf hg ⊢
        rw [hf, hg]
      | cons q' pk'' => simp at hf
  | succ m ih =>
    intro pk hf hg
    cases pk with
    | nil => simp at hf
    | cons q pk' =>
      rw [List.replicate_succ] at hf
      rw [List.replicate_succ, List.cons_append] at hg
      simp only [List.map_cons, List.cons.injEq] at hf hg
      rw [List.map_cons, ih pk' hf.2 hg.2, hf.1, hg.1, List.replicate_succ, List.cons_append]

/-- The total lengths (buffer length plus extra-length annotation) of the packets
that `handle_multipacket` returns for a new packet standing for `n + 2` packets,
the annotation `x` being a 32-bit value and `b` the buffer length: with `q` the
quotient of `(b + x) mod 2^32` by `n + 2`, the first `n + 1` packets total
`max(q, b)` each, and the last one carries what is left of the annotation, or
nothing when the quotient is below the buffer length. -/
theorem multipacket_totals {D : Type} (re : RunEnv D)
    (hc : ∀ q, re.clone_ok q = true) (hu : ∀ q, re.uniqueify_ok q = true)
    (e : Engine D) (p : Packet) (n fuel : Nat) (he : e._work_packet = none)
    (hp : p.extra_packets_anno = n + 1) (hn : n + 2 < 2 ^ 32) (hf : n + 1 < fuel)
    (hx : p.extra_length_anno < 2 ^ 32) :
    ∃ (tr : List (Option Packet × Bool)) (pk : List Packet),
      multipacket_calls re fuel e p = some tr ∧
      tr.map Prod.fst = pk.map some ∧
      pk.length = n + 2 ∧
      pk.map (fun q => q.length + q.extra_length_anno)
        = List.replicate (n + 1)
            (max ((p.length + p.extra_length_anno) % 2 ^ 32 / (n + 2)) p.length)
          ++ [p.length +
            (if (p.length + p.extra_length_anno) % 2 ^ 32 / (n + 2) < p.length then 0
              else p.extra_length_anno
                - (n + 1) * ((p.length + p.extra_length_anno) % 2 ^ 32 / (n + 2)))] := by
  obtain ⟨e1, p2, tr, pk, hs, htr, hfst, _, hep, hlen, _, hextra⟩ :=
    multipacket_calls_source re hc hu e p n fuel he hp hn hf
  obtain ⟨e1', p2', hs', hml, _, _, _, _, hx2, _⟩ := multipacket_setup_values re e p n
  rw [hs] at hs'
  simp only [Option.some.injEq, Prod.mk.injEq] at hs'
  obtain ⟨rfl, rfl⟩ := hs'
  refine ⟨tr, pk, htr, hfst, ?_, ?_⟩
  · have := congrArg List.length hep
    simpa using this
  · have hq1 := Nat.div_mul_le_self ((p.length + p.extra_length_anno) % 2 ^ 32) (n + 2)
    have hq2 := Nat.mod_le (p.length + p.extra_length_anno) (2 ^ 32)
    have hq3 : (p.length + p.extra_length_anno) % 2 ^ 32 / (n + 2)
        ≤ (p.length + p.extra_length_anno) % 2 ^ 32 := Nat.div_le_self _ _
    have hq4 : (p.length + p.extra_length_anno) % 2 ^ 32 < 2 ^ 32 := Nat.mod_lt _ (by decide)
    rw [hml, hx2] at hextra
    generalize (p.length + p.extra_length_anno) % 2 ^ 32 / (n + 2) = q at *
    generalize (p.length + p.extra_length_anno) % 2 ^ 32 = T at *
    have hmul : q * (n + 2) = (n + 1) * q + q := by ring
    by_cases hlt : q < p.length
    · rw [if_pos hlt] at hextra ⊢
      rw [if_pos hlt] at hextra
      have h1 : to_uint32 ((p.length : Int) - (p.length : Int)) = max q p.length - p.length := by
        have : max q p.length = p.length := max_eq_right (le_of_lt hlt)
        rw [this]
        unfold to_uint32; omega
      have h2 : to_uint32 (((p.length * (n + 1) % 2 ^ 32 : Nat) : Int)
          - ((n + 1 : Nat) : Int) * (p.length : Int)) = 0 := by
        have : ((n + 1 : Nat) : Int) * (p.length : Int) = ((p.length * (n + 1) : Nat) : Int) := by
          push_cast; ring
        rw [this]
        generalize p.length * (n + 1) = M
        unfold to_uint32; omega
      rw [h1, h2] at hextra
      have := map_add_of_maps (fun q => q.length) (fun q => q.extra_length_anno) p.length
        (max q p.length - p.length) 0 (n + 1) pk hlen hextra
      rw [this]
      have hm : p.length + (max q p.length - p.length) = max q p.length := by
        have := le_max_right q p.length
        omega
      rw [hm]
    · rw [if_neg hlt] at hextra ⊢
      rw [if_neg hlt] at hextra
      have hmax : max q p.length = q := max_eq_left (by omega)
      have h1 : to_uint32 ((q : Int) - (p.length : Int)) = max q p.length - p.length := by
        rw [hmax]
        unfold to_uint32; omega
      have hM : (n + 1) * q ≤ p.extra_length_anno := by
        generalize (n + 1) * q = M at hmul
        omega
      have h2 : to_uint32 ((p.extra_length_anno : Int) - ((n + 1 : Nat) : Int) * (q : Int))
          = p.extra_length_anno - (n + 1) * q := by
        have : ((n + 1 : Nat) : Int) * (q : Int) = (((n + 1) * q : Nat) : Int) := by
          push_cast; ring
        rw [this]
        generalize (n + 1) * q = M at hM
        unfold to_uint32; omega
      rw [h1, h2] at hextra
      have := map_add_of_maps (fun q => q.length) (fun q => q.extra_length_anno) p.length
        (max q p.length - p.length) (p.extra_length_anno - (n + 1) * q) (n + 1) pk hlen hextra
      rw [this]
      have hm : p.length + (max q p.length - p.length) = max q p.length := by
        have := le_max_right q p.length
        omega
      rw [hm]

/-- C21. From an empty work slot and a source packet with extra-packets annotation
`N - 1`, for `2 <= N < 2^32`, when `clone` and `uniqueify` succeed: calling
`handle_multipacket` first with the source and then with the packet in the work
slot takes exactly `N` calls to empty the slot again; every call returns a
packet, each with extra-packets annotation 0; the slot is non-empty after each
of the first `N - 1` calls and empty after the `N`-th. -/
theorem multipacket_emits_count {D : Type} (re : RunEnv D)
    (hc : ∀ q, re.clone_ok q = true) (hu : ∀ q, re.uniqueify_ok q = true)
    (e : Engine D) (p : Packet) (N fuel : Nat) (he : e._work_packet = none)
    (hN : 2 ≤ N) (hN2 : N < 2 ^ 32) (hp : p.extra_packets_anno = N - 1) (hf : N ≤ fuel) :
    ∃ (tr : List (Option Packet × Bool)) (pk : List Packet),
      multipacket_calls re fuel e p = some tr ∧
      tr.length = N ∧
      tr.map Prod.fst = pk.map some ∧
      pk.length = N ∧
      (∀ q ∈ pk, q.extra_packets_anno = 0) ∧
      tr.map Prod.snd = List.replicate (N - 1) true ++ [false] := by
  obtain ⟨n, rfl⟩ : ∃ n, N = n + 2 := ⟨N - 2, by omega⟩
  obtain ⟨e1, p2, tr, pk, _, htr, hfst, hsnd, hep, _⟩ :=
    multipacket_calls_source re hc hu e p n fuel he (by omega) hN2 (by omega)
  have hl1 : pk.length = n + 2 := by
    have := congrArg List.length hep
    simpa using this
  have hl2 : tr.length = n + 2 := by
    have := congrArg List.length hfst
    simp only [List.length_map] at this
    rw [this, hl1]
  refine ⟨tr, pk, htr, hl2, hfst, hl1, ?_, hsnd⟩
  intro q hq
  have : q.extra_packets_anno ∈ pk.map (fun q => q.extra_packets_anno) :=
    List.mem_map_of_mem _ hq
  rw [hep] at this
  exact List.eq_of_mem_replicate this

theorem multipacket_emits_count_witness :
    (∀ q, ex_run_env.clone_ok q = true) ∧ (∀ q, ex_run_env.uniqueify_ok q = true) ∧
    (ex_engine [])._work_packet = none ∧ ex_multi_packet.extra_packets_anno = 3 - 1 ∧
    (∃ (tr : List (Option Packet × Bool)) (pk : List Packet),
      multipacket_calls ex_run_env 3 (ex_engine []) ex_multi_packet = some tr ∧
      tr.length = 3 ∧
      tr.map Prod.fst = pk.map some ∧
      pk.length = 3 ∧
      (∀ q ∈ pk, q.extra_packets_anno = 0) ∧
      tr.map Prod.snd = List.replicate (3 - 1) true ++ [false]) :=
  ⟨fun _ => rfl, fun _ => rfl, rfl, rfl,
    multipacket_emits_count ex_run_env (fun _ => rfl) (fun _ => rfl) (ex_engine [])
      ex_multi_packet 3 3 rfl (by decide) (by decide) rfl (by decide)⟩

/-- C22, as stated, fails: for the sample packet with count 2, a 40-byte buffer and
no extra length (total length 40), the two packets returned total 40 bytes
each, 80 together. -/
theorem multipacket_sum_exceeds_total :
    ex_c22_packet.length + ex_c22_packet.extra_length_anno = 40 ∧
    (multipacket_calls ex_run_env 2 (ex_engine []) ex_c22_packet).map
        (fun tr => tr.map (fun x => x.1.map (fun q => q.length + q.extra_length_anno)))
      = some [some 40, some 40] := by
  decide

/-- C22, amended. For a source packet with count `N`, `2 <= N < 2^32`, a buffer
length `b` and an extra-length annotation `x` that is a 32-bit value: the buffer
lengths plus extra-length annotations of the `N` packets returned sum to
`b + x` when the quotient of `(b + x) mod 2^32` by `N` is at least `b` (which
implies that `b + x` is below `2^32`), and to `N * b` otherwise. -/
theorem multipacket_length_sum {D : Type} (re : RunEnv D)
    (hc : ∀ q, re.clone_ok q = true) (hu : ∀ q, re.uniqueify_ok q = true)
    (e : Engine D) (p : Packet) (N fuel : Nat) (he : e._work_packet = none)
    (hN : 2 ≤ N) (hN2 : N < 2 ^ 32) (hp : p.extra_packets_anno = N - 1) (hf : N ≤ fuel)
    (hx : p.extra_length_anno < 2 ^ 32) :
    ∃ (tr : List (Option Packet × Bool)) (pk : List Packet),
      multipacket_calls re fuel e p = some tr ∧
      tr.map Prod.fst = pk.map some ∧
      pk.length = N ∧
      (pk.map (fun q => q.length + q.extra_length_anno)).sum
        = (if p.length ≤ (p.length + p.extra_length_anno) % 2 ^ 32 / N then
            p.length + p.extra_length_anno
          else N * p.length) ∧
      (p.length ≤ (p.length + p.extra_length_anno) % 2 ^ 32 / N →
        p.length + p.extra_length_anno < 2 ^ 32) := by
  obtain ⟨n, rfl⟩ : ∃ n, N = n + 2 := ⟨N - 2, by omega⟩
  obtain ⟨tr, pk, htr, hfst, hlen, htot⟩ :=
    multipacket_totals re hc hu e p n fuel he (by omega) hN2 (by omega) hx
  have hq1 := Nat.div_mul_le_self ((p.length + p.extra_length_anno) % 2 ^ 32) (n + 2)
  have hq3 : (p.length + p.extra_length_anno) % 2 ^ 32 / (n + 2)
      ≤ (p.length + p.extra_length_anno) % 2 ^ 32 := Nat.div_le_self _ _
  have hwrap : p.length ≤ (p.length + p.extra_length_anno) % 2 ^ 32 / (n + 2) →
      p.length + p.extra_length_anno < 2 ^ 32 := by
    intro h
    by_contra hge
    have : (p.length + p.extra_length_anno) % 2 ^ 32
        = p.length + p.extra_length_anno - 2 ^ 32 := by omega
    omega
  refine ⟨tr, pk, htr, hfst, hlen, ?_, hwrap⟩
  rw [htot, List.sum_append, List.sum_replicate, List.sum_singleton, smul_eq_mul]
  by_cases hle : p.length ≤ (p.length + p.extra_length_anno) % 2 ^ 32 / (n + 2)
  · have hT : (p.length + p.extra_length_anno) % 2 ^ 32 = p.length + p.extra_length_anno :=
      Nat.mod_eq_of_lt (hwrap hle)
    rw [if_pos hle, if_neg (by omega), max_eq_left hle]
    rw [hT] at hq1 hle ⊢
    generalize (p.length + p.extra_length_anno) / (n + 2) = q at *
    have hmul : q * (n + 2) = (n + 1) * q + q := by ring
    generalize (n + 1) * q = M at *
    omega
  · rw [if_neg hle, if_pos (by omega), max_eq_right (by omega)]
    ring

theorem multipacket_length_sum_witness :
    (ex_engine [])._work_packet = none ∧ ex_multi_packet.extra_packets_anno = 3 - 1 ∧
    ex_multi_packet.extra_length_anno < 2 ^ 32 ∧
    (∃ (tr : List (Option Packet × Bool)) (pk : List Packet),
      multipacket_calls ex_run_env 3 (ex_engine []) ex_multi_packet = some tr ∧
      tr.map Prod.fst = pk.map some ∧
      pk.length = 3 ∧
      (pk.map (fun q => q.length + q.extra_length_anno)).sum
        = (if ex_multi_packet.length
              ≤ (ex_multi_packet.length + ex_multi_packet.extra_length_anno) % 2 ^ 32 / 3 then
            ex_multi_packet.length + ex_multi_packet.extra_length_anno
          else 3 * ex_multi_packet.length) ∧
      (ex_multi_packet.length
          ≤ (ex_multi_packet.length + ex_multi_packet.extra_length_anno) % 2 ^ 32 / 3 →
        ex_multi_packet.length + ex_multi_packet.extra_length_anno < 2 ^ 32)) ∧
    (multipacket_calls ex_run_env 3 (ex_engine []) ex_multi_packet).map
        (fun tr => tr.map (fun x => x.1.map (fun q => q.length + q.extra_length_anno)))
      = some [some 100, some 100, some 100] :=
  ⟨rfl, rfl, by decide,
    multipacket_length_sum ex_run_env (fun _ => rfl) (fun _ => rfl) (ex_engine [])
      ex_multi_packet 3 3 rfl (by decide) (by decide) rfl (by decide) (by decide),
    by decide⟩

/-- The timestamps of the packets that `handle_multipacket` returns for a new
packet standing for `n + 2` packets: from the first timestamp in steps of the
delta, then the timestamp of the source; all the timestamp of the source when
the first timestamp is unset. -/
theorem multipacket_timestamps {D : Type} (re : RunEnv D)
    (hc : ∀ q, re.clone_ok q = true) (hu : ∀ q, re.uniqueify_ok q = true)
    (e : Engine D) (p : Packet) (n fuel : Nat) (he : e._work_packet = none)
    (hp : p.extra_packets_anno = n + 1) (hn : n + 2 < 2 ^ 32) (hf : n + 1 < fuel) :
    ∃ (tr : List (Option Packet × Bool)) (pk : List Packet),
      multipacket_calls re fuel e p = some tr ∧
      tr.map Prod.fst = pk.map some ∧
      pk.length = n + 2 ∧
      (p.first_timestamp_anno ≠ 0 →
        pk.map (fun q => q.timestamp_anno)
          = (List.range (n + 1)).map
              (fun k : Nat => p.first_timestamp_anno + (k : Int)
                * re.ts_div (p.timestamp_anno - p.first_timestamp_anno) (n + 1))
            ++ [p.timestamp_anno]) ∧
      (p.first_timestamp_anno = 0 →
        pk.map (fun q => q.timestamp_anno) = List.replicate (n + 2) p.timestamp_anno) := by
  obtain ⟨e1, p2, tr, pk, hs, htr, hfst, _, hep, _, hts, _⟩ :=
    multipacket_calls_source re hc hu e p n fuel he hp hn hf
  obtain ⟨e1', p2', hs', _, hend, hd, _, _, _, ht2⟩ := multipacket_setup_values re e p n
  rw [hs] at hs'
  simp only [Option.some.injEq, Prod.mk.injEq] at hs'
  obtain ⟨rfl, rfl⟩ := hs'
  have hl1 : pk.length = n + 2 := by
    have := congrArg List.length hep
    simpa using this
  rw [hend, hd, ht2] at hts
  refine ⟨tr, pk, htr, hfst, hl1, ?_, ?_⟩
  · intro h0
    rw [hts, if_pos h0, if_pos h0]
  · intro h0
    rw [hts, if_neg (by simp [h0]), if_neg (by simp [h0])]
    simp only [mul_zero, add_zero]
    rw [List.map_const', List.length_range, ← List.replicate_succ']

/-- C23, as stated, fails: for the sample packet with count 2, timestamp 1000 and
first timestamp 3000, the two packets returned carry 3000 and then 1000. -/
theorem multipacket_timestamps_can_decrease :
    (multipacket_calls ex_run_env 2 (ex_engine []) ex_c23_packet).map
        (fun tr => tr.map (fun x => x.1.map (fun q => q.timestamp_anno)))
      = some [some 3000, some 1000] := by
  decide

/-- C23, amended. For a source packet with count `N`, `2 <= N < 2^32`, timestamp `t`
and first timestamp `t0`: when `t0` is unset, or when the step `d` that the
`Timestamp` division yields for `(t - t0) / (N - 1)` is not negative and
`(N - 2) * d <= t - t0` (so for `t0 <= t` and a division that is exact or rounds
toward zero), the timestamps of the `N` packets returned are non-decreasing in
emission order. -/
theorem multipacket_timestamps_monotonic {D : Type} (re : RunEnv D)
    (hc : ∀ q, re.clone_ok q = true) (hu : ∀ q, re.uniqueify_ok q = true)
    (e : Engine D) (p : Packet) (N fuel : Nat) (he : e._work_packet = none)
    (hN : 2 ≤ N) (hN2 : N < 2 ^ 32) (hp : p.extra_packets_anno = N - 1) (hf : N ≤ fuel)
    (hd : p.first_timestamp_anno ≠ 0 →
      0 ≤ re.ts_div (p.timestamp_anno - p.first_timestamp_anno) (N - 1) ∧
      ((N - 2 : Nat) : Int) * re.ts_div (p.timestamp_anno - p.first_timestamp_anno) (N - 1)
        ≤ p.timestamp_anno - p.first_timestamp_anno) :
    ∃ (tr : List (Option Packet × Bool)) (pk : List Packet),
      multipacket_calls re fuel e p = some tr ∧
      tr.map Prod.fst = pk.map some ∧
      pk.length = N ∧
      List.Pairwise (fun a b => a ≤ b) (pk.map (fun q => q.timestamp_anno)) := by
  obtain ⟨n, rfl⟩ : ∃ n, N = n + 2 := ⟨N - 2, by omega⟩
  obtain ⟨tr, pk, htr, hfst, hlen, h1, h0⟩ :=
    multipacket_timestamps re hc hu e p n fuel he (by omega) hN2 (by omega)
  refine ⟨tr, pk, htr, hfst, hlen, ?_⟩
  by_cases hz : p.first_timestamp_anno = 0
  · rw [h0 hz]
    exact List.pairwise_replicate.mpr (Or.inr (le_refl _))
  · rw [h1 hz]
    have hd' := hd hz
    have e1 : n + 2 - 1 = n + 1 := by omega
    have e2 : n + 2 - 2 = n := by omega
    rw [e1, e2] at hd'
    generalize re.ts_div (p.timestamp_anno - p.first_timestamp_anno) (n + 1) = d at hd' ⊢
    rw [List.pairwise_append]
    refine ⟨?_, List.pairwise_singleton _ _, ?_⟩
    · rw [List.pairwise_map]
      refine List.Pairwise.imp ?_ (List.pairwise_lt_range (n + 1))
      intro a b hab
      have : (a : Int) * d ≤ (b : Int) * d :=
        mul_le_mul_of_nonneg_right (by exact_mod_cast le_of_lt hab) hd'.1
      omega
    · intro a ha b hb
      rw [List.mem_singleton] at hb
      subst hb
      rw [List.mem_map] at ha
      obtain ⟨k, hk, rfl⟩ := ha
      rw [List.mem_range] at hk
      have : (k : Int) * d ≤ (n : Int) * d :=
        mul_le_mul_of_nonneg_right (by exact_mod_cast Nat.le_of_lt_succ hk) hd'.1
      omega

theorem multipacket_timestamps_monotonic_witness :
    (ex_engine [])._work_packet = none ∧ ex_multi_packet.extra_packets_anno = 3 - 1 ∧
    (ex_multi_packet.first_timestamp_anno ≠ 0 →
      0 ≤ ex_run_env.ts_div
          (ex_multi_packet.timestamp_anno - ex_multi_packet.first_timestamp_anno) (3 - 1) ∧
      ((3 - 2 : Nat) : Int) * ex_run_env.ts_div
          (ex_multi_packet.timestamp_anno - ex_multi_packet.first_timestamp_anno) (3 - 1)
        ≤ ex_multi_packet.timestamp_anno - ex_multi_packet.first_timestamp_anno) ∧
    (∃ (tr : List (Option Packet × Bool)) (pk : List Packet),
      multipacket_calls ex_run_env 3 (ex_engine []) ex_multi_packet = some tr ∧
      tr.map Prod.fst = pk.map some ∧
      pk.length = 3 ∧
      List.Pairwise (fun a b => a ≤ b) (pk.map (fun q => q.timestamp_anno))) :=
  ⟨rfl, rfl, fun _ => by decide,
    multipacket_timestamps_monotonic ex_run_env (fun _ => rfl) (fun _ => rfl) (ex_engine [])
      ex_multi_packet 3 3 rfl (by decide) (by decide) rfl (by decide) (fun _ => by decide)⟩

/-- C24. With the timing gate off, for a source packet with count `N`,
`2 <= N < 2^32`, timestamp `t` and first timestamp `t0`: when `t0` is not zero,
the `k`-th packet returned, `k = 0 .. N-2`, carries `t0 + k * d`, where `d` is what
the `Timestamp` division yields for `(t - t0) / (N - 1)`, and the `N`-th carries
`t`; when `t0` is unset, all `N` packets carry `t`. -/
theorem multipacket_timestamp_interpolation {D : Type} (re : RunEnv D)
    (hc : ∀ q, re.clone_ok q = true) (hu : ∀ q, re.uniqueify_ok q = true)
    (e : Engine D) (p : Packet) (N fuel : Nat) (he : e._work_packet = none)
    (hN : 2 ≤ N) (hN2 : N < 2 ^ 32) (hp : p.extra_packets_anno = N - 1) (hf : N ≤ fuel) :
    ∃ (tr : List (Option Packet × Bool)) (pk : List Packet),
      multipacket_calls re fuel e p = some tr ∧
      tr.map Prod.fst = pk.map some ∧
      pk.length = N ∧
      (p.first_timestamp_anno ≠ 0 →
        pk.map (fun q => q.timestamp_anno)
          = (List.range (N - 1)).map
              (fun k : Nat => p.first_timestamp_anno + (k : Int)
                * re.ts_div (p.timestamp_anno - p.first_timestamp_anno) (N - 1))
            ++ [p.timestamp_anno]) ∧
      (p.first_timestamp_anno = 0 →
        pk.map (fun q => q.timestamp_anno) = List.replicate N p.timestamp_anno) := by
  obtain ⟨n, rfl⟩ : ∃ n, N = n + 2 := ⟨N - 2, by omega⟩
  exact multipacket_timestamps re hc hu e p n fuel he (by omega) hN2 (by omega)

theorem multipacket_timestamp_interpolation_witness :
    (ex_engine [])._work_packet = none ∧ ex_multi_packet.extra_packets_anno = 3 - 1 ∧
    (∃ (tr : List (Option Packet × Bool)) (pk : List Packet),
      multipacket_calls ex_run_env 3 (ex_engine []) ex_multi_packet = some tr ∧
      tr.map Prod.fst = pk.map some ∧
      pk.length = 3 ∧
      (ex_multi_packet.first_timestamp_anno ≠ 0 →
        pk.map (fun q => q.timestamp_anno)
          = (List.range (3 - 1)).map
              (fun k : Nat => ex_multi_packet.first_timestamp_anno + (k : Int)
                * ex_run_env.ts_div
                  (ex_multi_packet.timestamp_anno - ex_multi_packet.first_timestamp_anno)
                  (3 - 1))
            ++ [ex_multi_packet.timestamp_anno]) ∧
      (ex_multi_packet.first_timestamp_anno = 0 →
        pk.map (fun q => q.timestamp_anno)
          = List.replicate 3 ex_multi_packet.timestamp_anno)) ∧
    (multipacket_calls ex_run_env 3 (ex_engine []) ex_multi_packet).map
        (fun tr => tr.map (fun x => x.1.map (fun q => q.timestamp_anno)))
      = some [some 1000000, some 2000000, some 3000000] :=
  ⟨rfl, rfl,
    multipacket_timestamp_interpolation ex_run_env (fun _ => rfl) (fun _ => rfl) (ex_engine [])
      ex_multi_packet 3 3 rfl (by decide) (by decide) rfl (by decide),
    by decide⟩

/-- C29, as stated, fails: for the sample packet with count 2, a 40-byte buffer and
the extra-length annotation `2^32 - 20`, the first packet returned totals 40
bytes, while the larger of `floor((b + e) / 2)` and `b` is 2147483658. -/
theorem multipacket_length_wraps :
    (multipacket_calls ex_run_env 2 (ex_engine []) ex_c29_packet).map
        (fun tr => tr.map (fun x => x.1.map (fun q => q.length + q.extra_length_anno)))
      = some [some 40, some 40] ∧
    max ((ex_c29_packet.length + ex_c29_packet.extra_length_anno) / 2) ex_c29_packet.length
      = 2147483658 := by
  decide

/-- C29, amended. For a source packet with count `N`, `2 <= N < 2^32`, a buffer
length `b` and an extra-length annotation `x` that is a 32-bit value, with `q`
the quotient of `(b + x) mod 2^32` by `N`: each of the first `N - 1` packets
returned has buffer length plus extra-length annotation `max(q, b)`, and the
last one has the buffer length `b` and the extra-length annotation
`x - (N - 1) * q`, or 0 when `q < b`. -/
theorem multipacket_per_packet_length {D : Type} (re : RunEnv D)
    (hc : ∀ q, re.clone_ok q = true) (hu : ∀ q, re.uniqueify_ok q = true)
    (e : Engine D) (p : Packet) (N fuel : Nat) (he : e._work_packet = none)
    (hN : 2 ≤ N) (hN2 : N < 2 ^ 32) (hp : p.extra_packets_anno = N - 1) (hf : N ≤ fuel)
    (hx : p.extra_length_anno < 2 ^ 32) :
    ∃ (tr : List (Option Packet × Bool)) (pk : List Packet),
      multipacket_calls re fuel e p = some tr ∧
      tr.map Prod.fst = pk.map some ∧
      pk.length = N ∧
      pk.map (fun q => q.length + q.extra_length_anno)
        = List.replicate (N - 1)
            (max ((p.length + p.extra_length_anno) % 2 ^ 32 / N) p.length)
          ++ [p.length +
            (if (p.length + p.extra_length_anno) % 2 ^ 32 / N < p.length then 0
              else p.extra_length_anno
                - (N - 1) * ((p.length + p.extra_length_anno) % 2 ^ 32 / N))] := by
  obtain ⟨n, rfl⟩ : ∃ n, N = n + 2 := ⟨N - 2, by omega⟩
  exact multipacket_totals re hc hu e p n fuel he (by omega) hN2 (by omega) hx

theorem multipacket_per_packet_length_witness :
    (ex_engine [])._work_packet = none ∧ ex_c29_packet.extra_packets_anno = 2 - 1 ∧
    ex_c29_packet.extra_length_anno < 2 ^ 32 ∧
    (∃ (tr : List (Option Packet × Bool)) (pk : List Packet),
      multipacket_calls ex_run_env 2 (ex_engine []) ex_c29_packet = some tr ∧
      tr.map Prod.fst = pk.map some ∧
      pk.length = 2 ∧
      pk.map (fun q => q.length + q.extra_length_anno)
        = List.replicate (2 - 1)
            (max ((ex_c29_packet.length + ex_c29_packet.extra_length_anno) % 2 ^ 32 / 2)
              ex_c29_packet.length)
          ++ [ex_c29_packet.length +
            (if (ex_c29_packet.length + ex_c29_packet.extra_length_anno) % 2 ^ 32 / 2
                < ex_c29_packet.length then 0
              else ex_c29_packet.extra_length_anno
                - (2 - 1) * ((ex_c29_packet.length + ex_c29_packet.extra_length_anno)
                  % 2 ^ 32 / 2))]) :=
  ⟨rfl, rfl, by decide,
    multipacket_per_packet_length ex_run_env (fun _ => rfl) (fun _ => rfl) (ex_engine [])
      ex_c29_packet 2 2 rfl (by decide) (by decide) rfl (by decide) (by decide)⟩

/-! ## The timing gate and the expansion together -/

/-- A packet that `check_timing` admits is not in the work slot afterwards: the
slot is empty. -/
theorem check_timing_admit {D : Type} (re : RunEnv D) (e : Engine D) (p : Packet)
    (h : (check_timing re e p).2 = true) : (check_timing re e p).1._work_packet = none := by
  unfold check_timing at h ⊢
  by_cases hh : e._have_timing = true <;>
    simp only [hh, if_true, if_false, Bool.false_eq_true] at h ⊢ <;>
    (split
     · rename_i hlt
       rw [if_pos hlt] at h
       exact Bool.noConfusion h
     · rfl)

/-- When the timing gate admits a packet that stands for `n + 2` packets, the
work slot is empty afterwards, whatever it held, and the expansion step runs
its set-up block on the packet: the end timestamp becomes the timestamp the
packet has then, and the delta and the per-packet length are computed anew
from its annotations. -/
theorem admitted_packet_is_set_up_again {D : Type} (re : RunEnv D)
    (hu : ∀ q, re.uniqueify_ok q = true) (e : Engine D) (p : Packet) (n : Nat)
    (htm : e._timing = true) (hm : e._multipacket = true)
    (hp : p.extra_packets_anno = n + 1) (hn : n + 2 < 2 ^ 32)
    (hadm : (timing_gate re e (some p)).2 = true) :
    (timing_gate re e (some p)).1._work_packet = none ∧
    ∃ r, expand re (timing_gate re e (some p)).1 (some p) = some r ∧
      r.1._multipacket_end_timestamp = p.timestamp_anno ∧
      r.1._multipacket_timestamp_delta
        = (if p.first_timestamp_anno ≠ 0 then
            re.ts_div (p.timestamp_anno - p.first_timestamp_anno) (n + 1)
          else 0) ∧
      r.1._multipacket_length
        = (if (p.length + p.extra_length_anno) % 2 ^ 32 / (n + 2) < p.length then p.length
          else (p.length + p.extra_length_anno) % 2 ^ 32 / (n + 2)) := by
  have hg : timing_gate re e (some p) = check_timing re e p := by
    unfold timing_gate
    dsimp only
    rw [if_pos htm]
  rw [hg] at hadm ⊢
  have hslot := check_timing_admit re e p hadm
  have hmp : (check_timing re e p).1._multipacket = true := by
    rw [(check_timing_frame re e p).2.2.2.1]; exact hm
  refine ⟨hslot, ?_⟩
  obtain ⟨e1, p2, hs, hml, hend, hd, _⟩ :=
    multipacket_setup_values re (check_timing re e p).1 p n
  obtain ⟨w, hw, _⟩ := set_packet_lengths_annos re.uniqueify_ok p2
    (to_uint32 ((e1._multipacket_length : Int) - (p2.length : Int))) (hu p2)
  have hcnt : (1 + p.extra_packets_anno) % 2 ^ 32 = n + 2 := by rw [hp]; omega
  have h1 : expand re (check_timing re e p).1 (some p)
      = some (multipacket_emit re e1 w (n + 2)) := by
    unfold expand
    rw [if_pos hmp]
    unfold handle_multipacket
    dsimp only
    rw [if_neg (by omega), hcnt, hslot]
    simp only [Option.isNone_none, if_true]
    rw [hs]
    dsimp only
    rw [hw]
  refine ⟨_, h1, ?_, ?_, ?_⟩
  · unfold multipacket_emit
    dsimp only
    split <;> exact hend
  · unfold multipacket_emit
    dsimp only
    split <;> exact hd
  · unfold multipacket_emit
    dsimp only
    split <;> exact hml

/-- C31, failing input. With `TIMING` and `MULTIPACKET` both on, for the record of
Scenario 3 (count 3, first timestamp 1.0, timestamp 3.0): the first run of
`run_task` sets the end timestamp to 3.0 and leaves the partly expanded packet,
stamped 2.0, in the work slot; the second run takes it from the slot, the
timing gate admits it and empties the slot, and `handle_multipacket` runs its
set-up block again: the end timestamp becomes 2.0 and the packet is stamped
1.0 again.  The three packets pushed carry 1.0, 1.0, 2.0; with the timing gate
off they carry 1.0, 2.0, 3.0. -/
theorem timing_gate_restarts_expansion :
    (run_tasks ex_c31_env 5 1 ex_c31_engine).map
        (fun e => (e._multipacket_end_timestamp, e._work_packet.map (fun q => q.timestamp_anno)))
      = some (3000000, some 2000000) ∧
    (run_tasks ex_c31_env 5 2 ex_c31_engine).map
        (fun e => (e._multipacket_end_timestamp, e._work_packet.map (fun q => q.timestamp_anno)))
      = some (2000000, some 2000000) ∧
    (run_tasks ex_c31_env 5 3 ex_c31_engine).map
        (fun e => (pushed e.effects).map (fun q => q.timestamp_anno))
      = some [1000000, 1000000, 2000000] ∧
    (run_tasks ex_c31_env 5 3 ex_c31_engine).map
        (fun e => (e._work_packet, e.rd._ff.input)) = some (none, []) ∧
    (run_tasks ex_c31_env 5 3 { ex_c31_engine with _timing := false }).map
        (fun e => (pushed e.effects).map (fun q => q.timestamp_anno))
      = some [1000000, 2000000, 3000000] := by
  decide

/-! ## Lines that give no packet -/

/-- A line that `read_line` hands out with a positive result is not empty: it
holds at least its newline, or the bytes before the end of the source. -/
theorem read_line_never_empty (ff ff1 : FromFile) (line : Str) (rc : Int)
    (hr : ff.read_line = (ff1, line, rc)) (hrc : 0 < rc) : line ≠ [] := by
  unfold FromFile.read_line at hr
  cases hin : ff.input with
  | nil =>
    rw [hin] at hr
    dsimp only at hr
    cases hr
    exact absurd hrc (by decide)
  | cons c cs =>
    rw [hin] at hr
    simp only at hr
    cases hd : List.dropWhile (fun b => b != 10) (c :: cs) with
    | nil =>
      rw [hd] at hr
      simp only [Prod.mk.injEq] at hr
      have ht : List.takeWhile (fun b => b != 10) (c :: cs) = c :: cs := by
        have h := List.takeWhile_append_dropWhile (fun b => b != 10) (c :: cs)
        rw [hd, List.append_nil] at h
        exact h
      rw [ht] at hr
      intro e
      rw [e] at hr
      exact List.cons_ne_nil _ _ hr.2.1
    | cons nl rest2 =>
      rw [hd] at hr
      simp only [Prod.mk.injEq] at hr
      intro e
      rw [e] at hr
      simp at hr

/-- Dropping the leading whitespace of a line of whitespace leaves nothing. -/
theorem dropWhile_isspace_blank : ∀ line : Str, line.all isspace = true →
    line.dropWhile isspace = [] := by
  intro line
  induction line with
  | nil => intro _; rfl
  | cons c cs ih =>
    intro h
    simp only [List.all_cons, Bool.and_eq_true] at h
    rw [List.dropWhile_cons_of_pos h.1]
    exact ih h.2

/-- The tokens of a line of whitespace are all empty. -/
theorem tokenize_blank (n : Nat) : ∀ line : Str, line.all isspace = true →
    tokenize n line = List.replicate n [] := by
  induction n with
  | zero => intro line _; rfl
  | succ n ih =>
    intro line h
    have hs : scan_token line.length line = line := by
      cases line with
      | nil => rfl
      | cons c cs =>
        simp only [List.all_cons, Bool.and_eq_true] at h
        simp only [List.length_cons, scan_token, h.1, if_true]
    simp only [tokenize, hs, Nat.sub_self, List.take_zero, List.replicate_succ,
      dropWhile_isspace_blank line h]
    rw [ih [] rfl]

/-- With empty arguments only, the ASCII inject loop calls nothing and returns
the descriptor and `nfields` it was given. -/
theorem inject_ascii_blank {D : Type} (env : Env D) (fields : List (FieldReader D)) :
    ∀ (order : List Nat) (d : D) (n : Nat), (∀ i ∈ order, i < fields.length) →
      inject_ascii env fields (List.replicate fields.length []) order d n
        = some { d := d, nfields := n, log := [] } := by
  intro order
  induction order with
  | nil => intro d n _; rfl
  | cons i rest ih =>
    intro d n h
    have hi : i < fields.length := h i (List.mem_cons_self _ _)
    have hrest : ∀ j ∈ rest, j < fields.length := fun j hj => h j (List.mem_cons_of_mem _ hj)
    have hf : fields[i]? = some (fields[i]) := List.getElem?_eq_getElem hi
    have ha : (List.replicate fields.length ([] : Str))[i]? = some [] := by
      rw [List.getElem?_replicate]; simp [hi]
    unfold inject_ascii
    by_cases hp : env.has_p d = false
    · rw [if_pos hp]
    · rw [if_neg hp, hf, ha]
      simp only [true_or, if_true]
      exact ih d n hrest

/-- A byte of `" \t\n\r"` is whitespace. -/
theorem blank_is_space (line : Str)
    (h : line.all (fun c => c == 32 || c == 9 || c == 10 || c == 13) = true) :
    line.all isspace = true := by
  rw [List.all_eq_true] at h ⊢
  intro c hc
  have := h c hc
  simp only [Bool.or_eq_true, beq_iff_eq] at this
  unfold isspace
  rcases this with ((e | e) | e) | e <;> subst e <;> decide

/-- C11. In text mode, for the line that `read_line` hands out next.  When the
line begins with `#`, or begins with `!` without being one of `!data`,
`!contents`, `!flowid`, `!aggregate`, `!binary` followed by a whitespace byte,
the record loop goes on to the next record from a state that differs only in
the source (`_ff`), without a packet, so `read_packet` returns what it returns
when started after that line.  When the line is blank (bytes of `" \t\n\r"`
only, the empty line with its newline among them) and `_field_order` indexes
`_fields`, `read_packet` returns at that line with no packet and a state that
differs only in the source, which stands after the line and holds a message
only if the allocation failed.  The line is never the empty string. -/
theorem unknown_lines_are_skipped {D : Type} (env : Env D) (s : State D) (ff1 : FromFile)
    (line : Str) (rc : Int) (hb : s._binary = false) (hr : s._ff.read_line = (ff1, line, rc))
    (hrc : 0 < rc) :
    ((line.head? = some 35 ∨
        (line.head? = some 33 ∧ is_bang line "!data" = false ∧
          is_bang line "!contents" = false ∧ is_bang line "!flowid" = false ∧
          is_bang line "!aggregate" = false ∧ is_bang line "!binary" = false)) →
      (∀ (fuel : Nat) (l0 : Str),
        read_record env (fuel + 1) s l0 = read_record env fuel { s with _ff := ff1 } line) ∧
      read_packet env s = read_packet env { s with _ff := ff1 }) ∧
    (line.all (fun c => c == 32 || c == 9 || c == 10 || c == 13) = true → fields_indexed s →
      read_packet env s
        = some ({ s with _ff :=
            if (env.make_desc s._zero s._default_proto
                (if s._have_flowid then some s._flowid else none)).isSome then ff1
            else (ff1.error "Cannot allocate memory").1 }, none)) ∧
    line ≠ [] := by
  have hne : line ≠ [] := read_line_never_empty s._ff ff1 line rc hr hrc
  refine ⟨?_, ?_, hne⟩
  · intro hline
    have hline' : line = [] ∨ line.head? = some 35 ∨
        (line.head? = some 33 ∧ is_bang line "!data" = false ∧
          is_bang line "!contents" = false ∧ is_bang line "!flowid" = false ∧
          is_bang line "!aggregate" = false ∧ is_bang line "!binary" = false) := Or.inr hline
    refine ⟨read_record_skip env s ff1 line rc hb hr hrc hline', ?_⟩
    have hc : ff1.input.length < s._ff.input.length := by
      have := read_line_consumes s._ff (by rw [hr]; simp only; omega)
      rwa [hr] at this
    unfold read_packet read_packet_fuel
    rw [read_record_skip env s ff1 line rc hb hr hrc hline',
      read_record_line_irrelevant env _ _ line [],
      read_record_fuel env s._ff.input.length (ff1.input.length + 1) _ [] (by simpa using hc)
        (by simp)]
  · intro hblank hidx
    have hsp := blank_is_space line hblank
    have hhead : line.head? ≠ some 33 ∧ line.head? ≠ some 35 := by
      cases line with
      | nil => exact absurd rfl hne
      | cons c cs =>
        simp only [List.all_cons, Bool.and_eq_true, Bool.or_eq_true, beq_iff_eq] at hblank
        simp only [List.head?_cons, ne_eq, Option.some.injEq]
        rcases hblank.1 with ((e | e) | e) | e <;> rw [e] <;> decide
    have hrec : read_record env (s._ff.input.length + 1) s []
        = some ({ s with _ff := ff1 }, Record.packet line false) := by
      rw [read_record]
      dsimp only
      rw [if_neg (by simp [hb]), hr]
      dsimp only
      rw [if_neg (by omega), if_neg hne, if_pos (Or.inr hhead)]
    unfold read_packet read_packet_fuel
    rw [hrec]
    dsimp only
    unfold read_packet_line
    dsimp only
    cases hm : env.make_desc s._zero s._default_proto
        (if s._have_flowid then some s._flowid else none) with
    | none => simp
    | some d0 =>
      have hpass : assemble_ascii env { s with _ff := ff1 } line d0
          = some { d := d0, nfields := 0, log := [] } := by
        unfold assemble_ascii
        dsimp only
        rw [tokenize_blank _ line hsp]
        exact inject_ascii_blank env s._fields s._field_order d0 0 hidx
      have htw : (line.takeWhile (fun c => c == 32 || c == 9 || c == 10 || c == 13)).length
          = line.length := (takeWhile_length_eq_iff_all _ line).mpr hblank
      simp only [hb] at hpass
      simp only [hb, Bool.false_eq_true, if_false, hpass, Option.map_some', if_true, htw,
        ne_eq, not_true_eq_false, or_self, and_false, Option.isSome_some]

/-- C11 on the sample sources: the line `!creator x` is skipped and the record
after it gives the packet; the empty line gives no packet, and the record after
it is still unread. -/
theorem unknown_lines_are_skipped_witness :
    ex_c11_state._binary = false ∧
    ex_c11_state._ff.read_line
      = (ex_c11_state._ff.read_line.1, str "!creator x\n", 1) ∧
    (0 : Int) < 1 ∧
    ((str "!creator x\n").head? = some 35 ∨
      ((str "!creator x\n").head? = some 33 ∧ is_bang (str "!creator x\n") "!data" = false ∧
        is_bang (str "!creator x\n") "!contents" = false ∧
        is_bang (str "!creator x\n") "!flowid" = false ∧
        is_bang (str "!creator x\n") "!aggregate" = false ∧
        is_bang (str "!creator x\n") "!binary" = false)) ∧
    ((∀ (fuel : Nat) (l0 : Str),
      read_record ex_env (fuel + 1) ex_c11_state l0
        = read_record ex_env fuel { ex_c11_state with _ff := ex_c11_state._ff.read_line.1 }
            (str "!creator x\n")) ∧
    read_packet ex_env ex_c11_state
      = read_packet ex_env { ex_c11_state with _ff := ex_c11_state._ff.read_line.1 }) ∧
    (read_packet ex_env ex_c11_state).map (fun r => r.2)
      = some (some { alive := true, slot := 80, stored := [("ip_proto", 6), ("sport", 80)] }) ∧
    ex_c11_blank_state._binary = false ∧
    ex_c11_blank_state._ff.read_line = (ex_c11_blank_state._ff.read_line.1, str "\n", 1) ∧
    (str "\n").all (fun c => c == 32 || c == 9 || c == 10 || c == 13) = true ∧
    fields_indexed ex_c11_blank_state ∧
    read_packet ex_env ex_c11_blank_state
      = some ({ ex_c11_blank_state with _ff :=
          if (ex_env.make_desc ex_c11_blank_state._zero ex_c11_blank_state._default_proto
              (if ex_c11_blank_state._have_flowid then some ex_c11_blank_state._flowid
                else none)).isSome then ex_c11_blank_state._ff.read_line.1
          else (ex_c11_blank_state._ff.read_line.1.error "Cannot allocate memory").1 }, none) ∧
    (read_packet ex_env ex_c11_blank_state).map (fun r => (r.1._ff.input, r.1._ff.messages))
      = some (str "6 80\n", []) :=
  ⟨rfl, by decide, by decide, by decide,
    (unknown_lines_are_skipped ex_env ex_c11_state ex_c11_state._ff.read_line.1
      (str "!creator x\n") 1 rfl (by decide) (by decide)).1 (by decide),
    by decide, rfl, by decide, by decide, by unfold fields_indexed; decide,
    (unknown_lines_are_skipped ex_env ex_c11_blank_state ex_c11_blank_state._ff.read_line.1
      (str "\n") 1 rfl (by decide) (by decide)).2.1 (by decide)
      (by unfold fields_indexed; decide),
    by decide⟩

end FromIPSummaryDump
